import Mathlib

/-!
simple-c-server: request handling (`connops.c`), the queue library
(`queue.c`) and the thread pool (`serverops.c`).

A shallow embedding of the code of the server.

* A C string is the list of the characters that precede its terminating NUL.
* The calls into the operating system (`recv`, `send`, `stat`, `open`,
  `sendfile`, `close`, `malloc`, `free`) are driven by an explicit environment
  `Env` and recorded in a trace of `Event`s, in program order.
* `size_t`, `ssize_t` and `off_t` values are natural numbers and integers;
  the places where their width can matter are marked in the definitions.
* The queue library works on a memory of nodes, `Heap`; pointers are natural
  numbers and 0 is NULL. `handle_client` keeps its free queue in such a
  memory, and the trace names the blocks it allocates and frees by the
  variable that holds them (`Ptr`).
* The threads of the server are interleaved in steps, a section under the
  lock of the work queue being one step.
-/

namespace CServer

/-! ## C strings -/

/-- The NUL character that terminates a C string. -/
def NUL : Char := Char.ofNat 0

/-- Carriage return. -/
def CR : Char := Char.ofNat 13

/-- Line feed. -/
def LF : Char := Char.ofNat 10

/-- The C string held by a character array: the characters before the first NUL. -/
def cstr (mem : List Char) : List Char :=
  mem.takeWhile (fun c => c != NUL)

/-- `strlen`. -/
def strlen (s : List Char) : Nat := s.length

/-- `strstr haystack needle`: the tail of `haystack` that starts at the first
occurrence of `needle`, `none` for a NULL result. -/
def strstr : List Char → List Char → Option (List Char)
  | [], needle => if needle.isPrefixOf [] then some [] else none
  | c :: cs, needle =>
    if needle.isPrefixOf (c :: cs) then some (c :: cs) else strstr cs needle

/-- `strrchr s c` for a character `c` other than NUL: the tail of `s` that
starts at the last occurrence of `c`, `none` for a NULL result. -/
def strrchr : List Char → Char → Option (List Char)
  | [], _ => none
  | x :: xs, c =>
    match strrchr xs c with
    | some r => some r
    | none => if x = c then some (x :: xs) else none

/-- `strtok` with its hidden position made explicit. `strtok str delim` skips
the leading characters of `str` that belong to the set `delim`; if nothing is
left the result is `none` (NULL). Otherwise the token runs up to the next
character of `delim` (which the C function overwrites with NUL) and the second
component is the text after that character, where a following
`strtok(NULL, delim)` resumes. -/
def strtok (str delim : List Char) : Option (List Char × List Char) :=
  let s := str.dropWhile (fun c => delim.contains c)
  if s.isEmpty then none
  else
    some (s.takeWhile (fun c => !delim.contains c),
          (s.dropWhile (fun c => !delim.contains c)).drop 1)

/-! ## Constants of `connops.h` -/

def BUFFER_LEN : Nat := 2048
def GET_METHOD : List Char := "GET".toList
def STATUS_OK : List Char := "200".toList
def STATUS_OK_M : List Char := "OK".toList
def STATUS_NF : List Char := "404".toList
def STATUS_NF_M : List Char := "Not Found".toList
def HTTP_VERSION : List Char := "HTTP/1.0".toList
def FILE_EXISTS : Int := 1
def FILE_DOESNT_EXIST : Int := 0
def STATUS_CODE_LEN : Nat := 3
def MAX_CONTENT_TYPE_LEN : Nat := 24
def MAX_CONTENT_M_LEN : Nat := 9
def END_OF_REQUEST : List Char := "\r\n\r\n".toList
def END_OF_REQ_LINE : List Char := "\r\n".toList
def EXTRA_INCASE_NOSLASH : Nat := 1
def PATH_COMPONENT : List Char := "/../".toList
def ERROR : Int := -1
def SUCCESS : Int := 0

/-! ## `parse_request` -/

/-- The result of `parse_request`: the boolean it returns and the four
pointers it stores through its out-parameters (`none` is NULL; a pointer that
the function does not reach keeps the NULL it was initialised with in
`handle_client`). -/
structure ParseOut where
  ok : Bool
  request_line : Option (List Char)
  method : Option (List Char)
  file_path : Option (List Char)
  protocol_version : Option (List Char)
deriving DecidableEq, Repr

/-- `parse_request` (connops.c 338-362) on the C string held by the buffer. -/
def parse_request (buffer : List Char) : ParseOut :=
  match strtok buffer END_OF_REQ_LINE with
  | none => ⟨false, none, none, none, none⟩
  | some (request_line, _) =>
    match strtok request_line [' '] with
    | none => ⟨false, some request_line, none, none, none⟩
    | some (method, rest1) =>
      if method ≠ GET_METHOD then ⟨false, some request_line, some method, none, none⟩
      else
        match strtok rest1 [' '] with
        | none => ⟨false, some request_line, some method, none, none⟩
        | some (file_path, rest2) =>
          match strtok rest2 [' '] with
          | none => ⟨false, some request_line, some method, some file_path, none⟩
          | some (protocol_version, _) =>
            if protocol_version ≠ HTTP_VERSION then
              ⟨false, some request_line, some method, some file_path, some protocol_version⟩
            else
              ⟨true, some request_line, some method, some file_path, some protocol_version⟩

/-! ## `path_component_exists` -/

/-- `path_component_exists` (connops.c 304-323): the target is wrapped in
slashes and searched for `PATH_COMPONENT`. -/
def path_component_exists (file_path : List Char) : Bool :=
  let file_path_copy := ['/'] ++ file_path ++ ['/']
  (strstr file_path_copy PATH_COMPONENT).isSome

/-! ## `file_stats` -/

/-- The two fields of `struct stat` that `file_stats` reads: whether
`S_ISREG(st_mode)` holds, and `st_size` (a non-negative `off_t`). -/
structure Stat where
  is_reg : Bool
  st_size : Nat
deriving DecidableEq, Repr

/-- What `file_stats` returns and leaves in its two out-parameters. -/
structure FileStats where
  status : Int
  content_type : List Char
  file_size : Nat
deriving DecidableEq, Repr

/-- `file_stats` (connops.c 376-426). `stat` is the file system: `none` when
the `stat` call fails. `content_type` and `file_size` are the values the
out-parameters hold on entry. -/
def file_stats (stat : List Char → Option Stat) (file_path_full file_path : List Char)
    (content_type : List Char) (file_size : Nat) : FileStats :=
  match stat file_path_full with
  | none => ⟨FILE_DOESNT_EXIST, content_type, file_size⟩
  | some sb =>
    let file_size := sb.st_size
    if sb.is_reg then
      if strlen file_path = 0 then ⟨FILE_DOESNT_EXIST, content_type, file_size⟩
      else
        let noslash : Option (List Char) :=
          if (strstr file_path ['/']).isSome then
            match strrchr file_path '/' with
            | none => none
            | some r => if strlen r ≤ 1 then none else some (r.drop 1)
          else some file_path
        match noslash with
        | none => ⟨FILE_DOESNT_EXIST, content_type, file_size⟩
        | some file_path_noslash =>
          match strrchr file_path_noslash '.' with
          | none => ⟨FILE_EXISTS, "application/octet-stream".toList, file_size⟩
          | some extension =>
            if strlen extension ≤ 1 then
              ⟨FILE_EXISTS, "application/octet-stream".toList, file_size⟩
            else if extension = ".html".toList then
              ⟨FILE_EXISTS, "text/html".toList, file_size⟩
            else if extension = ".css".toList then
              ⟨FILE_EXISTS, "text/css".toList, file_size⟩
            else if extension = ".js".toList then
              ⟨FILE_EXISTS, "text/javascript".toList, file_size⟩
            else if extension = ".jpg".toList then
              ⟨FILE_EXISTS, "image/jpeg".toList, file_size⟩
            else ⟨FILE_DOESNT_EXIST, content_type, file_size⟩
    else ⟨FILE_DOESNT_EXIST, content_type, file_size⟩

/-! ## `create_response_headers` -/

/-- The character of a decimal digit. -/
def digit_char (d : Nat) : Char := Char.ofNat (48 + d)

/-- The digits of `n`, most significant first, in front of `acc`. -/
def fmt_zu_aux : Nat → Nat → List Char → List Char
  | 0, _, acc => acc
  | fuel + 1, n, acc =>
    if n / 10 = 0 then digit_char (n % 10) :: acc
    else fmt_zu_aux fuel (n / 10) (digit_char (n % 10) :: acc)

/-- What the conversion `%zu` of `printf` writes: the decimal digits of `n`. -/
def fmt_zu (n : Nat) : List Char := fmt_zu_aux (n + 1) n []

/-- `create_response_headers` (connops.c 254-293). The three lines are
formatted as by `sprintf` and concatenated; the `Content-Type` line is present
only when `file_status` is non-zero. -/
def create_response_headers (file_status : Int) (status_code status_message
    content_type : List Char) (file_size : Nat) : List Char :=
  let line_1 := HTTP_VERSION ++ [' '] ++ status_code ++ [' '] ++ status_message ++ [CR, LF]
  let line_2 := "Content-Type: ".toList ++ content_type ++ [CR, LF]
  let line_3 := "Content-Length: ".toList ++ fmt_zu file_size ++ [CR, LF, CR, LF]
  let response := line_1
  let response := if file_status ≠ 0 then response ++ line_2 else response
  response ++ line_3

/-! ## The queue library (`queue.c`) -/

/-- The null pointer. Addresses are natural numbers. -/
def NULL : Nat := 0

/-- A node of a queue (`struct queue_node`): the item and the address of the next node. -/
structure queue_node_t where
  data : Nat
  next : Nat
deriving DecidableEq, Repr

/-- The head and tail pointers of a queue (`struct queue`). -/
structure queue_t where
  head : Nat
  tail : Nat
deriving DecidableEq, Repr

/-- The memory the queue library works on.
* `queue`: the queue structures, by address.
* `node`: the queue nodes that are allocated, by address.
* `brk`: the highest address `malloc` has handed out; the next block gets
  the address after it, so that a new block is at no address in use.
* `freed`: the queue nodes and queues given to `free`, in order.
* `released`: the items given to the function `free_data`, in order. -/
structure Heap where
  queue : Nat → Option queue_t
  node : Nat → Option queue_node_t
  brk : Nat
  freed : List Nat
  released : List Nat

/-- `queue_create` (queue.c 20-29): the address of the new queue and the memory after the call. -/
def queue_create (h : Heap) : Nat × Heap :=
  let queue := h.brk + 1
  (queue, { h with brk := h.brk + 1, queue := Function.update h.queue queue (some ⟨NULL, NULL⟩) })

/-- `queue_enqueue` (queue.c 67-87). A pointer that is not NULL and not the
address of a queue is outside the model; the memory is then left as it is
(also in the functions below). -/
def queue_enqueue (h : Heap) (queue data : Nat) : Heap :=
  if queue = NULL then h
  else
    match h.queue queue with
    | none => h
    | some q =>
      let node := h.brk + 1
      let h := { h with brk := h.brk + 1, node := Function.update h.node node (some ⟨data, NULL⟩) }
      if q.head = NULL then
        { h with queue := Function.update h.queue queue (some ⟨node, node⟩) }
      else
        match h.node q.tail with
        | none => h
        | some t =>
          { h with
            node := Function.update h.node q.tail (some ⟨t.data, node⟩)
            queue := Function.update h.queue queue (some ⟨q.head, node⟩) }

/-- `queue_create_from_array` (queue.c 41-54), after the allocation: the loop
that enqueues the elements of the array in order. -/
def queue_enqueue_array (h : Heap) (queue : Nat) : List Nat → Heap
  | [] => h
  | x :: xs => queue_enqueue_array (queue_enqueue h queue x) queue xs

/-- `queue_create_from_array` (queue.c 41-54). -/
def queue_create_from_array (h : Heap) (node_array : List Nat) : Nat × Heap :=
  let c := queue_create h
  (c.1, queue_enqueue_array c.2 c.1 node_array)

/-- `queue_dequeue` (queue.c 98-116): the pointer returned and the memory after the call. -/
def queue_dequeue (h : Heap) (queue : Nat) : Nat × Heap :=
  if queue = NULL then (NULL, h)
  else
    match h.queue queue with
    | none => (NULL, h)
    | some q =>
      if q.head = NULL then (NULL, h)
      else
        match h.node q.head with
        | none => (NULL, h)
        | some node =>
          let head := node.next
          let data := node.data
          let tail := if head = NULL then NULL else q.tail
          (data,
            { h with
              node := Function.update h.node q.head none
              freed := h.freed ++ [q.head]
              queue := Function.update h.queue queue (some ⟨head, tail⟩) })

/-- `queue_peek` (queue.c 127-135). -/
def queue_peek (h : Heap) (queue : Nat) : Nat :=
  if queue = NULL then NULL
  else
    match h.queue queue with
    | none => NULL
    | some q =>
      if q.head = NULL then NULL
      else
        match h.node q.head with
        | none => NULL
        | some node => node.data

/-- `queue_dequeue_free` (queue.c 148-166). `free_data` tells whether the
function pointer is not NULL. -/
def queue_dequeue_free (h : Heap) (queue : Nat) (free_data : Bool) : Heap :=
  if queue = NULL then h
  else
    match h.queue queue with
    | none => h
    | some q =>
      if q.head = NULL then h
      else
        match h.node q.head with
        | none => h
        | some node =>
          let head := node.next
          let tail := if head = NULL then NULL else q.tail
          { h with
            node := Function.update h.node q.head none
            released := h.released ++ (if free_data then [node.data] else [])
            freed := h.freed ++ [q.head]
            queue := Function.update h.queue queue (some ⟨head, tail⟩) }

/-- `queue_is_empty` (queue.c 177-184). -/
def queue_is_empty (h : Heap) (queue : Nat) : Bool :=
  if queue = NULL then true
  else
    match h.queue queue with
    | none => true
    | some q => if q.head = NULL then true else false

/-- The loop of `queue_clean` (queue.c 201-203), run for at most `fuel` rounds. -/
def queue_clean_loop : Nat → Heap → Nat → Bool → Heap
  | 0, h, _, _ => h
  | fuel + 1, h, queue, free_data =>
    if queue_is_empty h queue then h
    else queue_clean_loop fuel (queue_dequeue_free h queue free_data) queue free_data

/-- `queue_clean` (queue.c 196-206), its loop run for at most `fuel` rounds. -/
def queue_clean (fuel : Nat) (h : Heap) (queue : Nat) (free_data : Bool) : Heap :=
  if queue = NULL then h
  else
    let h := queue_clean_loop fuel h queue free_data
    { h with queue := Function.update h.queue queue none, freed := h.freed ++ [queue] }

/-- The chain of nodes that starts at the address `p` and ends with a NULL
`next`: `cells` lists the address and the item of each node, in order. -/
def chain (node : Nat → Option queue_node_t) : Nat → List (Nat × Nat) → Prop
  | p, [] => p = NULL
  | p, c :: rest => p = c.1 ∧ c.1 ≠ NULL ∧ ∃ nx, node c.1 = some ⟨c.2, nx⟩ ∧ chain node nx rest

/-- The queue at the address `queue` is well formed and holds the nodes
`cells` (address and item of each, oldest first): `head` starts their chain,
`tail` is the address of the last of them, NULL when there is none, and the
nodes are distinct blocks that `malloc` has handed out. -/
def queue_holds (h : Heap) (queue : Nat) (cells : List (Nat × Nat)) : Prop :=
  queue ≠ NULL ∧
  ∃ q, h.queue queue = some q ∧ chain h.node q.head cells ∧
    q.tail = (cells.getLast?.map Prod.fst).getD NULL ∧
    (cells.map Prod.fst).Nodup ∧ ∀ c ∈ cells, c.1 ≤ h.brk

/-- An operation on a queue. -/
inductive QueueOp where
  | enqueue (data : Nat)
  | dequeue
deriving DecidableEq, Repr

/-- The items a sequence of operations enqueues, in order. -/
def enqueued : List QueueOp → List Nat
  | [] => []
  | QueueOp.enqueue data :: ops => data :: enqueued ops
  | QueueOp.dequeue :: ops => enqueued ops

/-- A sequence of operations run on the queue at `queue`: the pointers that
the calls of `queue_dequeue` made on a non-empty queue return, in order. -/
def run_queue_ops : List QueueOp → Heap → Nat → List Nat
  | [], _, _ => []
  | QueueOp.enqueue data :: ops, h, queue => run_queue_ops ops (queue_enqueue h queue data) queue
  | QueueOp.dequeue :: ops, h, queue =>
    if queue_is_empty h queue then run_queue_ops ops (queue_dequeue h queue).2 queue
    else (queue_dequeue h queue).1 :: run_queue_ops ops (queue_dequeue h queue).2 queue

/-- A memory in which nothing is allocated. -/
def empty_heap : Heap := ⟨fun _ => none, fun _ => none, 0, [], []⟩

/-! ## The environment and the trace -/

/-- The argument of `handle_client` (`struct arg` of serverops.h). -/
structure Arg where
  clientfd : Int
  root_path : List Char
deriving DecidableEq, Repr

/-- The heap blocks `handle_client` owns: its free queue and the two blocks it
records in that queue. -/
inductive Ptr where
  | free_queue
  | file_path_full
  | response
deriving DecidableEq, Repr

/-- What the socket has for one `recv` call: a failure (a negative return
value) or the bytes that are ready, none of them for a peer that has shut the
connection down. -/
inductive RecvResult where
  | error
  | data (bytes : List Char)
deriving DecidableEq, Repr

/-- The calls `handle_client` makes that are visible outside it, with their
arguments and, where the program looks at it, their result. -/
inductive Event where
  | log (method file_path protocol_version : List Char)
  | stat (path : List Char)
  | send (data : List Char) (n : Int)
  | open_file (path : List Char) (fd : Int)
  | sendfile (offset : Int) (count : Nat) (n : Int)
  | close (fd : Int)
  | alloc (p : Ptr)
  | free (p : Ptr)
deriving DecidableEq, Repr

/-- The world around one connection.
* `recvs`: what the client socket has for each successive `recv`; once the
  list is used up the peer has closed and `recv` returns 0.
* `stat`: the file system as `stat` sees it (`none`: the call fails).
* `sends`: how many bytes the socket takes at each successive `send`
  (negative: the call fails); once the list is used up `send` fails.
* `open_file`: the descriptor `open(path, O_RDONLY)` returns, negative on failure.
* `sendfiles`: how many bytes each successive `sendfile` moves (zero or
  negative: end of file or failure); once the list is used up it returns 0.
* `heap`: the memory of the process when the connection is taken up; nothing
  is allocated in it unless it is said otherwise. -/
structure Env where
  recvs : List RecvResult
  stat : List Char → Option Stat
  sends : List Int
  open_file : List Char → Int
  sendfiles : List Int
  heap : Heap := empty_heap

/-! ## `read_request` -/

/-- Storing `data` into the array `buf` from index `off` on. -/
def memwrite (buf : List Char) (off : Nat) (data : List Char) : List Char :=
  buf.take off ++ data ++ buf.drop (off + data.length)

/-- The loop of `read_request` (connops.c 202-232) followed by the terminating
store of line 234. `recv` hands over at most the `bytes_left` bytes it is asked
for, so `total_recv + bytes_left` stays `BUFFER_LEN` and the `size_t`
arithmetic cannot wrap. -/
def read_request_loop : List RecvResult → List Char → Nat → Nat → Int × List Char
  | script, buffer, total_recv, bytes_left =>
    if total_recv < BUFFER_LEN then
      match script with
      | [] =>
        if (strstr (cstr buffer) END_OF_REQUEST).isSome then
          (SUCCESS, memwrite buffer total_recv [NUL])
        else (ERROR, buffer)
      | RecvResult.error :: _ => (ERROR, buffer)
      | RecvResult.data bytes :: rest =>
        let got := bytes.take bytes_left
        let n := got.length
        if n = 0 then
          if (strstr (cstr buffer) END_OF_REQUEST).isSome then
            (SUCCESS, memwrite buffer total_recv [NUL])
          else (ERROR, buffer)
        else
          let buffer := memwrite buffer total_recv got
          let total_recv := total_recv + n
          let bytes_left := bytes_left - n
          if (strstr (cstr buffer) END_OF_REQUEST).isSome then
            (SUCCESS, memwrite buffer total_recv [NUL])
          else if total_recv = BUFFER_LEN then (ERROR, buffer)
          else read_request_loop rest buffer total_recv bytes_left
    else (SUCCESS, memwrite buffer total_recv [NUL])

/-- `read_request` (connops.c 197-237): the value returned and the buffer it leaves. -/
def read_request (script : List RecvResult) (buffer : List Char) : Int × List Char :=
  read_request_loop script buffer 0 BUFFER_LEN

/-! ## `send_response` -/

/-- The first loop of `send_response` (connops.c 128-146). The result is
`ERROR` when the loop returns `ERROR` from the function and `SUCCESS` when it
is left normally. `send` takes at most the `bytes_left` bytes it is offered, so
`total_sent + bytes_left` stays `strlen(response)` and the `size_t` arithmetic
cannot wrap. -/
def send_headers (response : List Char) : List Int → Nat → Nat → Int × List Event
  | script, total_sent, bytes_left =>
    if total_sent < strlen response then
      let data := (response.drop total_sent).take bytes_left
      match script with
      | [] => (ERROR, [Event.send data (-1)])
      | r :: rest =>
        if r < 0 then (ERROR, [Event.send data (-1)])
        else
          let n := min r.toNat bytes_left
          if n = 0 then (ERROR, [Event.send data 0])
          else
            let tail := send_headers response rest (total_sent + n) (bytes_left - n)
            (tail.1, Event.send data n :: tail.2)
    else (SUCCESS, [])

/-- The largest value of an `off_t`. -/
def OFF_MAX : Int := 2 ^ 63 - 1

/-- The value of one `sendfile(clientfd, fd, &offset, count)` call for which
the kernel has `r` bytes to move (zero or negative: end of file or failure).
The call moves at most `count` bytes and fails rather than take the offset
past `OFF_MAX`. -/
def sendfile_ret (r : Int) (offset : Int) (count : Nat) : Int :=
  if r ≤ 0 then r else if OFF_MAX < offset + min r count then -1 else min r count

/-- The loop `while (sendfile(clientfd, fd, &offset, file_size) > 0);`
(connops.c 170): the final offset and the calls made. A successful call
advances the offset by the number of bytes it moved. -/
def sendfile_loop (count : Nat) : List Int → Int → Int × List Event
  | [], offset => (offset, [Event.sendfile offset count 0])
  | r :: rest, offset =>
    let n := sendfile_ret r offset count
    if 0 < n then
      let tail := sendfile_loop count rest (offset + n)
      (tail.1, Event.sendfile offset count n :: tail.2)
    else (offset, [Event.sendfile offset count n])

/-- `send_response` (connops.c 124-185): the value returned and the calls made. -/
def send_response (sends : List Int) (open_file : List Char → Int) (sendfiles : List Int)
    (response : List Char) (file_status : Int) (file_path_full : List Char)
    (file_size : Nat) : Int × List Event :=
  let hdr := send_headers response sends 0 (strlen response)
  if hdr.1 ≠ SUCCESS then (ERROR, hdr.2)
  else if file_status ≠ 0 then
    let fd := open_file file_path_full
    if fd < 0 then (ERROR, hdr.2 ++ [Event.open_file file_path_full fd])
    else
      let body := sendfile_loop file_size sendfiles 0
      let offset := body.1
      let events := hdr.2 ++ [Event.open_file file_path_full fd] ++ body.2
      if offset < 0 then (ERROR, events)
      else if offset.toNat % 2 ^ 64 ≠ file_size then (ERROR, events)
      else (SUCCESS, events ++ [Event.close fd])
  else (SUCCESS, hdr.2)

/-! ## `handle_client` -/

/-- `malloc` for a block of `handle_client`: the address of the new block and
the memory after the call. The block gets the address after `brk`, as the
blocks of the queue library do. -/
def malloc (h : Heap) : Nat × Heap :=
  (h.brk + 1, { h with brk := h.brk + 1 })

/-- `close_and_clean` (connops.c 458-462): `close(clientfd)`, then
`queue_clean(free_queue, free)` on the memory `h`. The calls of `free` that
`queue_clean` makes are read off the memory it leaves: first the items it gave
to `free_data`, oldest first, then the blocks of the queue library itself.
`blocks` tells which variable of `handle_client` holds which address; a call
of `free` on an address that is none of them (the nodes of the queue, which
belong to the queue library) is left out of the trace. The loop of
`queue_clean` gets `h.brk` rounds: a queue has no more nodes than there are
addresses handed out. -/
def close_and_clean (clientfd : Int) (h : Heap) (free_queue : Nat)
    (blocks : List (Nat × Ptr)) : List Event :=
  let after := queue_clean h.brk h free_queue true
  let calls := after.released.drop h.released.length ++ after.freed.drop h.freed.length
  Event.close clientfd :: calls.filterMap (fun p => (blocks.lookup p).map Event.free)

/-- The zero-initialised array `buffer` of `handle_client` (connops.c 36). -/
def initial_buffer : List Char := List.replicate (BUFFER_LEN + 1) NUL

/-- The string `handle_client` builds in `file_path_full` (connops.c 62-72):
the root, a slash unless the target is empty or brings its own, the target. -/
def file_path_full (root_path file_path : List Char) : List Char :=
  let full := root_path
  let full :=
    if strlen file_path > 0 ∧ file_path.head? ≠ some '/' then full ++ ['/'] else full
  full ++ file_path

/-- `handle_client` (connops.c 27-109): the trace of one connection. Memory
allocation is assumed to succeed (a failed `malloc` ends the process), and the
diagnostics written to `stderr` are left out of the trace. The free queue is
a queue of the queue library: `queue_create` allocates it, `queue_enqueue`
records in it the block of `file_path_full` and the block of `response` that
`create_response_headers` allocates, and `close_and_clean` runs `queue_clean`
on it, all of them in the memory of the process, which is `env.heap` at the
start. -/
def handle_client (arg : Option Arg) (env : Env) : List Event :=
  match arg with
  | none => []
  | some args =>
    let created := queue_create env.heap
    let free_queue := created.1
    let h := created.2
    let blocks := [(free_queue, Ptr.free_queue)]
    let clientfd := args.clientfd
    let root_path := args.root_path
    let rd := read_request env.recvs initial_buffer
    let buffer := cstr rd.2
    if rd.1 ≠ SUCCESS then
      Event.alloc Ptr.free_queue :: close_and_clean clientfd h free_queue blocks
    else if (strstr buffer END_OF_REQ_LINE).isNone then
      Event.alloc Ptr.free_queue :: close_and_clean clientfd h free_queue blocks
    else
      let p := parse_request buffer
      if p.ok = false then
        Event.alloc Ptr.free_queue :: close_and_clean clientfd h free_queue blocks
      else
        let method := p.method.getD []
        let file_path := p.file_path.getD []
        let protocol_version := p.protocol_version.getD []
        let full := file_path_full root_path file_path
        let allocated := malloc h
        let blocks := blocks ++ [(allocated.1, Ptr.file_path_full)]
        let h := queue_enqueue allocated.2 free_queue allocated.1
        let file_status : Int := if path_component_exists file_path then 0 else 1
        let st : FileStats :=
          if file_status ≠ 0 then file_stats env.stat full file_path [] 0
          else ⟨file_status, [], 0⟩
        let stat_events := if file_status ≠ 0 then [Event.stat full] else []
        let file_status := st.status
        let status_code := if file_status ≠ 0 then STATUS_OK else STATUS_NF
        let status_message := if file_status ≠ 0 then STATUS_OK_M else STATUS_NF_M
        let response := create_response_headers file_status status_code status_message
          st.content_type st.file_size
        let allocated := malloc h
        let blocks := blocks ++ [(allocated.1, Ptr.response)]
        let h := queue_enqueue allocated.2 free_queue allocated.1
        let sr := send_response env.sends env.open_file env.sendfiles response file_status
          full st.file_size
        [Event.alloc Ptr.free_queue, Event.log method file_path protocol_version,
          Event.alloc Ptr.file_path_full] ++ stat_events ++ [Event.alloc Ptr.response] ++ sr.2 ++
          (if sr.1 ≠ SUCCESS then close_and_clean clientfd h free_queue blocks
           else close_and_clean clientfd h free_queue blocks)

/-! ## Reading a trace -/

/-- The bytes the socket took from the `send` calls of a trace, in order. -/
def wire : List Event → List Char
  | [] => []
  | Event.send data n :: rest => data.take n.toNat ++ wire rest
  | _ :: rest => wire rest

/-- The text offered to the first `send` call of a trace: the whole header block. -/
def first_send : List Event → Option (List Char)
  | [] => none
  | Event.send data _ :: _ => some data
  | _ :: rest => first_send rest

/-- No `send` call of the trace failed or returned 0. -/
def sends_succeed : List Event → Bool
  | [] => true
  | Event.send _ n :: rest => decide (0 < n) && sends_succeed rest
  | _ :: rest => sends_succeed rest

/-- The bytes the `sendfile` calls of a trace moved, added up. -/
def body_bytes : List Event → Int
  | [] => 0
  | Event.sendfile _ _ n :: rest => (if 0 < n then n else 0) + body_bytes rest
  | _ :: rest => body_bytes rest

/-- The paths given to `stat`. -/
def stat_calls : List Event → List (List Char)
  | [] => []
  | Event.stat path :: rest => path :: stat_calls rest
  | _ :: rest => stat_calls rest

/-- The paths given to `open`. -/
def open_calls : List Event → List (List Char)
  | [] => []
  | Event.open_file path _ :: rest => path :: open_calls rest
  | _ :: rest => open_calls rest

/-- The `sendfile` calls of a trace as pairs (offset, count). -/
def sendfile_calls : List Event → List (Int × Nat)
  | [] => []
  | Event.sendfile offset count _ :: rest => (offset, count) :: sendfile_calls rest
  | _ :: rest => sendfile_calls rest

/-- The descriptors given to `close`. -/
def close_calls : List Event → List Int
  | [] => []
  | Event.close fd :: rest => fd :: close_calls rest
  | _ :: rest => close_calls rest

/-- The end of a trace as the specification describes it: the socket is
closed, the blocks `recorded` in the free queue are freed, oldest first, and
then the queue itself. The function serves to state what `close_and_clean`
does, by comparison with the trace that `queue_clean` leaves. -/
def release_trace (clientfd : Int) (recorded : List Ptr) : List Event :=
  Event.close clientfd :: (recorded.map Event.free ++ [Event.free Ptr.free_queue])

/-! ## Example connections -/

/-- A connection on descriptor 4 of a server whose document root is `/srv`. -/
def example_arg : Arg := ⟨4, "/srv".toList⟩

/-- A client that asks for `/../etc/passwd`; every path exists as a regular
file of 120 bytes, and the socket takes ten bytes, then the rest. -/
def example_env_traversal : Env :=
  { recvs := [RecvResult.data "GET /../etc/passwd HTTP/1.0\r\n\r\n".toList]
    stat := fun _ => some ⟨true, 120⟩
    sends := [10, 1000]
    open_file := fun _ => 5
    sendfiles := [120, 0] }

/-- A client that sends a `POST` request. -/
def example_env_post : Env :=
  { recvs := [RecvResult.data "POST /index.html HTTP/1.0\r\n\r\n".toList]
    stat := fun _ => some ⟨true, 120⟩
    sends := [1000]
    open_file := fun _ => 5
    sendfiles := [120, 0] }

/-- A client that asks for `/missing.png`, with a regular file behind every path. -/
def example_env_png : Env :=
  { recvs := [RecvResult.data "GET /missing.png HTTP/1.0\r\n\r\n".toList]
    stat := fun _ => some ⟨true, 120⟩
    sends := [1000]
    open_file := fun _ => 5
    sendfiles := [120, 0] }

/-- A client that asks for `/docs`, which is a directory of size 4096. -/
def example_env_directory : Env :=
  { recvs := [RecvResult.data "GET /docs HTTP/1.0\r\n\r\n".toList]
    stat := fun _ => some ⟨false, 4096⟩
    sends := [1000]
    open_file := fun _ => 5
    sendfiles := [120, 0] }

/-! ## Notions of the specification -/

/-- A client that asks for `/index.html`, a regular file of 120 bytes that
`sendfile` transfers in two pieces. -/
def example_env_index : Env :=
  { recvs := [RecvResult.data "GET /index.html HTTP/1.0\r\n\r\n".toList]
    stat := fun _ => some ⟨true, 120⟩
    sends := [1000]
    open_file := fun _ => 5
    sendfiles := [100, 20, 0] }

/-- Splitting a text at every space: the pieces between the spaces, in
order, empty pieces included. -/
def split_on_spaces : List Char → List (List Char)
  | [] => [[]]
  | c :: cs =>
    if c = ' ' then [] :: split_on_spaces cs
    else
      match split_on_spaces cs with
      | [] => [[c]]
      | t :: ts => (c :: t) :: ts

/-- The tokens of a text: the non-empty pieces between its spaces. -/
def space_tokens (s : List Char) : List (List Char) :=
  (split_on_spaces s).filter (fun t => !t.isEmpty)

/-- The text of `s` that precedes the first occurrence of `sep`; all of `s`
when `sep` does not occur. -/
def text_before : List Char → List Char → List Char
  | [], _ => []
  | c :: cs, sep => if sep.isPrefixOf (c :: cs) then [] else c :: text_before cs sep

/-- A client whose request has a lone CR and further text between the
protocol token and the end of the first line. -/
def example_env_lone_cr : Env :=
  { recvs := [RecvResult.data "GET /index.html HTTP/1.0\rX\r\n\r\n".toList]
    stat := fun _ => some ⟨true, 120⟩
    sends := [1000]
    open_file := fun _ => 5
    sendfiles := [120, 0] }

/-- A client that sends 3000 bytes without a line end, in one piece. -/
def example_env_flood : Env :=
  { recvs := [RecvResult.data ("GET /".toList ++ List.replicate 2995 'a')]
    stat := fun _ => some ⟨true, 120⟩
    sends := [1000]
    open_file := fun _ => 5
    sendfiles := [120, 0] }

/-! ## The acceptor and the workers (`serverops.c`) -/

/-- The address of the global `work_queue`. -/
def WORK_QUEUE : Nat := 1

/-- The state the threads share: the memory, in which the work queue lies at
`WORK_QUEUE`, and, for the record, the calls of `handle_client` made so far:
the worker and the pointer it passes, in the order in which the pointers were
taken from the queue. -/
structure Server where
  heap : Heap
  handled : List (Nat × Nat)

/-- The state at the start: `queue_t work_queue = { NULL, NULL }`. -/
def server_start : Server :=
  ⟨⟨Function.update (fun _ => none) WORK_QUEUE (some ⟨NULL, NULL⟩), fun _ => none, 1, [], []⟩, []⟩

/-- One round of the loop of `init_server` (serverops.c 88-109), its section
between `pthread_mutex_lock` and `pthread_mutex_unlock` being one step.
`newsockfd` is what `accept` returned and `w_arg` the pointer that
`create_work_arg` returned. -/
def acceptor_round (s : Server) (newsockfd : Int) (w_arg : Nat) : Server :=
  if newsockfd < 0 then s
  else if w_arg = NULL then s
  else { s with heap := queue_enqueue s.heap WORK_QUEUE w_arg }

/-- One round of the loop of `handle_work` (serverops.c 356-376) in the thread
`worker`. The section under the lock is one step; `pthread_cond_wait`, which
the worker reaches when the queue gave NULL, touches nothing of the state.
With a pointer that is not NULL the worker calls `handle_client`. -/
def worker_round (s : Server) (worker : Nat) : Server :=
  let r := queue_dequeue s.heap WORK_QUEUE
  let queue_data := r.1
  if queue_data ≠ NULL then { heap := r.2, handled := s.handled ++ [(worker, queue_data)] }
  else { s with heap := r.2 }

/-- A step of the server: a round of the acceptor or a round of a worker. -/
inductive Step where
  | accept (newsockfd : Int) (w_arg : Nat)
  | work (worker : Nat)
deriving DecidableEq, Repr

/-- An interleaving of the threads, run from the state `s`. -/
def run_server : List Step → Server → Server
  | [], s => s
  | Step.accept newsockfd w_arg :: steps, s => run_server steps (acceptor_round s newsockfd w_arg)
  | Step.work worker :: steps, s => run_server steps (worker_round s worker)

/-- The work items the acceptor enqueues in an interleaving, in order. -/
def accepted : List Step → List Nat
  | [] => []
  | Step.accept newsockfd w_arg :: steps =>
    if newsockfd < 0 then accepted steps
    else if w_arg = NULL then accepted steps
    else w_arg :: accepted steps
  | Step.work _ :: steps => accepted steps

/-- The blocks allocated in a trace, in order. -/
def alloc_calls : List Event → List Ptr
  | [] => []
  | Event.alloc p :: rest => p :: alloc_calls rest
  | _ :: rest => alloc_calls rest

/-- The blocks given to `free` in a trace, in order. -/
def free_calls : List Event → List Ptr
  | [] => []
  | Event.free p :: rest => p :: free_calls rest
  | _ :: rest => free_calls rest

/-- The segments of a target: the pieces between its slashes, in order,
empty pieces included. -/
def segments : List Char → List (List Char)
  | [] => [[]]
  | c :: cs =>
    if c = '/' then [] :: segments cs
    else
      match segments cs with
      | [] => [[c]]
      | s :: ss => (c :: s) :: ss

/-- The loop of `read_request` with the branch of the zero-byte read that
leaves the loop taken out: a zero-byte read always returns `ERROR`. The
function serves to state that the branch is dead code, by comparison with
`read_request_loop`. -/
def read_request_loop_strict : List RecvResult → List Char → Nat → Nat → Int × List Char
  | script, buffer, total_recv, bytes_left =>
    if total_recv < BUFFER_LEN then
      match script with
      | [] => (ERROR, buffer)
      | RecvResult.error :: _ => (ERROR, buffer)
      | RecvResult.data bytes :: rest =>
        let got := bytes.take bytes_left
        let n := got.length
        if n = 0 then (ERROR, buffer)
        else
          let buffer := memwrite buffer total_recv got
          let total_recv := total_recv + n
          let bytes_left := bytes_left - n
          if (strstr (cstr buffer) END_OF_REQUEST).isSome then
            (SUCCESS, memwrite buffer total_recv [NUL])
          else if total_recv = BUFFER_LEN then (ERROR, buffer)
          else read_request_loop_strict rest buffer total_recv bytes_left
    else (SUCCESS, memwrite buffer total_recv [NUL])

/-- A client whose request has a zero byte in front of the request line and
who then waits for the answer. -/
def example_env_zero_byte : Env :=
  { recvs := [RecvResult.data (NUL :: "GET /index.html HTTP/1.0\r\n\r\n".toList)]
    stat := fun _ => some ⟨true, 120⟩
    sends := [1000]
    open_file := fun _ => 5
    sendfiles := [120, 0] }

/-- A client that asks for `/index.html` and closes its end after 100 of the
120 bytes of the file: the second `sendfile` fails. -/
def example_env_broken_transfer : Env :=
  { recvs := [RecvResult.data "GET /index.html HTTP/1.0\r\n\r\n".toList]
    stat := fun _ => some ⟨true, 120⟩
    sends := [1000]
    open_file := fun _ => 5
    sendfiles := [100, -1] }

/-- A call of the queue library on a queue. -/
inductive QueueCall where
  | enqueue (data : Nat)
  | dequeue
  | dequeue_free (free_data : Bool)
  | peek
deriving DecidableEq, Repr

/-- The memory after a sequence of calls on the queue at `queue`.
`queue_peek` writes nothing. -/
def run_queue_calls : List QueueCall → Heap → Nat → Heap
  | [], h, _ => h
  | QueueCall.enqueue data :: calls, h, queue =>
    run_queue_calls calls (queue_enqueue h queue data) queue
  | QueueCall.dequeue :: calls, h, queue =>
    run_queue_calls calls (queue_dequeue h queue).2 queue
  | QueueCall.dequeue_free free_data :: calls, h, queue =>
    run_queue_calls calls (queue_dequeue_free h queue free_data) queue
  | QueueCall.peek :: calls, h, queue => run_queue_calls calls h queue

/-- A client that asks for a file whose name has a space in it; the file
exists and is a regular file of 120 bytes. -/
def example_env_spaced_target : Env :=
  { recvs := [RecvResult.data ("GET ".toList ++ "/a b.html".toList ++ " HTTP/1.0\r\n\r\n".toList)]
    stat := fun _ => some ⟨true, 120⟩
    sends := [1000]
    open_file := fun _ => 5
    sendfiles := [120, 0] }

/-- A client that asks for a file whose name is 2090 letters and `.html`, so
that the request is longer than the buffer; the file exists and is a regular
file of 120 bytes. -/
def example_env_long_target : Env :=
  { recvs := [RecvResult.data ("GET ".toList ++ ('/' :: (List.replicate 2090 'a' ++ ".html".toList))
      ++ " HTTP/1.0\r\n\r\n".toList)]
    stat := fun _ => some ⟨true, 120⟩
    sends := [1000]
    open_file := fun _ => 5
    sendfiles := [120, 0] }

/-- A client that begins with an empty line and then asks for `/index.html`. -/
def example_env_leading_crlf : Env :=
  { recvs := [RecvResult.data "\r\nGET /index.html HTTP/1.0\r\n\r\n".toList]
    stat := fun _ => some ⟨true, 120⟩
    sends := [1000]
    open_file := fun _ => 5
    sendfiles := [120, 0] }

/-- The client of `example_env_index`, handled in a memory in which another
queue with one item, the pointer 7, is allocated already. -/
def example_env_busy_memory : Env :=
  { recvs := [RecvResult.data "GET /index.html HTTP/1.0\r\n\r\n".toList]
    stat := fun _ => some ⟨true, 120⟩
    sends := [1000]
    open_file := fun _ => 5
    sendfiles := [100, 20, 0]
    heap := queue_enqueue (queue_create empty_heap).2 (queue_create empty_heap).1 7 }

/-! # Lemmas -/

theorem strstr_isSome_iff (h n : List Char) : (strstr h n).isSome = true ↔ n <:+: h := by
  induction h with
  | nil => simp [strstr, List.isPrefixOf_iff_prefix]
  | cons c cs ih =>
    unfold strstr
    by_cases hp : n.isPrefixOf (c :: cs) = true
    · simp only [hp, if_true, Option.isSome_some, true_iff]
      exact (List.isPrefixOf_iff_prefix.mp hp).isInfix
    · simp only [hp, Bool.false_eq_true, if_false]
      rw [ih, List.infix_cons_iff]
      constructor
      · intro h; exact Or.inr h
      · rintro (h | h)
        · exact absurd (List.isPrefixOf_iff_prefix.mpr h) hp
        · exact h

theorem strrchr_eq_none_iff (s : List Char) (c : Char) : strrchr s c = none ↔ c ∉ s := by
  induction s with
  | nil => simp [strrchr]
  | cons x xs ih =>
    unfold strrchr
    cases h : strrchr xs c with
    | some r =>
      have : ¬ c ∉ xs := fun hc => by rw [ih.mpr hc] at h; cases h
      simp only [List.mem_cons, not_or]
      constructor
      · intro h'; cases h'
      · intro h'; exact absurd h'.2 this
    | none =>
      have hc := ih.mp h
      by_cases hx : x = c
      · simp [hx]
      · simp [hx, hc, Ne.symm hx]

theorem strrchr_append_cons (A B : List Char) (c : Char) (hB : c ∉ B) :
    strrchr (A ++ c :: B) c = some (c :: B) := by
  induction A with
  | nil =>
    simp only [List.nil_append]
    unfold strrchr
    rw [(strrchr_eq_none_iff B c).mpr hB]
    simp
  | cons a A ih =>
    simp only [List.cons_append]
    unfold strrchr
    rw [ih]

theorem ERROR_ne_SUCCESS : ERROR ≠ SUCCESS := by decide

theorem memwrite_append (pre suf data : List Char) (total : Nat) (h : pre.length = total) :
    memwrite (pre ++ suf) total data = pre ++ data ++ suf.drop data.length := by
  subst h
  simp [memwrite, List.take_append_eq_append_take, List.drop_append_eq_append_drop]

theorem memwrite_nul (pre : List Char) (k total : Nat) (h : pre.length = total) (hk : 0 < k) :
    memwrite (pre ++ List.replicate k NUL) total [NUL] = pre ++ List.replicate k NUL := by
  rw [memwrite_append _ _ _ _ h]
  obtain ⟨j, rfl⟩ : ∃ j, k = j + 1 := ⟨k - 1, by omega⟩
  simp [List.replicate_succ]

theorem read_request_loop_terminator (script : List RecvResult) :
    ∀ (pre : List Char) (total left : Nat), pre.length = total → total < BUFFER_LEN →
      total + left = BUFFER_LEN →
      (read_request_loop script (pre ++ List.replicate (BUFFER_LEN + 1 - total) NUL) total left).1
        = SUCCESS →
      (strstr (cstr (read_request_loop script
        (pre ++ List.replicate (BUFFER_LEN + 1 - total) NUL) total left).2) END_OF_REQUEST).isSome
        = true := by
  induction script with
  | nil =>
    intro pre total left hlen hlt hsum
    unfold read_request_loop
    simp only [hlt, if_true]
    split
    · rename_i hfound
      intro _
      rw [memwrite_nul _ _ _ hlen (by omega)]
      exact hfound
    · intro h; exact absurd h ERROR_ne_SUCCESS
  | cons r rest ih =>
    intro pre total left hlen hlt hsum
    unfold read_request_loop
    simp only [hlt, if_true]
    cases r with
    | error => intro h; exact absurd h ERROR_ne_SUCCESS
    | data bytes =>
      simp only
      split
      · split
        · rename_i hfound
          intro _
          rw [memwrite_nul _ _ _ hlen (by omega)]
          exact hfound
        · intro h; exact absurd h ERROR_ne_SUCCESS
      · rename_i hn
        have hle : (bytes.take left).length ≤ left := by simp [List.length_take]
        have hbuf : memwrite (pre ++ List.replicate (BUFFER_LEN + 1 - total) NUL) total
            (bytes.take left) = (pre ++ bytes.take left) ++
              List.replicate (BUFFER_LEN + 1 - (total + (bytes.take left).length)) NUL := by
          rw [memwrite_append _ _ _ _ hlen, List.drop_replicate]
          congr 2
          omega
        rw [hbuf]
        have hlen2 : (pre ++ bytes.take left).length = total + (bytes.take left).length := by
          simp [hlen]
        split
        · rename_i hfound
          intro _
          rw [memwrite_nul _ _ _ hlen2 (by omega)]
          exact hfound
        · split
          · intro h; exact absurd h ERROR_ne_SUCCESS
          · rename_i hne
            exact ih _ _ _ hlen2 (by omega) (by omega)

theorem read_request_terminator (script : List RecvResult)
    (h : (read_request script initial_buffer).1 = SUCCESS) :
    (strstr (cstr (read_request script initial_buffer).2) END_OF_REQUEST).isSome = true := by
  have := read_request_loop_terminator script [] 0 BUFFER_LEN rfl (by decide) (by simp)
  simp only [List.nil_append, Nat.sub_zero] at this
  exact this h

@[simp] theorem wire_append (a b : List Event) : wire (a ++ b) = wire a ++ wire b := by
  induction a with
  | nil => rfl
  | cons e a ih => cases e <;> simp [wire, ih]

@[simp] theorem stat_calls_append (a b : List Event) :
    stat_calls (a ++ b) = stat_calls a ++ stat_calls b := by
  induction a with
  | nil => rfl
  | cons e a ih => cases e <;> simp [stat_calls, ih]

@[simp] theorem open_calls_append (a b : List Event) :
    open_calls (a ++ b) = open_calls a ++ open_calls b := by
  induction a with
  | nil => rfl
  | cons e a ih => cases e <;> simp [open_calls, ih]

@[simp] theorem sendfile_calls_append (a b : List Event) :
    sendfile_calls (a ++ b) = sendfile_calls a ++ sendfile_calls b := by
  induction a with
  | nil => rfl
  | cons e a ih => cases e <;> simp [sendfile_calls, ih]

@[simp] theorem close_calls_append (a b : List Event) :
    close_calls (a ++ b) = close_calls a ++ close_calls b := by
  induction a with
  | nil => rfl
  | cons e a ih => cases e <;> simp [close_calls, ih]

@[simp] theorem body_bytes_append (a b : List Event) :
    body_bytes (a ++ b) = body_bytes a + body_bytes b := by
  induction a with
  | nil => simp [body_bytes]
  | cons e a ih => cases e <;> simp [body_bytes, ih, add_assoc]

@[simp] theorem sends_succeed_append (a b : List Event) :
    sends_succeed (a ++ b) = (sends_succeed a && sends_succeed b) := by
  induction a with
  | nil => simp [sends_succeed]
  | cons e a ih => cases e <;> simp [sends_succeed, ih, Bool.and_assoc]

theorem first_send_append (a b : List Event) :
    first_send (a ++ b) = (first_send a).orElse (fun _ => first_send b) := by
  induction a with
  | nil => simp [first_send]
  | cons e a ih => cases e <;> simp [first_send, ih]

/-- The events of `release_trace` touch neither the wire nor the file system. -/
theorem release_trace_quiet (fd : Int) (q : List Ptr) :
    wire (release_trace fd q) = [] ∧ first_send (release_trace fd q) = none ∧
    stat_calls (release_trace fd q) = [] ∧ open_calls (release_trace fd q) = [] ∧
    sendfile_calls (release_trace fd q) = [] ∧ close_calls (release_trace fd q) = [fd] := by
  have h : ∀ l : List Ptr, wire (l.map Event.free) = [] ∧ first_send (l.map Event.free) = none ∧
      stat_calls (l.map Event.free) = [] ∧ open_calls (l.map Event.free) = [] ∧
      sendfile_calls (l.map Event.free) = [] ∧ close_calls (l.map Event.free) = [] := by
    intro l
    induction l with
    | nil => simp [wire, first_send, stat_calls, open_calls, sendfile_calls, close_calls]
    | cons p l ih =>
      simp [wire, first_send, stat_calls, open_calls, sendfile_calls, close_calls, ih]
  obtain ⟨h1, h2, h3, h4, h5, h6⟩ := h q
  simp [release_trace, wire, first_send, stat_calls, open_calls, sendfile_calls, close_calls,
    first_send_append, h1, h2, h3, h4, h5, h6]

theorem send_headers_done (response : List Char) (script : List Int) (total left : Nat)
    (h : ¬ total < strlen response) :
    send_headers response script total left = (SUCCESS, []) := by
  unfold send_headers
  rw [if_neg h]

theorem send_headers_nil (response : List Char) (total left : Nat)
    (h : total < strlen response) :
    send_headers response [] total left =
      (ERROR, [Event.send ((response.drop total).take left) (-1)]) := by
  unfold send_headers
  rw [if_pos h]

theorem send_headers_neg (response : List Char) (r : Int) (rest : List Int) (total left : Nat)
    (h : total < strlen response) (hr : r < 0) :
    send_headers response (r :: rest) total left =
      (ERROR, [Event.send ((response.drop total).take left) (-1)]) := by
  unfold send_headers
  rw [if_pos h]
  simp only [hr, if_true]

theorem send_headers_zero (response : List Char) (r : Int) (rest : List Int) (total left : Nat)
    (h : total < strlen response) (hr : ¬ r < 0) (hn : min r.toNat left = 0) :
    send_headers response (r :: rest) total left =
      (ERROR, [Event.send ((response.drop total).take left) 0]) := by
  unfold send_headers
  rw [if_pos h]
  simp only [hr, if_false, hn, if_true]

theorem send_headers_step (response : List Char) (r : Int) (rest : List Int) (total left : Nat)
    (h : total < strlen response) (hr : ¬ r < 0) (hn : ¬ min r.toNat left = 0) :
    send_headers response (r :: rest) total left =
      ((send_headers response rest (total + min r.toNat left) (left - min r.toNat left)).1,
        Event.send ((response.drop total).take left) (min r.toNat left : Nat) ::
          (send_headers response rest (total + min r.toNat left) (left - min r.toNat left)).2) := by
  conv_lhs => unfold send_headers
  rw [if_pos h]
  simp only [hr, if_false, hn]

/-- The header loop of `send_response`: what reaches the wire is an initial
part of what was still to be sent, all of it when the loop is left normally,
and the loop is left normally when no `send` call returned zero or less. -/
theorem send_headers_spec (response : List Char) (script : List Int) :
    ∀ (total left : Nat), total + left = response.length →
      wire (send_headers response script total left).2 <+: response.drop total ∧
      ((send_headers response script total left).1 = SUCCESS →
        wire (send_headers response script total left).2 = response.drop total) ∧
      (sends_succeed (send_headers response script total left).2 = true →
        (send_headers response script total left).1 = SUCCESS) ∧
      (total < response.length →
        first_send (send_headers response script total left).2 = some (response.drop total)) ∧
      stat_calls (send_headers response script total left).2 = [] ∧
      open_calls (send_headers response script total left).2 = [] ∧
      sendfile_calls (send_headers response script total left).2 = [] ∧
      close_calls (send_headers response script total left).2 = [] ∧
      body_bytes (send_headers response script total left).2 = 0 := by
  have hfail : ∀ (total left : Nat) (n : Int), n ≤ 0 → total + left = response.length →
      total < response.length →
      wire [Event.send ((response.drop total).take left) n] <+: response.drop total ∧
      ((ERROR, [Event.send ((response.drop total).take left) n]).1 = SUCCESS →
        wire [Event.send ((response.drop total).take left) n] = response.drop total) ∧
      (sends_succeed [Event.send ((response.drop total).take left) n] = true →
        (ERROR, [Event.send ((response.drop total).take left) n]).1 = SUCCESS) ∧
      (total < response.length →
        first_send [Event.send ((response.drop total).take left) n] = some (response.drop total)) ∧
      stat_calls [Event.send ((response.drop total).take left) n] = [] ∧
      open_calls [Event.send ((response.drop total).take left) n] = [] ∧
      sendfile_calls [Event.send ((response.drop total).take left) n] = [] ∧
      close_calls [Event.send ((response.drop total).take left) n] = [] ∧
      body_bytes [Event.send ((response.drop total).take left) n] = 0 := by
    intro total left n hn hsum hlt
    have hdata : (response.drop total).take left = response.drop total := by
      apply List.take_of_length_le; simp; omega
    refine ⟨?_, fun h => absurd h ERROR_ne_SUCCESS, ?_, fun _ => by simp [first_send, hdata],
      rfl, rfl, rfl, rfl, rfl⟩
    · have : n.toNat = 0 := by omega
      simp [wire, this]
    · intro h
      simp only [sends_succeed, Bool.and_true, decide_eq_true_eq] at h
      omega
  have hdone : ∀ (total : Nat), ¬ total < strlen response →
      wire ([] : List Event) <+: response.drop total ∧
      (((SUCCESS, ([] : List Event)).1 = SUCCESS) → wire ([] : List Event) = response.drop total) ∧
      (sends_succeed ([] : List Event) = true →
        (SUCCESS, ([] : List Event)).1 = SUCCESS) ∧
      (total < response.length → first_send ([] : List Event) = some (response.drop total)) ∧
      stat_calls ([] : List Event) = [] ∧ open_calls ([] : List Event) = [] ∧
      sendfile_calls ([] : List Event) = [] ∧ close_calls ([] : List Event) = [] ∧
      body_bytes ([] : List Event) = 0 := by
    intro total hlt
    have hge : response.length ≤ total := Nat.le_of_not_lt hlt
    refine ⟨by simp [wire], fun _ => by simp [wire, List.drop_of_length_le hge], fun _ => rfl,
      fun h => absurd h (by omega), rfl, rfl, rfl, rfl, rfl⟩
  induction script with
  | nil =>
    intro total left hsum
    by_cases hlt : total < strlen response
    · rw [send_headers_nil _ _ _ hlt]
      exact hfail total left (-1) (by omega) hsum hlt
    · rw [send_headers_done _ _ _ _ hlt]
      exact hdone total hlt
  | cons r rest ih =>
    intro total left hsum
    by_cases hlt : total < strlen response
    · by_cases hr : r < 0
      · rw [send_headers_neg _ _ _ _ _ hlt hr]
        exact hfail total left (-1) (by omega) hsum hlt
      · by_cases hn : min r.toNat left = 0
        · rw [send_headers_zero _ _ _ _ _ hlt hr hn]
          exact hfail total left 0 (by omega) hsum hlt
        · rw [send_headers_step _ _ _ _ _ hlt hr hn]
          have hlt2 : total < response.length := hlt
          have hdata : (response.drop total).take left = response.drop total := by
            apply List.take_of_length_le; simp; omega
          have hle : min r.toNat left ≤ left := Nat.min_le_right _ _
          obtain ⟨h1, h2, h3, _, h5, h6, h7, h8, h9⟩ :=
            ih (total + min r.toNat left) (left - min r.toNat left) (by omega)
          have hsplit : response.drop total =
              (response.drop total).take (min r.toNat left) ++
                response.drop (total + min r.toNat left) := by
            rw [← List.drop_drop, List.take_append_drop]
          rw [hdata]
          refine ⟨?_, ?_, ?_, fun _ => by simp [first_send], ?_, ?_, ?_, ?_, ?_⟩
          · simp only [wire, Int.toNat_ofNat]
            conv_rhs => rw [hsplit]
            exact (List.prefix_append_right_inj _).mpr h1
          · intro hs
            simp only [wire, Int.toNat_ofNat]
            rw [h2 hs]
            exact hsplit.symm
          · intro hall
            apply h3
            simp only [sends_succeed, Bool.and_eq_true] at hall
            exact hall.2
          · simpa [stat_calls] using h5
          · simpa [open_calls] using h6
          · simpa [sendfile_calls] using h7
          · simpa [close_calls] using h8
          · simpa [body_bytes] using h9
    · rw [send_headers_done _ _ _ _ hlt]
      exact hdone total hlt

theorem sendfile_ret_pos (r offset : Int) (count : Nat) (h : 0 < sendfile_ret r offset count) :
    offset + sendfile_ret r offset count ≤ OFF_MAX := by
  unfold sendfile_ret at h ⊢
  by_cases h1 : r ≤ 0
  · rw [if_pos h1] at h; omega
  · rw [if_neg h1] at h ⊢
    by_cases h2 : OFF_MAX < offset + min r count
    · rw [if_pos h2] at h; omega
    · rw [if_neg h2]; omega

theorem sendfile_loop_spec (count : Nat) (script : List Int) :
    ∀ (offset : Int), 0 ≤ offset → offset ≤ OFF_MAX →
      (sendfile_loop count script offset).1 = offset + body_bytes (sendfile_loop count script offset).2 ∧
      0 ≤ body_bytes (sendfile_loop count script offset).2 ∧
      (sendfile_loop count script offset).1 ≤ OFF_MAX ∧
      (sendfile_calls (sendfile_loop count script offset).2).head? = some (offset, count) ∧
      wire (sendfile_loop count script offset).2 = [] ∧
      first_send (sendfile_loop count script offset).2 = none ∧
      stat_calls (sendfile_loop count script offset).2 = [] ∧
      open_calls (sendfile_loop count script offset).2 = [] ∧
      close_calls (sendfile_loop count script offset).2 = [] := by
  induction script with
  | nil =>
    intro offset h0 hmax
    simp [sendfile_loop, body_bytes, sendfile_calls, wire, first_send, stat_calls, open_calls,
      close_calls, hmax]
  | cons r rest ih =>
    intro offset h0 hmax
    unfold sendfile_loop
    simp only
    by_cases hpos : 0 < sendfile_ret r offset count
    · rw [if_pos hpos]
      obtain ⟨i1, i2, i3, _, i5, i6, i7, i8, i9⟩ :=
        ih (offset + sendfile_ret r offset count) (by omega) (sendfile_ret_pos _ _ _ hpos)
      refine ⟨?_, ?_, i3, ?_, ?_, ?_, ?_, ?_, ?_⟩
      · rw [i1]; simp only [body_bytes, hpos, if_true]; ring
      · simp only [body_bytes, hpos, if_true]; omega
      · simp [sendfile_calls]
      · simpa [wire] using i5
      · simpa [first_send] using i6
      · simpa [stat_calls] using i7
      · simpa [open_calls] using i8
      · simpa [close_calls] using i9
    · rw [if_neg hpos]
      simp [body_bytes, sendfile_calls, wire, first_send, stat_calls, open_calls,
        close_calls, hmax, hpos]

theorem OFF_MAX_val : OFF_MAX = 9223372036854775807 := by decide

theorem send_response_hdr_fail (sends : List Int) (open_file : List Char → Int)
    (sendfiles : List Int) (response : List Char) (file_status : Int) (path : List Char)
    (size : Nat) (h : (send_headers response sends 0 (strlen response)).1 ≠ SUCCESS) :
    send_response sends open_file sendfiles response file_status path size =
      (ERROR, (send_headers response sends 0 (strlen response)).2) := by
  unfold send_response
  simp only
  rw [if_pos h]

theorem send_response_no_file (sends : List Int) (open_file : List Char → Int)
    (sendfiles : List Int) (response : List Char) (path : List Char)
    (size : Nat) (h : (send_headers response sends 0 (strlen response)).1 = SUCCESS) :
    send_response sends open_file sendfiles response 0 path size =
      (SUCCESS, (send_headers response sends 0 (strlen response)).2) := by
  unfold send_response
  simp only
  rw [if_neg (not_not.mpr h), if_neg (by simp)]

theorem send_response_open_fail (sends : List Int) (open_file : List Char → Int)
    (sendfiles : List Int) (response : List Char) (file_status : Int) (path : List Char)
    (size : Nat) (h : (send_headers response sends 0 (strlen response)).1 = SUCCESS)
    (hfs : file_status ≠ 0) (hfd : open_file path < 0) :
    send_response sends open_file sendfiles response file_status path size =
      (ERROR, (send_headers response sends 0 (strlen response)).2 ++
        [Event.open_file path (open_file path)]) := by
  unfold send_response
  simp only
  rw [if_neg (not_not.mpr h), if_pos hfs, if_pos hfd]

theorem send_response_opened (sends : List Int) (open_file : List Char → Int)
    (sendfiles : List Int) (response : List Char) (file_status : Int) (path : List Char)
    (size : Nat) (h : (send_headers response sends 0 (strlen response)).1 = SUCCESS)
    (hfs : file_status ≠ 0) (hfd : ¬ open_file path < 0) :
    send_response sends open_file sendfiles response file_status path size =
      if (sendfile_loop size sendfiles 0).1 = size then
        (SUCCESS, (send_headers response sends 0 (strlen response)).2 ++
          [Event.open_file path (open_file path)] ++ (sendfile_loop size sendfiles 0).2 ++
          [Event.close (open_file path)])
      else
        (ERROR, (send_headers response sends 0 (strlen response)).2 ++
          [Event.open_file path (open_file path)] ++ (sendfile_loop size sendfiles 0).2) := by
  obtain ⟨s1, s2, s3, -⟩ := sendfile_loop_spec size sendfiles 0 (le_refl _) (by decide)
  rw [OFF_MAX_val] at s3
  have hnn : ¬ (sendfile_loop size sendfiles 0).1 < 0 := by omega
  unfold send_response
  simp only
  rw [if_neg (not_not.mpr h), if_pos hfs, if_neg hfd, if_neg hnn]
  by_cases hsz : (sendfile_loop size sendfiles 0).1 = size
  · rw [if_pos hsz, if_neg]
    rw [not_not]
    omega
  · rw [if_neg hsz, if_pos]
    omega

/-- What `send_response` does, read off its trace. -/
theorem send_response_spec (sends : List Int) (open_file : List Char → Int)
    (sendfiles : List Int) (response : List Char) (file_status : Int) (path : List Char)
    (size : Nat) (hne : response ≠ []) :
    first_send (send_response sends open_file sendfiles response file_status path size).2
      = some response ∧
    wire (send_response sends open_file sendfiles response file_status path size).2
      <+: response ∧
    ((send_response sends open_file sendfiles response file_status path size).1 = SUCCESS →
      wire (send_response sends open_file sendfiles response file_status path size).2
        = response) ∧
    (sends_succeed (send_response sends open_file sendfiles response file_status path size).2
        = true →
      wire (send_response sends open_file sendfiles response file_status path size).2
        = response ∧
      (file_status ≠ 0 →
        open_calls (send_response sends open_file sendfiles response file_status path size).2
          = [path] ∧
        (0 ≤ open_file path →
          (sendfile_calls
            (send_response sends open_file sendfiles response file_status path size).2).head?
            = some (0, size)))) ∧
    stat_calls (send_response sends open_file sendfiles response file_status path size).2 = [] ∧
    (file_status = 0 →
      open_calls (send_response sends open_file sendfiles response file_status path size).2 = [] ∧
      sendfile_calls (send_response sends open_file sendfiles response file_status path size).2
        = []) ∧
    (file_status ≠ 0 →
      (send_response sends open_file sendfiles response file_status path size).1 = SUCCESS →
      body_bytes (send_response sends open_file sendfiles response file_status path size).2
        = size) := by
  obtain ⟨h1, h2, h3, h4, h5, h6, h7, h8, h9⟩ :=
    send_headers_spec response sends 0 (strlen response) (by simp [strlen])
  have hpos : 0 < response.length := List.length_pos.mpr hne
  have h4 := h4 hpos
  simp only [List.drop_zero] at h1 h2 h4
  obtain ⟨s1, s2, s3, s4, s5, s6, s7, s8, s9⟩ :=
    sendfile_loop_spec size sendfiles 0 (le_refl _) (by decide)
  by_cases hh : (send_headers response sends 0 (strlen response)).1 = SUCCESS
  · have hw := h2 hh
    by_cases hfs : file_status = 0
    · subst hfs
      rw [send_response_no_file _ _ _ _ _ _ hh]
      exact ⟨h4, h1, fun _ => hw, fun _ => ⟨hw, fun h => absurd rfl h⟩, h5,
        fun _ => ⟨h6, h7⟩, fun h => absurd rfl h⟩
    · by_cases hfd : open_file path < 0
      · rw [send_response_open_fail _ _ _ _ _ _ _ hh hfs hfd]
        refine ⟨?_, ?_, fun h => absurd h ERROR_ne_SUCCESS, fun _ => ⟨?_, fun _ => ⟨?_, ?_⟩⟩, ?_,
          fun h => absurd h hfs, fun _ h => absurd h ERROR_ne_SUCCESS⟩
        · simp [first_send_append, h4]
        · simpa [wire] using h1
        · simp [wire, hw]
        · simp [open_calls, h6]
        · intro h; omega
        · simp [stat_calls, h5]
      · have hcommon : first_send ((send_headers response sends 0 (strlen response)).2 ++
              [Event.open_file path (open_file path)] ++ (sendfile_loop size sendfiles 0).2)
              = some response ∧
            wire ((send_headers response sends 0 (strlen response)).2 ++
              [Event.open_file path (open_file path)] ++ (sendfile_loop size sendfiles 0).2)
              = response ∧
            open_calls ((send_headers response sends 0 (strlen response)).2 ++
              [Event.open_file path (open_file path)] ++ (sendfile_loop size sendfiles 0).2)
              = [path] ∧
            (sendfile_calls ((send_headers response sends 0 (strlen response)).2 ++
              [Event.open_file path (open_file path)] ++ (sendfile_loop size sendfiles 0).2)).head?
              = some (0, size) ∧
            stat_calls ((send_headers response sends 0 (strlen response)).2 ++
              [Event.open_file path (open_file path)] ++ (sendfile_loop size sendfiles 0).2)
              = [] ∧
            body_bytes ((send_headers response sends 0 (strlen response)).2 ++
              [Event.open_file path (open_file path)] ++ (sendfile_loop size sendfiles 0).2)
              = body_bytes (sendfile_loop size sendfiles 0).2 := by
          refine ⟨?_, ?_, ?_, ?_, ?_, ?_⟩
          · simp [first_send_append, h4]
          · simp [wire, hw, s5]
          · simp [open_calls, h6, s8]
          · simp [sendfile_calls, h7, s4]
          · simp [stat_calls, h5, s7]
          · simp [body_bytes, h9]
        obtain ⟨c1, c2, c3, c4, c5, c6⟩ := hcommon
        rw [send_response_opened _ _ _ _ _ _ _ hh hfs hfd]
        by_cases hsz : (sendfile_loop size sendfiles 0).1 = size
        · rw [if_pos hsz]
          refine ⟨?_, ?_, fun _ => ?_, fun _ => ⟨?_, fun _ => ⟨?_, fun _ => ?_⟩⟩, ?_,
            fun h => absurd h hfs, fun _ _ => ?_⟩
          · simp only [first_send_append, c1]; rfl
          · simp only [wire_append, c2, wire, List.append_nil]; exact List.prefix_refl _
          · simp only [wire_append, c2, wire, List.append_nil]
          · simp only [wire_append, c2, wire, List.append_nil]
          · simp only [open_calls_append, c3, open_calls, List.append_nil]
          · rw [sendfile_calls_append]
            cases hsc : sendfile_calls ((send_headers response sends 0 (strlen response)).2 ++
              [Event.open_file path (open_file path)] ++ (sendfile_loop size sendfiles 0).2) with
            | nil => rw [hsc] at c4; cases c4
            | cons a l => rw [hsc] at c4; simpa using c4
          · simp only [stat_calls_append, c5, stat_calls, List.append_nil]
          · simp only [body_bytes_append, c6, body_bytes, add_zero]
            omega
        · rw [if_neg hsz]
          exact ⟨c1, (c2.symm ▸ List.prefix_refl response : _ <+: response), fun h => absurd h ERROR_ne_SUCCESS,
            fun _ => ⟨c2, fun _ => ⟨c3, fun _ => c4⟩⟩, c5, fun h => absurd h hfs,
            fun _ h => absurd h ERROR_ne_SUCCESS⟩
  · rw [send_response_hdr_fail _ _ _ _ _ _ _ hh]
    refine ⟨h4, h1, fun h => absurd h ERROR_ne_SUCCESS, fun hall => absurd (h3 hall) hh, h5,
      fun _ => ⟨h6, h7⟩, fun _ h => absurd h ERROR_ne_SUCCESS⟩

/-- A request that `parse_request` accepts has all four pointers set, the
method and the protocol token being the supported ones. -/
theorem parse_request_ok (b : List Char) (h : (parse_request b).ok = true) :
    ∃ rl T, parse_request b = ⟨true, some rl, some GET_METHOD, some T, some HTTP_VERSION⟩ := by
  unfold parse_request at h ⊢
  cases h1 : strtok b END_OF_REQ_LINE with
  | none => rw [h1] at h; simp at h
  | some p1 =>
    obtain ⟨rl, r0⟩ := p1
    rw [h1] at h
    simp only at h ⊢
    cases h2 : strtok rl [' '] with
    | none => rw [h2] at h; simp at h
    | some p2 =>
      obtain ⟨m, r1⟩ := p2
      rw [h2] at h
      simp only at h ⊢
      by_cases hm : m = GET_METHOD
      · subst hm
        simp only [ne_eq, not_true_eq_false, if_false] at h ⊢
        cases h3 : strtok r1 [' '] with
        | none => rw [h3] at h; simp at h
        | some p3 =>
          obtain ⟨T, r2⟩ := p3
          rw [h3] at h
          simp only at h ⊢
          cases h4 : strtok r2 [' '] with
          | none => rw [h4] at h; simp at h
          | some p4 =>
            obtain ⟨pv, r3⟩ := p4
            rw [h4] at h
            simp only at h ⊢
            by_cases hv : pv = HTTP_VERSION
            · subst hv
              exact ⟨rl, T, by simp⟩
            · simp [hv] at h
      · simp [hm] at h

/-- `parse_request` rejects exactly when the method it stored is not `GET` or
the protocol token it stored is not `HTTP/1.0` (a token that is missing
counts as not stored). -/
theorem parse_request_rejects_iff (b : List Char) :
    (parse_request b).ok = false ↔
      ((parse_request b).method ≠ some GET_METHOD ∨
        (parse_request b).protocol_version ≠ some HTTP_VERSION) := by
  constructor
  · intro h
    unfold parse_request at h ⊢
    cases h1 : strtok b END_OF_REQ_LINE with
    | none => simp
    | some p1 =>
      obtain ⟨rl, r0⟩ := p1
      rw [h1] at h
      simp only at h ⊢
      cases h2 : strtok rl [' '] with
      | none => simp
      | some p2 =>
        obtain ⟨m, r1⟩ := p2
        rw [h2] at h
        simp only at h ⊢
        by_cases hm : m = GET_METHOD
        · subst hm
          simp only [ne_eq, not_true_eq_false, if_false] at h ⊢
          cases h3 : strtok r1 [' '] with
          | none => simp
          | some p3 =>
            obtain ⟨T, r2⟩ := p3
            rw [h3] at h
            simp only at h ⊢
            cases h4 : strtok r2 [' '] with
            | none => simp
            | some p4 =>
              obtain ⟨pv, r3⟩ := p4
              rw [h4] at h
              simp only at h ⊢
              by_cases hv : pv = HTTP_VERSION
              · simp [hv] at h
              · simp [hv]
        · simp [hm]
  · intro h
    cases hok : (parse_request b).ok with
    | false => rfl
    | true =>
      obtain ⟨rl, T, heq⟩ := parse_request_ok b hok
      rw [heq] at h
      simp at h

/-! ### The queue library -/

/-- Writing to an address outside a chain leaves the chain as it is. -/
theorem chain_update (node : Nat → Option queue_node_t) (a : Nat) (v : Option queue_node_t) :
    ∀ (cells : List (Nat × Nat)) (p : Nat), a ∉ cells.map Prod.fst → chain node p cells →
      chain (Function.update node a v) p cells := by
  intro cells
  induction cells with
  | nil => intro p _ h; exact h
  | cons c rest ih =>
    intro p ha h
    obtain ⟨h1, h2, nx, h3, h4⟩ := h
    simp only [List.map_cons, List.mem_cons, not_or] at ha
    refine ⟨h1, h2, nx, ?_, ih nx ha.2 h4⟩
    rw [Function.update_noteq (Ne.symm ha.1)]
    exact h3

/-- The head of a chain is NULL exactly when the chain is empty. -/
theorem chain_head_null (node : Nat → Option queue_node_t) (p : Nat) (cells : List (Nat × Nat))
    (h : chain node p cells) : p = NULL ↔ cells = [] := by
  cases cells with
  | nil => exact ⟨fun _ => rfl, fun _ => h⟩
  | cons c rest =>
    obtain ⟨h1, h2, -⟩ := h
    constructor
    · intro hp; exact absurd (h1 ▸ hp) h2
    · intro hc; cases hc

/-- Appending a node behind the last node of a non-empty chain. -/
theorem chain_append (node : Nat → Option queue_node_t) (new data : Nat) (hnew : new ≠ NULL) :
    ∀ (cells : List (Nat × Nat)) (p : Nat) (last : Nat × Nat),
      cells.getLast? = some last → new ∉ cells.map Prod.fst → (cells.map Prod.fst).Nodup →
      chain node p cells →
      chain (Function.update (Function.update node new (some ⟨data, NULL⟩)) last.1
        (some ⟨last.2, new⟩)) p (cells ++ [(new, data)]) := by
  intro cells
  induction cells with
  | nil => intro p last h; simp at h
  | cons c rest ih =>
    intro p last hlast hnotin hnodup h
    obtain ⟨h1, h2, nx, h3, h4⟩ := h
    simp only [List.map_cons, List.mem_cons, not_or] at hnotin
    simp only [List.map_cons, List.nodup_cons] at hnodup
    cases rest with
    | nil =>
      simp only [List.getLast?_singleton, Option.some.injEq] at hlast
      subst hlast
      have hnx : nx = NULL := h4
      refine ⟨h1, h2, new, ?_, rfl, hnew, NULL, ?_, rfl⟩
      · rw [Function.update_same]
      · rw [Function.update_noteq hnotin.1, Function.update_same]
    | cons c2 rest2 =>
      have hlast2 : (c2 :: rest2).getLast? = some last := by
        rw [List.getLast?_cons_cons] at hlast
        exact hlast
      have hmem : last.1 ∈ (c2 :: rest2).map Prod.fst := by
        have := List.mem_of_getLast?_eq_some hlast2
        exact List.mem_map_of_mem _ this
      have hne : c.1 ≠ last.1 := fun heq => hnodup.1 (heq ▸ hmem)
      refine ⟨h1, h2, nx, ?_, ih nx last hlast2 hnotin.2 hnodup.2 h4⟩
      rw [Function.update_noteq hne, Function.update_noteq (Ne.symm hnotin.1)]
      exact h3

/-- The last node of a chain has a NULL `next`. -/
theorem chain_last (node : Nat → Option queue_node_t) :
    ∀ (cells : List (Nat × Nat)) (p : Nat) (last : Nat × Nat),
      cells.getLast? = some last → chain node p cells →
      node last.1 = some ⟨last.2, NULL⟩ := by
  intro cells
  induction cells with
  | nil => intro p last h; simp at h
  | cons c rest ih =>
    intro p last hlast h
    obtain ⟨h1, h2, nx, h3, h4⟩ := h
    cases rest with
    | nil =>
      simp only [List.getLast?_singleton, Option.some.injEq] at hlast
      subst hlast
      have hnx : nx = NULL := h4
      rw [h3, hnx]
    | cons c2 rest2 =>
      rw [List.getLast?_cons_cons] at hlast
      exact ih nx last hlast h4

/-- A new queue is well formed and empty. -/
theorem queue_create_holds (h : Heap) : queue_holds (queue_create h).2 (queue_create h).1 [] := by
  refine ⟨by simp [queue_create, NULL], ⟨NULL, NULL⟩, ?_, rfl, rfl, by simp, by simp⟩
  simp [queue_create]

/-- `queue_enqueue` appends a node with the item at the end of the queue. -/
theorem queue_enqueue_holds (h : Heap) (queue data : Nat) (cells : List (Nat × Nat))
    (hq : queue_holds h queue cells) :
    queue_holds (queue_enqueue h queue data) queue (cells ++ [(h.brk + 1, data)]) ∧
    (queue_enqueue h queue data).brk = h.brk + 1 ∧
    (queue_enqueue h queue data).freed = h.freed := by
  obtain ⟨hnull, q, hqq, hchain, htail, hnodup, hbrk⟩ := hq
  have hfresh : h.brk + 1 ∉ cells.map Prod.fst := by
    intro hm
    obtain ⟨c, hc, hc1⟩ := List.mem_map.mp hm
    have := hbrk c hc
    omega
  have hnodup2 : ((cells ++ [(h.brk + 1, data)]).map Prod.fst).Nodup := by
    rw [List.map_append, List.nodup_append]
    refine ⟨hnodup, by simp, ?_⟩
    intro a ha hb
    simp only [List.map_cons, List.map_nil, List.mem_singleton] at hb
    exact hfresh (hb ▸ ha)
  have hbrk2 : ∀ c ∈ cells ++ [(h.brk + 1, data)], c.1 ≤ h.brk + 1 := by
    intro c hc
    rcases List.mem_append.mp hc with hc | hc
    · exact Nat.le_succ_of_le (hbrk c hc)
    · simp only [List.mem_singleton] at hc
      rw [hc]
  unfold queue_enqueue
  rw [if_neg hnull, hqq]
  simp only
  cases hcells : cells with
  | nil =>
    subst hcells
    have hhead : q.head = NULL := hchain
    rw [if_pos hhead]
    refine ⟨⟨hnull, ⟨h.brk + 1, h.brk + 1⟩, by simp, ?_, rfl, hnodup2, hbrk2⟩,
      by trivial, by trivial⟩
    exact ⟨rfl, by simp [NULL], NULL, by simp, rfl⟩
  | cons c rest =>
    have hne : cells ≠ [] := by rw [hcells]; simp
    have hhead : ¬ q.head = NULL := by
      rw [chain_head_null _ _ _ hchain]; exact hne
    obtain ⟨last, hlast⟩ : ∃ last, cells.getLast? = some last := by
      cases hl : cells.getLast? with
      | none => rw [List.getLast?_eq_none_iff] at hl; exact absurd hl hne
      | some l => exact ⟨l, rfl⟩
    have htail2 : q.tail = last.1 := by rw [htail, hlast]; rfl
    have hlastnode := chain_last h.node cells q.head last hlast hchain
    have hlastne : last.1 ≠ h.brk + 1 := by
      intro heq
      apply hfresh
      rw [← heq]
      exact List.mem_map_of_mem _ (List.mem_of_getLast?_eq_some hlast)
    rw [if_neg hhead, htail2, Function.update_noteq hlastne, hlastnode]
    simp only
    rw [← hcells]
    refine ⟨⟨hnull, ⟨q.head, h.brk + 1⟩, by simp, ?_, by simp, hnodup2, hbrk2⟩,
      by trivial, by trivial⟩
    exact chain_append h.node (h.brk + 1) data (by simp [NULL]) cells q.head last hlast hfresh
      hnodup hchain

/-- `queue_dequeue` on a queue that holds a node: the item of the first node
is returned, the node is freed, and the other nodes stay as they are. -/
theorem queue_dequeue_holds (h : Heap) (queue : Nat) (c : Nat × Nat) (rest : List (Nat × Nat))
    (hq : queue_holds h queue (c :: rest)) :
    (queue_dequeue h queue).1 = c.2 ∧ queue_holds (queue_dequeue h queue).2 queue rest ∧
    (queue_dequeue h queue).2.brk = h.brk ∧
    (queue_dequeue h queue).2.freed = h.freed ++ [c.1] := by
  obtain ⟨hnull, q, hqq, hchain, htail, hnodup, hbrk⟩ := hq
  obtain ⟨h1, h2, nx, h3, h4⟩ := hchain
  have hhead : ¬ q.head = NULL := h1 ▸ h2
  simp only [List.map_cons, List.nodup_cons] at hnodup
  unfold queue_dequeue
  rw [if_neg hnull, hqq]
  simp only
  rw [if_neg hhead, h1, h3]
  simp only
  refine ⟨by trivial, ⟨hnull, ⟨nx, if nx = NULL then NULL else q.tail⟩, by simp, ?_, ?_,
    hnodup.2, ?_⟩, by trivial, by trivial⟩
  · exact chain_update _ _ _ _ _ hnodup.1 h4
  · cases rest with
    | nil =>
      have hnx : nx = NULL := h4
      simp [hnx]
    | cons c2 rest2 =>
      have hnx : ¬ nx = NULL := by
        rw [chain_head_null _ _ _ h4]; simp
      simp only [hnx, if_false]
      rw [htail, List.getLast?_cons_cons]
  · intro d hd
    exact hbrk d (List.mem_cons_of_mem _ hd)

/-- `queue_dequeue` on an empty queue returns NULL and changes nothing. -/
theorem queue_dequeue_empty (h : Heap) (queue : Nat) (hq : queue_holds h queue []) :
    queue_dequeue h queue = (NULL, h) := by
  obtain ⟨hnull, q, hqq, hchain, -⟩ := hq
  have hhead : q.head = NULL := hchain
  unfold queue_dequeue
  rw [if_neg hnull, hqq]
  simp only
  rw [if_pos hhead]

/-- `queue_is_empty` on a well-formed queue. -/
theorem queue_is_empty_iff (h : Heap) (queue : Nat) (cells : List (Nat × Nat))
    (hq : queue_holds h queue cells) : queue_is_empty h queue = true ↔ cells = [] := by
  obtain ⟨hnull, q, hqq, hchain, -⟩ := hq
  unfold queue_is_empty
  rw [if_neg hnull, hqq]
  simp only
  rw [← chain_head_null _ _ _ hchain]
  by_cases hh : q.head = NULL <;> simp [hh]

/-- `queue_peek` returns the item of the first node, NULL on an empty queue. -/
theorem queue_peek_holds (h : Heap) (queue : Nat) (cells : List (Nat × Nat))
    (hq : queue_holds h queue cells) :
    queue_peek h queue = (cells.head?.map Prod.snd).getD NULL ∧
    queue_peek h queue = (queue_dequeue h queue).1 := by
  cases cells with
  | nil =>
    rw [queue_dequeue_empty h queue hq]
    obtain ⟨hnull, q, hqq, hchain, -⟩ := hq
    have hhead : q.head = NULL := hchain
    unfold queue_peek
    rw [if_neg hnull, hqq]
    simp only
    rw [if_pos hhead]
    exact ⟨rfl, rfl⟩
  | cons c rest =>
    rw [(queue_dequeue_holds h queue c rest hq).1]
    obtain ⟨hnull, q, hqq, hchain, -⟩ := hq
    obtain ⟨h1, h2, nx, h3, h4⟩ := hchain
    have hhead : ¬ q.head = NULL := h1 ▸ h2
    unfold queue_peek
    rw [if_neg hnull, hqq]
    simp only
    rw [if_neg hhead, h1, h3]
    exact ⟨rfl, rfl⟩
/-- Operations run on a well-formed queue that holds `cells`: what the calls of
`queue_dequeue` return is a prefix of the items in the queue followed by the
items enqueued, in that order. -/
theorem run_queue_ops_prefix (queue : Nat) :
    ∀ (ops : List QueueOp) (h : Heap) (cells : List (Nat × Nat)), queue_holds h queue cells →
      run_queue_ops ops h queue <+: cells.map Prod.snd ++ enqueued ops := by
  intro ops
  induction ops with
  | nil => intro h cells _; exact List.nil_prefix
  | cons op ops ih =>
    intro h cells hq
    cases op with
    | enqueue data =>
      have := ih _ _ (queue_enqueue_holds h queue data cells hq).1
      simpa [run_queue_ops, enqueued] using this
    | dequeue =>
      cases cells with
      | nil =>
        have he : queue_is_empty h queue = true := (queue_is_empty_iff h queue [] hq).mpr rfl
        have hd := queue_dequeue_empty h queue hq
        simp only [run_queue_ops, he, if_true, hd, enqueued]
        exact ih h [] hq
      | cons c rest =>
        have he : ¬ queue_is_empty h queue = true := by
          rw [queue_is_empty_iff h queue _ hq]; simp
        obtain ⟨hd1, hd2, -⟩ := queue_dequeue_holds h queue c rest hq
        simp only [run_queue_ops, he, if_false, hd1, enqueued, List.map_cons, List.cons_append,
          Bool.false_eq_true]
        exact (List.prefix_cons_inj c.2).mpr (ih _ rest hd2)

/-- `queue_dequeue_free` on a queue that holds a node: the node is freed, its
item is given to `free_data` when there is such a function, and the other
nodes stay as they are. -/
theorem queue_dequeue_free_holds (h : Heap) (queue : Nat) (free_data : Bool) (c : Nat × Nat)
    (rest : List (Nat × Nat)) (hq : queue_holds h queue (c :: rest)) :
    queue_holds (queue_dequeue_free h queue free_data) queue rest ∧
    (queue_dequeue_free h queue free_data).freed = h.freed ++ [c.1] ∧
    (queue_dequeue_free h queue free_data).released =
      h.released ++ (if free_data then [c.2] else []) := by
  obtain ⟨hnull, q, hqq, hchain, htail, hnodup, hbrk⟩ := hq
  obtain ⟨h1, h2, nx, h3, h4⟩ := hchain
  have hhead : ¬ q.head = NULL := h1 ▸ h2
  simp only [List.map_cons, List.nodup_cons] at hnodup
  unfold queue_dequeue_free
  rw [if_neg hnull, hqq]
  simp only
  rw [if_neg hhead, h1, h3]
  simp only
  refine ⟨⟨hnull, ⟨nx, if nx = NULL then NULL else q.tail⟩, by simp, ?_, ?_,
    hnodup.2, ?_⟩, by trivial, by trivial⟩
  · exact chain_update _ _ _ _ _ hnodup.1 h4
  · cases rest with
    | nil =>
      have hnx : nx = NULL := h4
      simp [hnx]
    | cons c2 rest2 =>
      have hnx : ¬ nx = NULL := by
        rw [chain_head_null _ _ _ h4]; simp
      simp only [hnx, if_false]
      rw [htail, List.getLast?_cons_cons]
  · intro d hd
    exact hbrk d (List.mem_cons_of_mem _ hd)

/-- The loop of `queue_clean` empties a well-formed queue when it is given
as many rounds as the queue has nodes: every node is freed and every item is
given to `free_data`, oldest first. -/
theorem queue_clean_loop_holds (queue : Nat) (free_data : Bool) :
    ∀ (cells : List (Nat × Nat)) (fuel : Nat) (h : Heap), queue_holds h queue cells →
      cells.length ≤ fuel →
      queue_holds (queue_clean_loop fuel h queue free_data) queue [] ∧
      (queue_clean_loop fuel h queue free_data).freed = h.freed ++ cells.map Prod.fst ∧
      (queue_clean_loop fuel h queue free_data).released =
        h.released ++ (if free_data then cells.map Prod.snd else []) := by
  intro cells
  induction cells with
  | nil =>
    intro fuel h hq _
    have he : queue_is_empty h queue = true := (queue_is_empty_iff h queue [] hq).mpr rfl
    cases fuel with
    | zero => simpa [queue_clean_loop] using hq
    | succ fuel => simpa [queue_clean_loop, he] using hq
  | cons c rest ih =>
    intro fuel h hq hlen
    have he : ¬ queue_is_empty h queue = true := by
      rw [queue_is_empty_iff h queue _ hq]; simp
    obtain ⟨fuel, rfl⟩ : ∃ f, fuel = f + 1 := ⟨fuel - 1, by simp at hlen; omega⟩
    obtain ⟨d1, d2, d3⟩ := queue_dequeue_free_holds h queue free_data c rest hq
    obtain ⟨i1, i2, i3⟩ := ih fuel _ d1 (by simpa using hlen)
    simp only [queue_clean_loop, he, if_false, Bool.false_eq_true]
    refine ⟨i1, ?_, ?_⟩
    · rw [i2, d2]; simp
    · rw [i3, d3]
      cases free_data <;> simp

/-- `queue_clean` on a well-formed queue, given enough rounds: every item is
given to `free_data` once, oldest first, every node is freed once, and the
queue itself is freed last. -/
theorem queue_clean_frees (h : Heap) (queue : Nat) (cells : List (Nat × Nat)) (fuel : Nat)
    (hq : queue_holds h queue cells) (hfuel : cells.length ≤ fuel) :
    (queue_clean fuel h queue true).released = h.released ++ cells.map Prod.snd ∧
    (queue_clean fuel h queue true).freed = h.freed ++ cells.map Prod.fst ++ [queue] ∧
    (queue_clean fuel h queue true).queue queue = none := by
  obtain ⟨i1, i2, i3⟩ := queue_clean_loop_holds queue true cells fuel h hq hfuel
  unfold queue_clean
  rw [if_neg hq.1]
  simp only [i2, i3, if_true, Function.update_same, and_self]

/-- Enqueueing the elements of an array one after the other. -/
theorem queue_enqueue_array_holds (queue : Nat) :
    ∀ (items : List Nat) (h : Heap) (cells : List (Nat × Nat)), queue_holds h queue cells →
      ∃ cells2, queue_holds (queue_enqueue_array h queue items) queue cells2 ∧
        cells2.map Prod.snd = cells.map Prod.snd ++ items ∧
        (queue_enqueue_array h queue items).released = h.released ∧
        (queue_enqueue_array h queue items).freed = h.freed := by
  intro items
  induction items with
  | nil => intro h cells hq; exact ⟨cells, hq, by simp, rfl, rfl⟩
  | cons x xs ih =>
    intro h cells hq
    obtain ⟨e1, -, e3⟩ := queue_enqueue_holds h queue x cells hq
    obtain ⟨cells2, c1, c2, c3, c4⟩ := ih _ _ e1
    refine ⟨cells2, c1, by simpa using c2, ?_, by rw [queue_enqueue_array, c4, e3]⟩
    rw [queue_enqueue_array, c3]
    unfold queue_enqueue
    obtain ⟨hnull, q, hqq, -⟩ := hq
    rw [if_neg hnull, hqq]
    simp only
    split
    · rfl
    · split <;> rfl

/-- The nodes of a chain are at addresses other than NULL. -/
theorem chain_addresses (node : Nat → Option queue_node_t) :
    ∀ (cells : List (Nat × Nat)) (p : Nat), chain node p cells → ∀ c ∈ cells, c.1 ≠ NULL := by
  intro cells
  induction cells with
  | nil => intro p _ c hc; cases hc
  | cons d rest ih =>
    intro p hch c hc
    obtain ⟨-, hd, nx, -, hrest⟩ := hch
    rcases List.mem_cons.mp hc with rfl | hc
    · exact hd
    · exact ih nx hrest c hc

/-- A well-formed queue has no more nodes than `malloc` has handed out
addresses: `h.brk` rounds are enough for the loop of `queue_clean`. -/
theorem queue_holds_length (h : Heap) (queue : Nat) (cells : List (Nat × Nat))
    (hq : queue_holds h queue cells) : cells.length ≤ h.brk := by
  obtain ⟨-, q, -, hch, -, hnd, hle⟩ := hq
  have hsub : (cells.map Prod.fst).toFinset ⊆ Finset.Icc 1 h.brk := by
    intro a ha
    rw [List.mem_toFinset, List.mem_map] at ha
    obtain ⟨c, hc, rfl⟩ := ha
    have h0 := chain_addresses h.node cells q.head hch c hc
    have h1 := hle c hc
    rw [Finset.mem_Icc]
    unfold NULL at h0
    omega
  have hcard := Finset.card_le_card hsub
  rw [List.toFinset_card_of_nodup hnd, Nat.card_Icc] at hcard
  simpa using hcard

/-- `close_and_clean` on a well-formed free queue: after `close`, the items of
the queue are freed, each once and oldest first, then its nodes and the queue
itself; the trace shows those of them that `blocks` names. -/
theorem close_and_clean_frees (fd : Int) (h : Heap) (queue : Nat) (cells : List (Nat × Nat))
    (blocks : List (Nat × Ptr)) (hq : queue_holds h queue cells) :
    close_and_clean fd h queue blocks =
      Event.close fd :: (cells.map Prod.snd ++ (cells.map Prod.fst ++ [queue])).filterMap
        (fun p => (blocks.lookup p).map Event.free) := by
  obtain ⟨f1, f2, -⟩ := queue_clean_frees h queue cells h.brk hq (queue_holds_length h queue cells hq)
  unfold close_and_clean
  simp only
  rw [f1, f2, List.append_assoc, List.drop_left, List.drop_left]

/-- `malloc` leaves a queue as it is. -/
theorem malloc_holds (h : Heap) (queue : Nat) (cells : List (Nat × Nat))
    (hq : queue_holds h queue cells) : queue_holds (malloc h).2 queue cells := by
  obtain ⟨hnull, q, hqq, hchain, htail, hnodup, hbrk⟩ := hq
  exact ⟨hnull, q, hqq, hchain, htail, hnodup, fun c hc => Nat.le_succ_of_le (hbrk c hc)⟩

/-- The free queue of `handle_client`, built in any memory `h`: created,
with the blocks of `file_path_full` and `response` allocated and enqueued one
after the other. `close_and_clean` frees the two blocks, oldest first, and
the queue, whatever the memory held before. -/
theorem close_and_clean_any_memory (fd : Int) (h : Heap) :
    close_and_clean fd (queue_create h).2 (queue_create h).1
      [((queue_create h).1, Ptr.free_queue)] = release_trace fd [] ∧
    close_and_clean fd
      (queue_enqueue
        (malloc (queue_enqueue (malloc (queue_create h).2).2
          (queue_create h).1 (malloc (queue_create h).2).1)).2
        (queue_create h).1
        (malloc (queue_enqueue (malloc (queue_create h).2).2
          (queue_create h).1 (malloc (queue_create h).2).1)).1)
      (queue_create h).1
      ([((queue_create h).1, Ptr.free_queue)] ++
        [((malloc (queue_create h).2).1, Ptr.file_path_full)] ++
        [((malloc (queue_enqueue (malloc (queue_create h).2).2
          (queue_create h).1 (malloc (queue_create h).2).1)).1,
          Ptr.response)]) =
      release_trace fd [Ptr.file_path_full, Ptr.response] := by
  have q0 := queue_create_holds h
  constructor
  · rw [close_and_clean_frees fd _ _ [] _ q0]
    simp [release_trace, List.lookup, queue_create]
  · obtain ⟨q1, b1, -⟩ := queue_enqueue_holds _ _ (malloc (queue_create h).2).1 []
      (malloc_holds _ _ _ q0)
    obtain ⟨q2, -, -⟩ := queue_enqueue_holds _ _
      (malloc (queue_enqueue (malloc (queue_create h).2).2
        (queue_create h).1 (malloc (queue_create h).2).1)).1 _ (malloc_holds _ _ _ q1)
    rw [close_and_clean_frees fd _ _ _ _ q2]
    generalize queue_enqueue (malloc (queue_create h).2).2 (queue_create h).1
      (malloc (queue_create h).2).1 = H1 at b1 ⊢
    have b2 : H1.brk = h.brk + 3 := b1
    simp only [malloc, b2, queue_create, release_trace, List.nil_append, List.map_append,
      List.map_cons, List.map_nil, List.cons_append, List.filterMap_cons, List.filterMap_nil,
      List.lookup]
    have e : ∀ a b : Nat, a ≠ b → (h.brk + a == h.brk + b) = false := by
      intro a b hab
      rw [beq_eq_false_iff_ne]
      omega
    simp [Nat.add_assoc, e]

/-! ### The shapes of a run of `handle_client` -/

/-- `handle_client` when `read_request` fails: the connection is closed in silence. -/
theorem handle_client_read_failed (args : Arg) (env : Env)
    (hread : (read_request env.recvs initial_buffer).1 ≠ SUCCESS) :
    handle_client (some args) env =
      Event.alloc Ptr.free_queue :: release_trace args.clientfd [] := by
  unfold handle_client
  simp only
  rw [if_pos hread, (close_and_clean_any_memory _ env.heap).1]

/-- `handle_client` on a request that `parse_request` rejects. -/
theorem handle_client_rejected (args : Arg) (env : Env)
    (hrej : (parse_request (cstr (read_request env.recvs initial_buffer).2)).ok = false) :
    handle_client (some args) env =
      Event.alloc Ptr.free_queue :: release_trace args.clientfd [] := by
  unfold handle_client
  simp only
  rw [if_pos hrej, (close_and_clean_any_memory _ env.heap).1]
  split
  · rfl
  · split <;> rfl

/-- `handle_client` on a request that was read and that `parse_request`
accepts with target `T`. -/
theorem handle_client_accepted (args : Arg) (env : Env) (T : List Char)
    (hread : (read_request env.recvs initial_buffer).1 = SUCCESS)
    (hok : (parse_request (cstr (read_request env.recvs initial_buffer).2)).ok = true)
    (hT : (parse_request (cstr (read_request env.recvs initial_buffer).2)).file_path = some T)
    (st : FileStats)
    (hst : st = if path_component_exists T then ⟨0, [], 0⟩
      else file_stats env.stat (file_path_full args.root_path T) T [] 0) :
    handle_client (some args) env =
      [Event.alloc Ptr.free_queue, Event.log GET_METHOD T HTTP_VERSION,
        Event.alloc Ptr.file_path_full] ++
      (if path_component_exists T then [] else [Event.stat (file_path_full args.root_path T)]) ++
      [Event.alloc Ptr.response] ++
      (send_response env.sends env.open_file env.sendfiles
        (create_response_headers st.status (if st.status ≠ 0 then STATUS_OK else STATUS_NF)
          (if st.status ≠ 0 then STATUS_OK_M else STATUS_NF_M) st.content_type st.file_size)
        st.status (file_path_full args.root_path T) st.file_size).2 ++
      release_trace args.clientfd [Ptr.file_path_full, Ptr.response] := by
  obtain ⟨rl, T', heq⟩ := parse_request_ok _ hok
  rw [heq] at hT
  simp only [Option.some.injEq] at hT
  subst hT
  have hcrlf : ¬ (strstr (cstr (read_request env.recvs initial_buffer).2)
      END_OF_REQ_LINE).isNone = true := by
    have h4 := (strstr_isSome_iff _ _).mp (read_request_terminator _ hread)
    have h2 : END_OF_REQ_LINE <:+: END_OF_REQUEST := ⟨[], [CR, LF], by decide⟩
    have := (strstr_isSome_iff _ _).mpr (h2.trans h4)
    intro hnone
    rw [Option.isNone_iff_eq_none] at hnone
    rw [hnone] at this
    cases this
  unfold handle_client
  simp only
  rw [if_neg (not_not.mpr hread), if_neg hcrlf, heq, (close_and_clean_any_memory _ env.heap).2]
  simp only [Bool.true_eq_false, if_false, Option.getD_some, List.nil_append, if_true]
  subst hst
  by_cases hp : path_component_exists T' = true
  · simp [hp]
  · simp [hp]

theorem strstr_slash_isSome_iff (s : List Char) : (strstr s ['/']).isSome = true ↔ '/' ∈ s := by
  rw [strstr_isSome_iff]
  constructor
  · rintro ⟨a, b, h⟩
    rw [← h]
    simp
  · intro h
    obtain ⟨a, b, h⟩ := List.append_of_mem h
    exact ⟨a, b, by simp [h]⟩

/-- `file_stats` looks at the last path segment of the target only. -/
theorem file_stats_final_segment (stat : List Char → Option Stat) (full D F ct : List Char)
    (fs : Nat) (hD : D = [] ∨ ∃ D0, D = D0 ++ ['/']) (hF : '/' ∉ F) (hne : F ≠ []) :
    file_stats stat full (D ++ F) ct fs = file_stats stat full F ct fs := by
  rcases hD with rfl | ⟨D0, rfl⟩
  · rfl
  · have hlen : ¬ strlen (D0 ++ ['/'] ++ F) = 0 := by simp [strlen]
    have hlenF : ¬ strlen F = 0 := by simpa [strlen] using hne
    have h1 : (strstr (D0 ++ ['/'] ++ F) ['/']).isSome = true := by
      rw [strstr_slash_isSome_iff]; simp
    have h2 : strrchr (D0 ++ ['/'] ++ F) '/' = some ('/' :: F) := by
      rw [List.append_assoc]
      exact strrchr_append_cons D0 F '/' hF
    have h3 : ¬ (strstr F ['/']).isSome = true := by
      rw [strstr_slash_isSome_iff]; exact hF
    have h4 : ¬ strlen ('/' :: F) ≤ 1 := by
      have : 0 < F.length := List.length_pos.mpr hne
      simp only [strlen, List.length_cons]; omega
    unfold file_stats
    simp only [hlen, hlenF, h1, h2, h3, h4, if_true, if_false, List.drop_succ_cons, List.drop_zero,
      Bool.false_eq_true]

/-- `file_stats` on a regular file whose target is a single non-empty segment,
in terms of the text from the last dot of the segment on. -/
theorem file_stats_regular_segment (stat : List Char → Option Stat) (full F ct : List Char)
    (fs S : Nat) (hF : '/' ∉ F) (hne : F ≠ []) (hstat : stat full = some ⟨true, S⟩) :
    file_stats stat full F ct fs =
      match strrchr F '.' with
      | none => ⟨FILE_EXISTS, "application/octet-stream".toList, S⟩
      | some extension =>
        if strlen extension ≤ 1 then ⟨FILE_EXISTS, "application/octet-stream".toList, S⟩
        else if extension = ".html".toList then ⟨FILE_EXISTS, "text/html".toList, S⟩
        else if extension = ".css".toList then ⟨FILE_EXISTS, "text/css".toList, S⟩
        else if extension = ".js".toList then ⟨FILE_EXISTS, "text/javascript".toList, S⟩
        else if extension = ".jpg".toList then ⟨FILE_EXISTS, "image/jpeg".toList, S⟩
        else ⟨FILE_DOESNT_EXIST, ct, S⟩ := by
  have hlenF : ¬ strlen F = 0 := by simpa [strlen] using hne
  have h3 : ¬ (strstr F ['/']).isSome = true := by
    rw [strstr_slash_isSome_iff]; exact hF
  unfold file_stats
  simp only [hstat, hlenF, h3, if_true, if_false, Bool.false_eq_true]

/-- `file_stats` when `stat` fails or reports something that is not a regular file. -/
theorem file_stats_no_regular_file (stat : List Char → Option Stat) (full T ct : List Char)
    (fs : Nat) (h : stat full = none ∨ ∃ sb, stat full = some sb ∧ sb.is_reg = false) :
    file_stats stat full T ct fs =
      ⟨FILE_DOESNT_EXIST, ct, match stat full with | none => fs | some sb => sb.st_size⟩ := by
  unfold file_stats
  rcases h with h | ⟨sb, h, hreg⟩
  · simp only [h]
  · simp only [h, hreg, Bool.false_eq_true, if_false]

theorem create_response_headers_ne_nil (file_status : Int) (code msg ct : List Char) (n : Nat) :
    create_response_headers file_status code msg ct n ≠ [] := by
  unfold create_response_headers
  simp [HTTP_VERSION]

theorem create_response_headers_not_found (ct : List Char) (n : Nat) :
    create_response_headers 0 STATUS_NF STATUS_NF_M ct n =
      "HTTP/1.0 404 Not Found\r\nContent-Length: ".toList ++ fmt_zu n ++ "\r\n\r\n".toList := by
  rfl

theorem create_response_headers_found (file_status : Int) (h : file_status ≠ 0)
    (ct : List Char) (n : Nat) :
    create_response_headers file_status STATUS_OK STATUS_OK_M ct n =
      "HTTP/1.0 200 OK\r\nContent-Type: ".toList ++ ct ++ "\r\nContent-Length: ".toList ++
        fmt_zu n ++ "\r\n\r\n".toList := by
  unfold create_response_headers
  simp only [h, ne_eq, not_false_eq_true, if_true]
  simp [HTTP_VERSION, STATUS_OK, STATUS_OK_M, CR, LF]

/-- The trace of `handle_client` on an accepted request whose look-up ends
with file status 0: a header block with the 404 status line and a
`Content-Length` line is offered to `send`, and no file is opened. -/
theorem handle_client_not_found (args : Arg) (env : Env) (T : List Char)
    (hread : (read_request env.recvs initial_buffer).1 = SUCCESS)
    (hok : (parse_request (cstr (read_request env.recvs initial_buffer).2)).ok = true)
    (hT : (parse_request (cstr (read_request env.recvs initial_buffer).2)).file_path = some T)
    (st : FileStats)
    (hst : st = if path_component_exists T then ⟨0, [], 0⟩
      else file_stats env.stat (file_path_full args.root_path T) T [] 0)
    (h0 : st.status = 0) :
    first_send (handle_client (some args) env) = some
      ("HTTP/1.0 404 Not Found\r\nContent-Length: ".toList ++ fmt_zu st.file_size ++
        "\r\n\r\n".toList) ∧
    wire (handle_client (some args) env) <+:
      "HTTP/1.0 404 Not Found\r\nContent-Length: ".toList ++ fmt_zu st.file_size ++
        "\r\n\r\n".toList ∧
    (sends_succeed (handle_client (some args) env) = true →
      wire (handle_client (some args) env) =
        "HTTP/1.0 404 Not Found\r\nContent-Length: ".toList ++ fmt_zu st.file_size ++
          "\r\n\r\n".toList) ∧
    open_calls (handle_client (some args) env) = [] ∧
    sendfile_calls (handle_client (some args) env) = [] := by
  have hshape := handle_client_accepted args env T hread hok hT st hst
  rw [h0] at hshape
  simp only [ne_eq, not_true_eq_false, if_false] at hshape
  rw [create_response_headers_not_found] at hshape
  have hne : "HTTP/1.0 404 Not Found\r\nContent-Length: ".toList ++ fmt_zu st.file_size ++
      "\r\n\r\n".toList ≠ [] := by
    rw [← create_response_headers_not_found st.content_type]
    exact create_response_headers_ne_nil _ _ _ _ _
  generalize "HTTP/1.0 404 Not Found\r\nContent-Length: ".toList ++ fmt_zu st.file_size ++
      "\r\n\r\n".toList = R at hshape hne ⊢
  obtain ⟨s1, s2, _, s4, s5, s6, _⟩ := send_response_spec env.sends env.open_file env.sendfiles
    R 0 (file_path_full args.root_path T) st.file_size hne
  obtain ⟨q1, q2, q3, q4, q5, _⟩ := release_trace_quiet args.clientfd
    [Ptr.file_path_full, Ptr.response]
  rw [hshape]
  refine ⟨?_, ?_, ?_, ?_, ?_⟩
  · by_cases hp : path_component_exists T = true <;>
      simp [hp, first_send_append, first_send, s1]
  · by_cases hp : path_component_exists T = true <;> simpa [hp, wire, q1] using s2
  · intro hall
    simp only [sends_succeed_append, Bool.and_eq_true] at hall
    have := (s4 hall.1.2).1
    by_cases hp : path_component_exists T = true <;> simpa [hp, wire, q1] using this
  · by_cases hp : path_component_exists T = true <;> simp [hp, open_calls, (s6 rfl).1, q4]
  · by_cases hp : path_component_exists T = true <;> simp [hp, sendfile_calls, (s6 rfl).2, q5]

/-! ### The conversion `%zu` -/

theorem digit_char_spec : ∀ d, d < 10 →
    ('0' ≤ digit_char d ∧ digit_char d ≤ '9') ∧ (digit_char d).toNat - 48 = d ∧
      digit_char d = Nat.digitChar d := by
  decide

theorem fmt_zu_aux_eq_toDigitsCore (fuel n : Nat) (acc : List Char) :
    fmt_zu_aux fuel n acc = Nat.toDigitsCore 10 fuel n acc := by
  induction fuel generalizing n acc with
  | zero => rfl
  | succ f ih =>
    unfold fmt_zu_aux Nat.toDigitsCore
    simp only
    rw [(digit_char_spec (n % 10) (Nat.mod_lt _ (by decide))).2.2, ih]

/-- `fmt_zu` writes what `Nat.repr` writes. -/
theorem fmt_zu_eq_repr (n : Nat) : fmt_zu n = (Nat.repr n).toList := by
  unfold fmt_zu Nat.repr Nat.toDigits
  rw [fmt_zu_aux_eq_toDigitsCore]
  rfl

theorem cstr_nil_replicate (k : Nat) : cstr (List.replicate k NUL) = [] := by
  cases k with
  | zero => rfl
  | succ k => simp [cstr, List.replicate_succ]

theorem cstr_append_replicate (A : List Char) (k : Nat) :
    cstr (A ++ List.replicate k NUL) = cstr A := by
  induction A with
  | nil => rw [List.nil_append, cstr_nil_replicate]; rfl
  | cons a A ih =>
    unfold cstr at ih ⊢
    by_cases h : (a != NUL) = true
    · simp only [List.cons_append, List.takeWhile_cons, h, if_true, ih]
    · simp only [List.cons_append, List.takeWhile_cons, h, if_false, Bool.false_eq_true]

theorem cstr_of_no_nul (A : List Char) (h : NUL ∉ A) : cstr A = A := by
  unfold cstr
  rw [List.takeWhile_eq_self_iff]
  intro c hc
  simp only [bne_iff_ne, ne_eq]
  rintro rfl
  exact h hc

theorem cstr_prefix_mono (A C : List Char) : cstr A <+: cstr (A ++ C) := by
  induction A with
  | nil => simp [cstr]
  | cons a A ih =>
    unfold cstr at ih ⊢
    by_cases h : (a != NUL) = true
    · simp only [List.cons_append, List.takeWhile_cons, h, if_true]
      exact (List.prefix_cons_inj a).mpr ih
    · simp only [List.cons_append, List.takeWhile_cons, h, if_false, Bool.false_eq_true]
      exact List.nil_prefix

theorem strstr_isSome_false_iff (s n : List Char) :
    ¬ (strstr s n).isSome = true ↔ ¬ n <:+: s := by
  rw [strstr_isSome_iff]

/-- The buffer after `data` has been stored behind the bytes `pre` received so far. -/
theorem memwrite_received (pre data : List Char) :
    memwrite (pre ++ List.replicate (BUFFER_LEN + 1 - pre.length) NUL) pre.length data =
      (pre ++ data) ++ List.replicate (BUFFER_LEN + 1 - (pre ++ data).length) NUL := by
  rw [memwrite_append _ _ _ _ rfl, List.drop_replicate, List.length_append]
  congr 2
  omega

/-- A request that arrives in non-empty pieces, holds no NUL, fits the buffer
and contains the terminator only once it is complete: `read_request_loop`
returns `SUCCESS` with exactly the request in the buffer. -/
theorem read_request_loop_chunks :
    ∀ (chunks : List (List Char)) (rest : List RecvResult) (pre : List Char),
      (∀ c ∈ chunks, c ≠ []) → chunks ≠ [] →
      NUL ∉ pre ++ chunks.flatten →
      (pre ++ chunks.flatten).length ≤ BUFFER_LEN →
      END_OF_REQUEST <:+: pre ++ chunks.flatten →
      (∀ p, p <+: pre ++ chunks.flatten → p ≠ pre ++ chunks.flatten → ¬ END_OF_REQUEST <:+: p) →
      read_request_loop (chunks.map RecvResult.data ++ rest)
          (pre ++ List.replicate (BUFFER_LEN + 1 - pre.length) NUL) pre.length
          (BUFFER_LEN - pre.length)
        = (SUCCESS, (pre ++ chunks.flatten) ++
            List.replicate (BUFFER_LEN + 1 - (pre ++ chunks.flatten).length) NUL) := by
  intro chunks
  induction chunks with
  | nil => intro rest pre _ h; exact absurd rfl h
  | cons c cs ih =>
    intro rest pre hne _ hnul hlen hterm honly
    have hc : c ≠ [] := hne c (List.mem_cons_self _ _)
    have hcpos : 0 < c.length := List.length_pos.mpr hc
    simp only [List.flatten_cons, List.length_append] at hlen
    have hlt : pre.length < BUFFER_LEN := by omega
    have htake : c.take (BUFFER_LEN - pre.length) = c := List.take_of_length_le (by omega)
    have hbuf := memwrite_received pre c
    have hnul2 : NUL ∉ pre ++ c := by
      intro hm
      apply hnul
      simp only [List.flatten_cons, List.mem_append] at hm ⊢
      rcases hm with hm | hm
      · exact Or.inl hm
      · exact Or.inr (Or.inl hm)
    have hcstr : cstr ((pre ++ c) ++ List.replicate (BUFFER_LEN + 1 - (pre ++ c).length) NUL)
        = pre ++ c := by
      rw [cstr_append_replicate, cstr_of_no_nul _ hnul2]
    rw [List.map_cons, List.cons_append]
    unfold read_request_loop
    simp only [hlt, if_true, htake]
    rw [if_neg (by omega), hbuf, hcstr]
    by_cases hcs : cs = []
    · subst hcs
      simp only [List.flatten_cons, List.flatten_nil, List.append_nil] at hterm ⊢
      rw [if_pos ((strstr_isSome_iff _ _).mpr hterm)]
      have hlen2 : (pre ++ c).length = pre.length + c.length := List.length_append _ _
      rw [memwrite_nul _ _ _ hlen2 (by omega)]
    · have hcsne : cs.flatten ≠ [] := by
        obtain ⟨d, ds, rfl⟩ := List.exists_cons_of_ne_nil hcs
        have hd : d ≠ [] := hne d (by simp)
        simp [hd]
      have hjpos : 0 < cs.flatten.length := List.length_pos.mpr hcsne
      have hproper : ¬ END_OF_REQUEST <:+: pre ++ c := by
        apply honly
        · exact ⟨cs.flatten, by simp⟩
        · intro heq
          have := congrArg List.length heq
          simp only [List.flatten_cons, List.length_append] at this
          omega
      rw [if_neg ((strstr_isSome_false_iff _ _).mpr hproper)]
      rw [if_neg (by omega)]
      have hsub : BUFFER_LEN - pre.length - c.length = BUFFER_LEN - (pre ++ c).length := by
        rw [List.length_append]; omega
      have hadd : pre.length + c.length = (pre ++ c).length := (List.length_append _ _).symm
      rw [hsub, hadd]
      have hassoc : pre ++ (c :: cs).flatten = (pre ++ c) ++ cs.flatten := by simp
      rw [hassoc] at hnul hterm honly ⊢
      exact ih rest (pre ++ c) (fun d hd => hne d (List.mem_cons_of_mem _ hd)) hcs hnul
        (by rw [List.length_append, List.length_append]; omega) hterm honly

/-- The same for `read_request`, which starts the loop on the empty buffer. -/
theorem read_request_chunks (chunks : List (List Char)) (rest : List RecvResult)
    (hne : ∀ c ∈ chunks, c ≠ []) (hch : chunks ≠ []) (hnul : NUL ∉ chunks.flatten)
    (hlen : chunks.flatten.length ≤ BUFFER_LEN) (hterm : END_OF_REQUEST <:+: chunks.flatten)
    (honly : ∀ p, p <+: chunks.flatten → p ≠ chunks.flatten → ¬ END_OF_REQUEST <:+: p) :
    (read_request (chunks.map RecvResult.data ++ rest) initial_buffer).1 = SUCCESS ∧
    cstr (read_request (chunks.map RecvResult.data ++ rest) initial_buffer).2 = chunks.flatten := by
  have h := read_request_loop_chunks chunks rest [] hne hch (by simpa using hnul)
    (by simpa using hlen) (by simpa using hterm) (by simpa using honly)
  simp only [List.nil_append, List.length_nil, Nat.sub_zero] at h
  unfold read_request initial_buffer
  rw [h]
  exact ⟨rfl, by rw [cstr_append_replicate, cstr_of_no_nul _ hnul]⟩

/-- A client that keeps sending until the buffer is full, the text in the
buffer never containing the terminator: `read_request_loop` returns `ERROR`. -/
theorem read_request_loop_full :
    ∀ (chunks : List (List Char)) (rest : List RecvResult) (pre : List Char),
      (∀ c ∈ chunks, c ≠ []) → pre.length < BUFFER_LEN →
      BUFFER_LEN ≤ (pre ++ chunks.flatten).length →
      ¬ END_OF_REQUEST <:+: cstr ((pre ++ chunks.flatten).take BUFFER_LEN) →
      (read_request_loop (chunks.map RecvResult.data ++ rest)
          (pre ++ List.replicate (BUFFER_LEN + 1 - pre.length) NUL) pre.length
          (BUFFER_LEN - pre.length)).1 = ERROR := by
  intro chunks
  induction chunks with
  | nil =>
    intro rest pre _ hlt hlen
    simp only [List.flatten_nil, List.append_nil] at hlen
    omega
  | cons c cs ih =>
    intro rest pre hne hlt hlen hterm
    have hc : c ≠ [] := hne c (List.mem_cons_self _ _)
    have hcpos : 0 < c.length := List.length_pos.mpr hc
    have hgot : (c.take (BUFFER_LEN - pre.length)).length = min (BUFFER_LEN - pre.length) c.length :=
      List.length_take _ _
    have hbuf := memwrite_received pre (c.take (BUFFER_LEN - pre.length))
    have hpre : pre ++ c.take (BUFFER_LEN - pre.length) <+:
        (pre ++ (c :: cs).flatten).take BUFFER_LEN := by
      rw [List.flatten_cons, List.take_append_eq_append_take, List.take_of_length_le (le_of_lt hlt),
        List.take_append_eq_append_take]
      exact (List.prefix_append_right_inj pre).mpr (List.prefix_append _ _)
    have hnot : ¬ END_OF_REQUEST <:+:
        cstr (pre ++ c.take (BUFFER_LEN - pre.length)) := by
      intro hin
      obtain ⟨t, ht⟩ := hpre
      apply hterm
      rw [← ht]
      exact hin.trans (cstr_prefix_mono _ _).isInfix
    rw [List.map_cons, List.cons_append]
    unfold read_request_loop
    simp only [hlt, if_true]
    rw [if_neg (by omega), hbuf, cstr_append_replicate,
      if_neg ((strstr_isSome_false_iff _ _).mpr hnot)]
    by_cases hfull : pre.length + (c.take (BUFFER_LEN - pre.length)).length = BUFFER_LEN
    · rw [if_pos hfull]
    · rw [if_neg hfull]
      have hcle : c.length ≤ BUFFER_LEN - pre.length := by omega
      have htake : c.take (BUFFER_LEN - pre.length) = c := List.take_of_length_le hcle
      rw [htake] at hfull hnot ⊢
      have hsub : BUFFER_LEN - pre.length - c.length = BUFFER_LEN - (pre ++ c).length := by
        rw [List.length_append]; omega
      have hadd : pre.length + c.length = (pre ++ c).length := (List.length_append _ _).symm
      rw [hsub, hadd]
      have hassoc : pre ++ (c :: cs).flatten = (pre ++ c) ++ cs.flatten := by simp
      rw [hassoc] at hlen hterm
      exact ih rest (pre ++ c) (fun d hd => hne d (List.mem_cons_of_mem _ hd))
        (by rw [List.length_append]; omega) hlen hterm

/-- The same for `read_request`. -/
theorem read_request_full (chunks : List (List Char)) (rest : List RecvResult)
    (hne : ∀ c ∈ chunks, c ≠ []) (hlen : BUFFER_LEN ≤ chunks.flatten.length)
    (hterm : ¬ END_OF_REQUEST <:+: cstr (chunks.flatten.take BUFFER_LEN)) :
    (read_request (chunks.map RecvResult.data ++ rest) initial_buffer).1 = ERROR := by
  have h := read_request_loop_full chunks rest [] hne (by decide) (by simpa using hlen)
    (by simpa using hterm)
  simpa [read_request, initial_buffer] using h

/-! ### `strtok` -/

/-- A text that starts with a token: `strtok` returns the token and resumes
behind the delimiter that ends it. -/
theorem strtok_token (tok rest delim : List Char) (d : Char) (hne : tok ≠ [])
    (htok : ∀ c ∈ tok, c ∉ delim) (hd : d ∈ delim) :
    strtok (tok ++ d :: rest) delim = some (tok, rest) := by
  obtain ⟨t, ts, rfl⟩ := List.exists_cons_of_ne_nil hne
  have ht : t ∉ delim := htok t (List.mem_cons_self _ _)
  have h1 : (t :: ts ++ d :: rest).dropWhile (fun c => delim.contains c) = t :: ts ++ d :: rest := by
    simp [List.dropWhile_cons, ht]
  have h2 : (t :: ts ++ d :: rest).takeWhile (fun c => !delim.contains c) = t :: ts := by
    rw [List.takeWhile_append_of_pos (fun c hc => by simpa using htok c hc)]
    simp [List.takeWhile_cons, hd]
  have h3 : (t :: ts ++ d :: rest).dropWhile (fun c => !delim.contains c) = d :: rest := by
    rw [List.dropWhile_append_of_pos (fun c hc => by simpa using htok c hc)]
    simp [List.dropWhile_cons, hd]
  unfold strtok
  simp only [h1, h2, h3]
  simp

/-- A text that is one token: `strtok` returns it and nothing is left. -/
theorem strtok_last (tok delim : List Char) (hne : tok ≠ [])
    (htok : ∀ c ∈ tok, c ∉ delim) :
    strtok tok delim = some (tok, []) := by
  obtain ⟨t, ts, rfl⟩ := List.exists_cons_of_ne_nil hne
  have ht : t ∉ delim := htok t (List.mem_cons_self _ _)
  have h1 : (t :: ts).dropWhile (fun c => delim.contains c) = t :: ts := by
    simp [List.dropWhile_cons, ht]
  have h2 : (t :: ts).takeWhile (fun c => !delim.contains c) = t :: ts := by
    rw [List.takeWhile_eq_self_iff]
    intro c hc
    simpa using htok c hc
  have h3 : (t :: ts).dropWhile (fun c => !delim.contains c) = [] := by
    rw [List.dropWhile_eq_nil_iff]
    intro c hc
    simpa using htok c hc
  unfold strtok
  simp only [h1, h2, h3]
  simp

/-- Leading delimiters are skipped. -/
theorem strtok_skip (d : Char) (s delim : List Char) (hd : d ∈ delim) :
    strtok (d :: s) delim = strtok s delim := by
  unfold strtok
  simp [List.dropWhile_cons, hd]

/-- The request `GET T HTTP/1.0` followed by the blank line, for a target
that is one token, is accepted with target `T`. -/
theorem parse_request_get (T : List Char) (hne : T ≠ [])
    (hchars : ∀ c ∈ T, c ≠ ' ' ∧ c ≠ CR ∧ c ≠ LF) :
    parse_request ("GET ".toList ++ T ++ " HTTP/1.0\r\n\r\n".toList) =
      ⟨true, some ("GET ".toList ++ T ++ " HTTP/1.0".toList), some GET_METHOD, some T,
        some HTTP_VERSION⟩ := by
  have hline : strtok ("GET ".toList ++ T ++ " HTTP/1.0\r\n\r\n".toList) END_OF_REQ_LINE =
      some ("GET ".toList ++ T ++ " HTTP/1.0".toList, [LF, CR, LF]) := by
    have := strtok_token ("GET ".toList ++ T ++ " HTTP/1.0".toList) [LF, CR, LF] END_OF_REQ_LINE CR
      (by simp) (by
        intro c hc
        simp only [List.mem_append] at hc
        rcases hc with (hc | hc) | hc
        · revert c; decide
        · have := hchars c hc
          intro hmem
          have : c = CR ∨ c = LF := by simpa [END_OF_REQ_LINE, CR, LF] using hmem
          rcases this with h | h
          · exact (hchars c hc).2.1 h
          · exact (hchars c hc).2.2 h
        · revert c; decide) (by decide)
    rw [← this]
    simp [CR, LF]
  have hspace : ∀ c ∈ T, c ∉ [' '] := by
    intro c hc
    simpa using (hchars c hc).1
  have hm : strtok ("GET ".toList ++ T ++ " HTTP/1.0".toList) [' '] =
      some (GET_METHOD, T ++ " HTTP/1.0".toList) := by
    have := strtok_token GET_METHOD (T ++ " HTTP/1.0".toList) [' '] ' ' (by decide) (by decide)
      (by decide)
    rw [← this]
    simp [GET_METHOD]
  have ht : strtok (T ++ " HTTP/1.0".toList) [' '] = some (T, HTTP_VERSION) := by
    have := strtok_token T HTTP_VERSION [' '] ' ' hne hspace (by decide)
    rw [← this]
    simp [HTTP_VERSION]
  have hv : strtok HTTP_VERSION [' '] = some (HTTP_VERSION, []) := by decide
  unfold parse_request
  rw [hline]
  simp only
  rw [hm]
  simp only [ne_eq, not_true_eq_false, if_false]
  rw [ht]
  simp only
  rw [hv]
  simp

theorem terminator_only_at_end_aux :
    ∀ (X a r : List Char), CR ∉ X → a ++ CR :: r = X ++ END_OF_REQUEST → r.length ≤ 3 := by
  intro X
  induction X with
  | nil =>
    intro a r _ h
    have := congrArg List.length h
    simp [END_OF_REQUEST] at this
    omega
  | cons x X ih =>
    intro a r hX h
    cases a with
    | nil =>
      simp only [List.nil_append, List.cons_append, List.cons.injEq] at h
      exact absurd (h.1 ▸ List.mem_cons_self _ _ : CR ∈ x :: X) hX
    | cons y a =>
      simp only [List.cons_append, List.cons.injEq] at h
      exact ih a r (fun hm => hX (List.mem_cons_of_mem _ hm)) h.2

/-- In a text without CR that is followed by the terminator, no proper prefix
of the whole contains the terminator. -/
theorem terminator_only_at_end (X : List Char) (hX : CR ∉ X) :
    ∀ p, p <+: X ++ END_OF_REQUEST → p ≠ X ++ END_OF_REQUEST → ¬ END_OF_REQUEST <:+: p := by
  rintro p ⟨q, hq⟩ hne ⟨a, b, hab⟩
  have hqne : q ≠ [] := by
    rintro rfl
    exact hne (by simpa using hq)
  have hqpos : 0 < q.length := List.length_pos.mpr hqne
  have h : a ++ CR :: ([LF, CR, LF] ++ b ++ q) = X ++ END_OF_REQUEST := by
    rw [← hq, ← hab]
    simp [END_OF_REQUEST, CR, LF]
  have := terminator_only_at_end_aux X a _ hX h
  simp only [List.length_append, List.length_cons, List.length_nil] at this
  omega

/-! ### `strtok` with a space and the tokens of a line -/

theorem split_on_spaces_ne_nil (s : List Char) : split_on_spaces s ≠ [] := by
  induction s with
  | nil => simp [split_on_spaces]
  | cons c cs ih =>
    unfold split_on_spaces
    split
    · simp
    · split <;> simp

theorem split_on_spaces_token (tok : List Char) (htok : ' ' ∉ tok) :
    split_on_spaces tok = [tok] ∧
    ∀ rest, split_on_spaces (tok ++ ' ' :: rest) = tok :: split_on_spaces rest := by
  induction tok with
  | nil =>
    refine ⟨rfl, fun rest => ?_⟩
    simp [split_on_spaces]
  | cons c cs ih =>
    have hc : ¬ c = ' ' := fun h => htok (h ▸ List.mem_cons_self _ _)
    obtain ⟨ih1, ih2⟩ := ih (fun h => htok (List.mem_cons_of_mem _ h))
    refine ⟨?_, fun rest => ?_⟩
    · unfold split_on_spaces
      rw [if_neg hc, ih1]
    · rw [List.cons_append]
      conv_lhs => unfold split_on_spaces
      rw [if_neg hc, ih2 rest]

theorem space_tokens_skip (s : List Char) : space_tokens (' ' :: s) = space_tokens s := by
  simp [space_tokens, split_on_spaces]

/-- What `strtok` with the delimiter `" "` returns, in terms of the tokens of
the text: NULL when there is none, else the first token, the rest of the text
holding the remaining tokens. -/
theorem strtok_space_tokens (s : List Char) :
    (strtok s [' '] = none ∧ space_tokens s = []) ∨
    ∃ tok rest, strtok s [' '] = some (tok, rest) ∧ space_tokens s = tok :: space_tokens rest := by
  induction s with
  | nil => exact Or.inl ⟨rfl, rfl⟩
  | cons c cs ih =>
    by_cases hc : c = ' '
    · subst hc
      rw [strtok_skip ' ' cs [' '] (by simp), space_tokens_skip]
      exact ih
    · right
      have hsplit := List.takeWhile_append_dropWhile (fun x => !([' '].contains x)) (c :: cs)
      have htok : ' ' ∉ (c :: cs).takeWhile (fun x => !([' '].contains x)) := by
        intro hm
        have := List.mem_takeWhile_imp hm
        simp at this
      have hne : (c :: cs).takeWhile (fun x => !([' '].contains x)) ≠ [] := by
        simp [List.takeWhile_cons, hc]
      have hne2 : ((c :: cs).takeWhile (fun x => !([' '].contains x))).isEmpty = false := by
        cases h : (c :: cs).takeWhile (fun x => !([' '].contains x)) with
        | nil => exact absurd h hne
        | cons _ _ => rfl
      have hstrtok : strtok (c :: cs) [' '] =
          some ((c :: cs).takeWhile (fun x => !([' '].contains x)),
            ((c :: cs).dropWhile (fun x => !([' '].contains x))).drop 1) := by
        unfold strtok
        simp [List.dropWhile_cons, hc]
      refine ⟨_, _, hstrtok, ?_⟩
      obtain ⟨h1, h2⟩ := split_on_spaces_token _ htok
      cases hr : (c :: cs).dropWhile (fun x => !([' '].contains x)) with
      | nil =>
        rw [hr, List.append_nil] at hsplit
        conv_lhs => rw [← hsplit]
        simp only [space_tokens, h1, List.filter_cons, hne2, Bool.not_false, if_true,
          List.filter_nil, List.drop_nil, split_on_spaces]
        rfl
      | cons d r =>
        have hd : d = ' ' := by
          have := List.head_dropWhile_not (fun x => !([' '].contains x)) (c :: cs)
            (by rw [hr]; simp)
          simp only [hr, List.head_cons] at this
          simpa using this
        subst hd
        rw [hr] at hsplit
        conv_lhs => rw [← hsplit]
        simp only [space_tokens, h2, List.filter_cons, hne2, Bool.not_false, if_true,
          List.drop_succ_cons, List.drop_zero]

/-- When `parse_request` finds a request line, it accepts exactly when the
tokens of that line start with `GET`, a target and `HTTP/1.0`. -/
theorem parse_request_ok_iff_tokens (b line : List Char)
    (h : (parse_request b).request_line = some line) :
    (parse_request b).ok = true ↔
      ∃ T more, space_tokens line = GET_METHOD :: T :: HTTP_VERSION :: more := by
  unfold parse_request at h ⊢
  cases h0 : strtok b END_OF_REQ_LINE with
  | none => rw [h0] at h; simp at h
  | some p0 =>
    obtain ⟨rl, r0⟩ := p0
    rw [h0] at h
    simp only at h ⊢
    have hline : rl = line := by
      revert h
      repeat' split
      all_goals intro h; simpa using h
    subst hline
    rcases strtok_space_tokens rl with ⟨h1, t1⟩ | ⟨m, r1, h1, t1⟩
    · rw [h1, t1]; simp
    · rw [h1, t1]
      simp only
      by_cases hm : m = GET_METHOD
      · subst hm
        simp only [ne_eq, not_true_eq_false, if_false]
        rcases strtok_space_tokens r1 with ⟨h2, t2⟩ | ⟨T, r2, h2, t2⟩
        · rw [h2, t2]; simp
        · rw [h2, t2]
          simp only
          rcases strtok_space_tokens r2 with ⟨h3, t3⟩ | ⟨v, r3, h3, t3⟩
          · rw [h3, t3]; simp
          · rw [h3, t3]
            simp only
            by_cases hv : v = HTTP_VERSION
            · subst hv
              simp
            · simp [hv]
      · simp [hm]

/-- A text without CR does not contain the terminator. -/
theorem terminator_needs_cr (X : List Char) (h : CR ∉ X) : ¬ END_OF_REQUEST <:+: X := by
  rintro ⟨a, b, hab⟩
  apply h
  rw [← hab]
  simp [END_OF_REQUEST, CR]

/-! ### The acceptor and the workers -/

/-- At the start the work queue is well formed and empty. -/
theorem server_start_holds : queue_holds server_start.heap WORK_QUEUE [] := by
  refine ⟨by decide, ⟨NULL, NULL⟩, ?_, rfl, rfl, by simp, by simp⟩
  simp [server_start]

/-- A round of the acceptor keeps the work queue well formed and free of NULL
items; it appends the work item when it enqueues one. -/
theorem acceptor_round_holds (s : Server) (newsockfd : Int) (w_arg : Nat)
    (cells : List (Nat × Nat)) (hq : queue_holds s.heap WORK_QUEUE cells)
    (hitems : ∀ c ∈ cells, c.2 ≠ NULL) :
    ∃ cells2, queue_holds (acceptor_round s newsockfd w_arg).heap WORK_QUEUE cells2 ∧
      (∀ c ∈ cells2, c.2 ≠ NULL) ∧
      cells2.map Prod.snd ++ accepted [] =
        cells.map Prod.snd ++ accepted [Step.accept newsockfd w_arg] ∧
      (acceptor_round s newsockfd w_arg).handled = s.handled := by
  unfold acceptor_round
  by_cases hfd : newsockfd < 0
  · exact ⟨cells, by simpa [hfd] using hq, hitems, by simp [accepted, hfd], by simp [hfd]⟩
  · by_cases hw : w_arg = NULL
    · exact ⟨cells, by simpa [hfd, hw] using hq, hitems, by simp [accepted, hfd, hw],
        by simp [hfd, hw]⟩
    · refine ⟨cells ++ [(s.heap.brk + 1, w_arg)], ?_, ?_, by simp [accepted, hfd, hw],
        by simp [hfd, hw]⟩
      · simpa [hfd, hw] using (queue_enqueue_holds s.heap WORK_QUEUE w_arg cells hq).1
      · intro c hc
        rcases List.mem_append.mp hc with hc | hc
        · exact hitems c hc
        · simp only [List.mem_singleton] at hc
          rw [hc]
          exact hw

/-- Every interleaving, run from a state whose work queue is well formed and
holds no NULL item: the items passed to `handle_client` from then on are, in
order, a prefix of the items in the queue followed by the items the acceptor
enqueues, and none of them is NULL. -/
theorem run_server_spec :
    ∀ (steps : List Step) (s : Server) (cells : List (Nat × Nat)),
      queue_holds s.heap WORK_QUEUE cells → (∀ c ∈ cells, c.2 ≠ NULL) →
      ∃ out rest, (run_server steps s).handled = s.handled ++ out ∧
        out.map Prod.snd ++ rest.map Prod.snd = cells.map Prod.snd ++ accepted steps ∧
        (∀ x ∈ out, x.2 ≠ NULL) ∧
        queue_holds (run_server steps s).heap WORK_QUEUE rest ∧ (∀ c ∈ rest, c.2 ≠ NULL) := by
  intro steps
  induction steps with
  | nil =>
    intro s cells hq hitems
    exact ⟨[], cells, by simp [run_server], by simp [accepted], by simp, hq, hitems⟩
  | cons step steps ih =>
    intro s cells hq hitems
    cases step with
    | accept newsockfd w_arg =>
      obtain ⟨cells2, a1, a2, a3, a4⟩ := acceptor_round_holds s newsockfd w_arg cells hq hitems
      obtain ⟨out, rest, i1, i2, i3, i4, i5⟩ := ih _ cells2 a1 a2
      refine ⟨out, rest, by rw [run_server, i1, a4], ?_, i3, i4, i5⟩
      rw [i2]
      simp only [accepted, List.append_nil] at a3
      rw [a3]
      by_cases hfd : newsockfd < 0
      · simp [accepted, hfd]
      · by_cases hw : w_arg = NULL
        · simp [accepted, hfd, hw]
        · simp [accepted, hfd, hw]
    | work worker =>
      cases cells with
      | nil =>
        have hd := queue_dequeue_empty s.heap WORK_QUEUE hq
        have hs : worker_round s worker = s := by
          unfold worker_round
          simp [hd]
        obtain ⟨out, rest, i1, i2, i3, i4, i5⟩ := ih s [] hq hitems
        refine ⟨out, rest, ?_, ?_, i3, ?_, i5⟩
        · rw [run_server, hs, i1]
        · rw [i2]; rfl
        · rw [run_server, hs]; exact i4
      | cons c cs =>
        obtain ⟨hd1, hd2, -⟩ := queue_dequeue_holds s.heap WORK_QUEUE c cs hq
        have hc : c.2 ≠ NULL := hitems c (List.mem_cons_self _ _)
        have hs : worker_round s worker =
            ⟨(queue_dequeue s.heap WORK_QUEUE).2, s.handled ++ [(worker, c.2)]⟩ := by
          unfold worker_round
          simp only [hd1, ne_eq, hc, not_false_eq_true, if_true]
        obtain ⟨out, rest, i1, i2, i3, i4, i5⟩ := ih
          ⟨(queue_dequeue s.heap WORK_QUEUE).2, s.handled ++ [(worker, c.2)]⟩ cs hd2
          (fun d hd => hitems d (List.mem_cons_of_mem _ hd))
        refine ⟨(worker, c.2) :: out, rest, ?_, ?_, ?_, ?_, i5⟩
        · rw [run_server, hs, i1]; simp
        · simp only [List.map_cons, List.cons_append, i2]
          rfl
        · intro x hx
          rcases List.mem_cons.mp hx with hx | hx
          · rw [hx]; exact hc
          · exact i3 x hx
        · rw [run_server, hs]; exact i4

/-! ### Allocation and release in a trace -/

@[simp] theorem alloc_calls_append (a b : List Event) :
    alloc_calls (a ++ b) = alloc_calls a ++ alloc_calls b := by
  induction a with
  | nil => rfl
  | cons e a ih => cases e <;> simp [alloc_calls, ih]

@[simp] theorem free_calls_append (a b : List Event) :
    free_calls (a ++ b) = free_calls a ++ free_calls b := by
  induction a with
  | nil => rfl
  | cons e a ih => cases e <;> simp [free_calls, ih]

/-- The events of the header loop are `send` calls. -/
theorem send_headers_events (response : List Char) (script : List Int) :
    ∀ (total left : Nat), ∀ e ∈ (send_headers response script total left).2,
      ∃ d n, e = Event.send d n := by
  induction script with
  | nil =>
    intro total left e he
    by_cases h : total < strlen response
    · rw [send_headers_nil _ _ _ h] at he
      simp only [List.mem_singleton] at he
      exact ⟨_, _, he⟩
    · rw [send_headers_done _ _ _ _ h] at he
      cases he
  | cons r rest ih =>
    intro total left e he
    by_cases h : total < strlen response
    · by_cases hr : r < 0
      · rw [send_headers_neg _ _ _ _ _ h hr] at he
        simp only [List.mem_singleton] at he
        exact ⟨_, _, he⟩
      · by_cases hn : min r.toNat left = 0
        · rw [send_headers_zero _ _ _ _ _ h hr hn] at he
          simp only [List.mem_singleton] at he
          exact ⟨_, _, he⟩
        · rw [send_headers_step _ _ _ _ _ h hr hn] at he
          rcases List.mem_cons.mp he with he | he
          · exact ⟨_, _, he⟩
          · exact ih _ _ e he
    · rw [send_headers_done _ _ _ _ h] at he
      cases he

/-- The events of the body loop are `sendfile` calls. -/
theorem sendfile_loop_events (count : Nat) (script : List Int) :
    ∀ (offset : Int), ∀ e ∈ (sendfile_loop count script offset).2,
      ∃ o c n, e = Event.sendfile o c n := by
  induction script with
  | nil =>
    intro offset e he
    simp only [sendfile_loop, List.mem_singleton] at he
    exact ⟨_, _, _, he⟩
  | cons r rest ih =>
    intro offset e he
    unfold sendfile_loop at he
    simp only at he
    split at he
    · rcases List.mem_cons.mp he with he | he
      · exact ⟨_, _, _, he⟩
      · exact ih _ e he
    · simp only [List.mem_singleton] at he
      exact ⟨_, _, _, he⟩

/-- The events of `send_response`: `send` calls, the `open` of the file,
`sendfile` calls and the `close` of the descriptor that `open` returned. -/
theorem send_response_events (sends : List Int) (open_file : List Char → Int)
    (sendfiles : List Int) (response : List Char) (file_status : Int) (path : List Char)
    (size : Nat) :
    ∀ e ∈ (send_response sends open_file sendfiles response file_status path size).2,
      (∃ d n, e = Event.send d n) ∨ e = Event.open_file path (open_file path) ∨
      (∃ o c n, e = Event.sendfile o c n) ∨ e = Event.close (open_file path) := by
  intro e he
  have hh := send_headers_events response sends 0 (strlen response)
  have hs := sendfile_loop_events size sendfiles 0
  by_cases h1 : (send_headers response sends 0 (strlen response)).1 = SUCCESS
  · by_cases hfs : file_status ≠ 0
    · by_cases hfd : open_file path < 0
      · rw [send_response_open_fail _ _ _ _ _ _ _ h1 hfs hfd] at he
        rcases List.mem_append.mp he with he | he
        · exact Or.inl (hh e he)
        · simp only [List.mem_singleton] at he
          exact Or.inr (Or.inl he)
      · rw [send_response_opened _ _ _ _ _ _ _ h1 hfs hfd] at he
        have hmem : e ∈ (send_headers response sends 0 (strlen response)).2 ++
            [Event.open_file path (open_file path)] ++ (sendfile_loop size sendfiles 0).2 ++
            [Event.close (open_file path)] := by
          split at he
          · exact he
          · exact List.mem_append_left _ he
        simp only [List.mem_append, List.mem_singleton] at hmem
        rcases hmem with ((hm | hm) | hm) | hm
        · exact Or.inl (hh e hm)
        · exact Or.inr (Or.inl hm)
        · exact Or.inr (Or.inr (Or.inl (hs e hm)))
        · exact Or.inr (Or.inr (Or.inr hm))
    · have h0 : file_status = 0 := not_not.mp hfs
      subst h0
      rw [send_response_no_file _ _ _ _ _ _ h1] at he
      exact Or.inl (hh e he)
  · rw [send_response_hdr_fail _ _ _ _ _ _ _ h1] at he
    exact Or.inl (hh e he)

/-- In the trace of `send_response` nothing is allocated or freed, and no
descriptor is closed but the one `open` returned. -/
theorem send_response_quiet (sends : List Int) (open_file : List Char → Int)
    (sendfiles : List Int) (response : List Char) (file_status : Int) (path : List Char)
    (size : Nat) (fd : Int) (hfd : open_file path ≠ fd) :
    alloc_calls (send_response sends open_file sendfiles response file_status path size).2 = [] ∧
    free_calls (send_response sends open_file sendfiles response file_status path size).2 = [] ∧
    fd ∉ close_calls (send_response sends open_file sendfiles response file_status path size).2
    := by
  have hev := send_response_events sends open_file sendfiles response file_status path size
  generalize (send_response sends open_file sendfiles response file_status path size).2 = l
    at hev
  induction l with
  | nil => exact ⟨rfl, rfl, by simp [close_calls]⟩
  | cons e l ih =>
    obtain ⟨i1, i2, i3⟩ := ih (fun x hx => hev x (List.mem_cons_of_mem _ hx))
    rcases hev e (List.mem_cons_self _ _) with ⟨d, n, rfl⟩ | rfl | ⟨o, c, n, rfl⟩ | rfl
    · exact ⟨i1, i2, i3⟩
    · exact ⟨i1, i2, i3⟩
    · exact ⟨i1, i2, i3⟩
    · refine ⟨i1, i2, ?_⟩
      simp only [close_calls, List.mem_cons, not_or]
      exact ⟨fun h => hfd h.symm, i3⟩

/-- A queue that is created, filled with `items` and cleaned with `free`:
every item is given to `free` once, in the order of the enqueues, and the
queue is freed. -/
theorem free_queue_released (h : Heap) (items : List Nat) :
    (queue_clean items.length (queue_create_from_array h items).2
      (queue_create_from_array h items).1 true).released = h.released ++ items ∧
    (queue_create_from_array h items).1 ∈
      (queue_clean items.length (queue_create_from_array h items).2
        (queue_create_from_array h items).1 true).freed ∧
    (queue_clean items.length (queue_create_from_array h items).2
      (queue_create_from_array h items).1 true).queue (queue_create_from_array h items).1
      = none := by
  obtain ⟨cells2, c1, c2, c3, -⟩ := queue_enqueue_array_holds (queue_create h).1 items
    (queue_create h).2 [] (queue_create_holds h)
  have hlen : cells2.length ≤ items.length := by
    have := congrArg List.length c2
    simp at this
    omega
  obtain ⟨f1, f2, f3⟩ := queue_clean_frees _ _ cells2 items.length c1 hlen
  unfold queue_create_from_array
  simp only
  refine ⟨?_, ?_, f3⟩
  · rw [f1, c2, c3]
    simp [queue_create]
  · rw [f2]
    simp

/-- What can be seen of a run of `handle_client` on an accepted request with
target `T`, in terms of the result `st` of the look-up. -/
theorem handle_client_accepted_seen (args : Arg) (env : Env) (T : List Char)
    (hread : (read_request env.recvs initial_buffer).1 = SUCCESS)
    (hok : (parse_request (cstr (read_request env.recvs initial_buffer).2)).ok = true)
    (hT : (parse_request (cstr (read_request env.recvs initial_buffer).2)).file_path = some T)
    (st : FileStats)
    (hst : st = if path_component_exists T then ⟨0, [], 0⟩
      else file_stats env.stat (file_path_full args.root_path T) T [] 0) :
    first_send (handle_client (some args) env) =
      some (create_response_headers st.status (if st.status ≠ 0 then STATUS_OK else STATUS_NF)
        (if st.status ≠ 0 then STATUS_OK_M else STATUS_NF_M) st.content_type st.file_size) ∧
    stat_calls (handle_client (some args) env) =
      (if path_component_exists T then [] else [file_path_full args.root_path T]) ∧
    (sends_succeed (handle_client (some args) env) = true →
      wire (handle_client (some args) env) =
        create_response_headers st.status (if st.status ≠ 0 then STATUS_OK else STATUS_NF)
          (if st.status ≠ 0 then STATUS_OK_M else STATUS_NF_M) st.content_type st.file_size ∧
      open_calls (handle_client (some args) env) =
        (if st.status ≠ 0 then [file_path_full args.root_path T] else []) ∧
      (0 ≤ env.open_file (file_path_full args.root_path T) →
        (sendfile_calls (handle_client (some args) env)).head? =
          if st.status ≠ 0 then some (0, st.file_size) else none)) := by
  have hacc := handle_client_accepted args env T hread hok hT st hst
  have hne := create_response_headers_ne_nil st.status
    (if st.status ≠ 0 then STATUS_OK else STATUS_NF)
    (if st.status ≠ 0 then STATUS_OK_M else STATUS_NF_M) st.content_type st.file_size
  generalize create_response_headers st.status (if st.status ≠ 0 then STATUS_OK else STATUS_NF)
    (if st.status ≠ 0 then STATUS_OK_M else STATUS_NF_M) st.content_type st.file_size = H
    at hacc hne ⊢
  obtain ⟨s1, -, -, s4, s5, s6, -⟩ := send_response_spec env.sends env.open_file env.sendfiles H
    st.status (file_path_full args.root_path T) st.file_size hne
  obtain ⟨q1, q2, q3, q4, q5, -⟩ := release_trace_quiet args.clientfd
    [Ptr.file_path_full, Ptr.response]
  rw [hacc]
  refine ⟨?_, ?_, ?_⟩
  · by_cases hp : path_component_exists T = true <;>
      simp [hp, first_send_append, first_send, s1]
  · by_cases hp : path_component_exists T = true <;> simp [hp, stat_calls, s5, q3]
  · intro hs
    have hs2 : sends_succeed (send_response env.sends env.open_file env.sendfiles H st.status
        (file_path_full args.root_path T) st.file_size).2 = true := by
      simp only [sends_succeed_append, Bool.and_eq_true] at hs
      exact hs.1.2
    obtain ⟨w1, w2⟩ := s4 hs2
    have hpre_w : ∀ l : List Event, l = (if path_component_exists T = true then []
        else [Event.stat (file_path_full args.root_path T)]) →
        wire l = [] ∧ open_calls l = [] ∧ sendfile_calls l = [] := by
      intro l hl
      subst hl
      split <;> exact ⟨rfl, rfl, rfl⟩
    obtain ⟨p1, p2, p3⟩ := hpre_w _ rfl
    have ho : open_calls (([Event.alloc Ptr.free_queue, Event.log GET_METHOD T HTTP_VERSION,
          Event.alloc Ptr.file_path_full] ++
        if path_component_exists T = true then []
        else [Event.stat (file_path_full args.root_path T)]) ++ [Event.alloc Ptr.response] ++
        (send_response env.sends env.open_file env.sendfiles H st.status
          (file_path_full args.root_path T) st.file_size).2 ++
        release_trace args.clientfd [Ptr.file_path_full, Ptr.response]) =
        open_calls (send_response env.sends env.open_file env.sendfiles H st.status
          (file_path_full args.root_path T) st.file_size).2 := by
      simp [open_calls, p2, q4]
    have hsf : sendfile_calls (([Event.alloc Ptr.free_queue, Event.log GET_METHOD T HTTP_VERSION,
          Event.alloc Ptr.file_path_full] ++
        if path_component_exists T = true then []
        else [Event.stat (file_path_full args.root_path T)]) ++ [Event.alloc Ptr.response] ++
        (send_response env.sends env.open_file env.sendfiles H st.status
          (file_path_full args.root_path T) st.file_size).2 ++
        release_trace args.clientfd [Ptr.file_path_full, Ptr.response]) =
        sendfile_calls (send_response env.sends env.open_file env.sendfiles H st.status
          (file_path_full args.root_path T) st.file_size).2 := by
      simp [sendfile_calls, p3, q5]
    rw [ho, hsf]
    refine ⟨?_, ?_, ?_⟩
    · simp [wire, p1, w1, q1]
    · by_cases hfs : st.status ≠ 0
      · rw [if_pos hfs]; exact (w2 hfs).1
      · rw [if_neg hfs]; exact (s6 (not_not.mp hfs)).1
    · intro hopen
      by_cases hfs : st.status ≠ 0
      · rw [if_pos hfs]; exact (w2 hfs).2 hopen
      · rw [if_neg hfs, (s6 (not_not.mp hfs)).2]; rfl

/-! ### Segments of a target -/

theorem segments_token (s : List Char) (hs : '/' ∉ s) :
    segments s = [s] ∧ ∀ rest, segments (s ++ '/' :: rest) = s :: segments rest := by
  induction s with
  | nil =>
    refine ⟨rfl, fun rest => ?_⟩
    simp [segments]
  | cons c cs ih =>
    have hc : ¬ c = '/' := fun h => hs (h ▸ List.mem_cons_self _ _)
    obtain ⟨ih1, ih2⟩ := ih (fun h => hs (List.mem_cons_of_mem _ h))
    refine ⟨?_, fun rest => ?_⟩
    · unfold segments
      rw [if_neg hc, ih1]
    · rw [List.cons_append]
      conv_lhs => unfold segments
      rw [if_neg hc, ih2 rest]

/-- The pattern `/../` does not start inside a segment. -/
theorem path_component_skip (s R : List Char) (hs : '/' ∉ s) :
    PATH_COMPONENT <:+: s ++ '/' :: R ↔ PATH_COMPONENT <:+: '/' :: R := by
  induction s with
  | nil => rfl
  | cons a s ih =>
    have ha : ¬ a = '/' := fun h => hs (h ▸ List.mem_cons_self _ _)
    rw [List.cons_append, List.infix_cons_iff, ih (fun h => hs (List.mem_cons_of_mem _ h))]
    constructor
    · rintro (h | h)
      · exfalso
        obtain ⟨t, ht⟩ := h
        simp only [PATH_COMPONENT, String.toList, List.cons_append, List.cons.injEq] at ht
        exact ha ht.1.symm
      · exact h
    · exact fun h => Or.inr h

/-- The pattern `/../` at a slash: the segment behind the slash is `..`. -/
theorem path_component_here (s R : List Char) (hs : '/' ∉ s) :
    PATH_COMPONENT <+: '/' :: (s ++ '/' :: R) ↔ s = "..".toList := by
  constructor
  · rintro ⟨t, ht⟩
    simp only [PATH_COMPONENT, String.toList, List.cons_append, List.cons.injEq, true_and,
      List.nil_append] at ht
    match s, hs, ht with
    | [], _, ht =>
      simp only [List.nil_append, List.cons.injEq] at ht
      exact absurd ht.1 (by decide)
    | [a], _, ht =>
      simp only [List.cons_append, List.nil_append, List.cons.injEq] at ht
      exact absurd ht.2.1 (by decide)
    | [a, b], _, ht =>
      simp only [List.cons_append, List.nil_append, List.cons.injEq] at ht
      rw [← ht.1, ← ht.2.1]
      rfl
    | a :: b :: c :: s, hs, ht =>
      simp only [List.cons_append, List.cons.injEq] at ht
      exfalso
      apply hs
      rw [← ht.2.2.1]
      simp
  · rintro rfl
    exact ⟨R, rfl⟩

/-- The wrapped target contains `/../` exactly when a segment of the target,
read behind the slash-free text `s`, is `..`. -/
theorem path_component_segments (T : List Char) :
    ∀ s : List Char, '/' ∉ s →
      (PATH_COMPONENT <:+: '/' :: (s ++ T ++ ['/']) ↔ "..".toList ∈ segments (s ++ T)) := by
  induction T with
  | nil =>
    intro s hs
    rw [List.append_nil, (segments_token s hs).1, List.infix_cons_iff,
      path_component_here s [] hs, path_component_skip s [] hs]
    simp only [List.mem_singleton]
    constructor
    · rintro (h | h)
      · exact h.symm
      · exfalso
        have := h.length_le
        simp [PATH_COMPONENT] at this
    · exact fun h => Or.inl h.symm
  | cons c T ih =>
    intro s hs
    by_cases hc : c = '/'
    · subst hc
      have h1 : s ++ '/' :: T ++ ['/'] = s ++ '/' :: (T ++ ['/']) := by simp
      rw [h1, (segments_token s hs).2 T, List.infix_cons_iff, path_component_here s _ hs,
        path_component_skip s _ hs]
      have := ih [] (by simp)
      simp only [List.nil_append] at this
      rw [this, List.mem_cons]
      constructor
      · rintro (h | h)
        · exact Or.inl h.symm
        · exact Or.inr h
      · rintro (h | h)
        · exact Or.inl h.symm
        · exact Or.inr h
    · have h1 : s ++ c :: T = (s ++ [c]) ++ T := by simp
      rw [h1]
      apply ih
      intro hm
      rcases List.mem_append.mp hm with hm | hm
      · exact hs hm
      · simp only [List.mem_singleton] at hm
        exact hc hm.symm

/-- The value `file_stats` returns is one of the two status constants. -/
theorem file_stats_status (stat : List Char → Option Stat) (full T ct : List Char) (fs : Nat) :
    (file_stats stat full T ct fs).status = FILE_EXISTS ∨
    (file_stats stat full T ct fs).status = FILE_DOESNT_EXIST := by
  unfold file_stats
  dsimp only
  repeat' split
  all_goals first | exact Or.inl rfl | exact Or.inr rfl

/-- The two shapes of a run of `handle_client`: either the connection is
closed in silence, or the request is logged, looked up and answered with the
header block of `create_response_headers`, called with `200`/`OK` and file
status 1 or with `404`/`Not Found` and file status 0. -/
theorem handle_client_cases (args : Arg) (env : Env) :
    handle_client (some args) env =
      Event.alloc Ptr.free_queue :: release_trace args.clientfd [] ∨
    ∃ (T ct : List Char) (N : Nat) (file_status : Int) (C M : List Char),
      (parse_request (cstr (read_request env.recvs initial_buffer).2)).file_path = some T ∧
      ((file_status = 1 ∧ C = STATUS_OK ∧ M = STATUS_OK_M) ∨
       (file_status = 0 ∧ C = STATUS_NF ∧ M = STATUS_NF_M)) ∧
      handle_client (some args) env =
        [Event.alloc Ptr.free_queue, Event.log GET_METHOD T HTTP_VERSION,
          Event.alloc Ptr.file_path_full] ++
        (if path_component_exists T then []
          else [Event.stat (file_path_full args.root_path T)]) ++
        [Event.alloc Ptr.response] ++
        (send_response env.sends env.open_file env.sendfiles
          (create_response_headers file_status C M ct N) file_status
          (file_path_full args.root_path T) N).2 ++
        release_trace args.clientfd [Ptr.file_path_full, Ptr.response] := by
  by_cases hread : (read_request env.recvs initial_buffer).1 = SUCCESS
  · cases hok : (parse_request (cstr (read_request env.recvs initial_buffer).2)).ok with
    | false => exact Or.inl (handle_client_rejected args env hok)
    | true =>
      obtain ⟨rl, T, heq⟩ := parse_request_ok _ hok
      have hT : (parse_request (cstr (read_request env.recvs initial_buffer).2)).file_path
          = some T := by rw [heq]
      right
      have hacc := handle_client_accepted args env T hread hok hT _ rfl
      have hstatus : (if path_component_exists T = true then (⟨0, [], 0⟩ : FileStats)
          else file_stats env.stat (file_path_full args.root_path T) T [] 0).status = 1 ∨
          (if path_component_exists T = true then (⟨0, [], 0⟩ : FileStats)
          else file_stats env.stat (file_path_full args.root_path T) T [] 0).status = 0 := by
        by_cases hp : path_component_exists T = true
        · rw [if_pos hp]; exact Or.inr rfl
        · rw [if_neg hp]; exact file_stats_status _ _ _ _ _
      generalize (if path_component_exists T = true then (⟨0, [], 0⟩ : FileStats)
          else file_stats env.stat (file_path_full args.root_path T) T [] 0) = st
        at hacc hstatus
      obtain ⟨s, c, n⟩ := st
      simp only at hstatus hacc
      rcases hstatus with h1 | h0
      · subst h1
        exact ⟨T, c, n, 1, STATUS_OK, STATUS_OK_M, hT, Or.inl ⟨rfl, rfl, rfl⟩, hacc⟩
      · subst h0
        exact ⟨T, c, n, 0, STATUS_NF, STATUS_NF_M, hT, Or.inr ⟨rfl, rfl, rfl⟩, hacc⟩
  · exact Or.inl (handle_client_read_failed args env hread)

/-! ### One round of the loop of `read_request` -/

/-- A round of the loop in which `recv` delivers bytes, from a state in which
`pre` has been received: the bytes (at most as many as fit) are stored behind
`pre`; the loop ends with `SUCCESS` when the C string in the buffer now holds
the terminator, with `ERROR` when the buffer is full, and goes on otherwise. -/
theorem read_request_loop_data (pre bytes : List Char) (rest : List RecvResult)
    (hlt : pre.length < BUFFER_LEN) (hgot : bytes ≠ []) :
    read_request_loop (RecvResult.data bytes :: rest)
        (pre ++ List.replicate (BUFFER_LEN + 1 - pre.length) NUL) pre.length
        (BUFFER_LEN - pre.length) =
      if (strstr (cstr (pre ++ bytes.take (BUFFER_LEN - pre.length))) END_OF_REQUEST).isSome then
        (SUCCESS, (pre ++ bytes.take (BUFFER_LEN - pre.length)) ++ List.replicate
          (BUFFER_LEN + 1 - (pre ++ bytes.take (BUFFER_LEN - pre.length)).length) NUL)
      else if (pre ++ bytes.take (BUFFER_LEN - pre.length)).length = BUFFER_LEN then
        (ERROR, (pre ++ bytes.take (BUFFER_LEN - pre.length)) ++ List.replicate
          (BUFFER_LEN + 1 - (pre ++ bytes.take (BUFFER_LEN - pre.length)).length) NUL)
      else
        read_request_loop rest ((pre ++ bytes.take (BUFFER_LEN - pre.length)) ++ List.replicate
            (BUFFER_LEN + 1 - (pre ++ bytes.take (BUFFER_LEN - pre.length)).length) NUL)
          (pre ++ bytes.take (BUFFER_LEN - pre.length)).length
          (BUFFER_LEN - (pre ++ bytes.take (BUFFER_LEN - pre.length)).length) := by
  have hpos : 0 < bytes.length := List.length_pos.mpr hgot
  have hlen : (bytes.take (BUFFER_LEN - pre.length)).length =
      min (BUFFER_LEN - pre.length) bytes.length := List.length_take _ _
  have hn : ¬ (bytes.take (BUFFER_LEN - pre.length)).length = 0 := by omega
  have hadd : pre.length + (bytes.take (BUFFER_LEN - pre.length)).length =
      (pre ++ bytes.take (BUFFER_LEN - pre.length)).length := (List.length_append _ _).symm
  have hsub : BUFFER_LEN - pre.length - (bytes.take (BUFFER_LEN - pre.length)).length =
      BUFFER_LEN - (pre ++ bytes.take (BUFFER_LEN - pre.length)).length := by
    rw [List.length_append]; omega
  have hle : (pre ++ bytes.take (BUFFER_LEN - pre.length)).length ≤ BUFFER_LEN := by
    rw [List.length_append]; omega
  conv_lhs => unfold read_request_loop
  simp only [hlt, if_true]
  rw [if_neg hn, memwrite_received, cstr_append_replicate, hadd, hsub]
  by_cases hfound : (strstr (cstr (pre ++ bytes.take (BUFFER_LEN - pre.length)))
      END_OF_REQUEST).isSome = true
  · rw [if_pos hfound, if_pos hfound, memwrite_nul _ _ _ rfl (by omega)]
  · rw [if_neg hfound, if_neg hfound]

/-- A round of the loop in which `recv` fails, or returns 0 while the C string
in the buffer holds no terminator: `ERROR`. -/
theorem read_request_loop_stop (pre : List Char) (script : List RecvResult)
    (hlt : pre.length < BUFFER_LEN) (hterm : ¬ END_OF_REQUEST <:+: cstr pre)
    (hs : script = [] ∨ ∃ rest, script = RecvResult.error :: rest ∨
      script = RecvResult.data [] :: rest) :
    read_request_loop script (pre ++ List.replicate (BUFFER_LEN + 1 - pre.length) NUL)
        pre.length (BUFFER_LEN - pre.length) =
      (ERROR, pre ++ List.replicate (BUFFER_LEN + 1 - pre.length) NUL) := by
  have hnot : ¬ (strstr (cstr (pre ++ List.replicate (BUFFER_LEN + 1 - pre.length) NUL))
      END_OF_REQUEST).isSome = true := by
    rw [cstr_append_replicate]
    exact (strstr_isSome_false_iff _ _).mpr hterm
  rcases hs with rfl | ⟨rest, rfl | rfl⟩
  · unfold read_request_loop
    simp only [hlt, if_true]
    rw [if_neg hnot]
  · unfold read_request_loop
    simp only [hlt, if_true]
  · unfold read_request_loop
    simp only [hlt, if_true, List.take_nil, List.length_nil]
    rw [if_neg hnot]

/-- The same two rounds for the loop without the branch. -/
theorem read_request_loop_strict_data (pre bytes : List Char) (rest : List RecvResult)
    (hlt : pre.length < BUFFER_LEN) (hgot : bytes ≠ []) :
    read_request_loop_strict (RecvResult.data bytes :: rest)
        (pre ++ List.replicate (BUFFER_LEN + 1 - pre.length) NUL) pre.length
        (BUFFER_LEN - pre.length) =
      if (strstr (cstr (pre ++ bytes.take (BUFFER_LEN - pre.length))) END_OF_REQUEST).isSome then
        (SUCCESS, (pre ++ bytes.take (BUFFER_LEN - pre.length)) ++ List.replicate
          (BUFFER_LEN + 1 - (pre ++ bytes.take (BUFFER_LEN - pre.length)).length) NUL)
      else if (pre ++ bytes.take (BUFFER_LEN - pre.length)).length = BUFFER_LEN then
        (ERROR, (pre ++ bytes.take (BUFFER_LEN - pre.length)) ++ List.replicate
          (BUFFER_LEN + 1 - (pre ++ bytes.take (BUFFER_LEN - pre.length)).length) NUL)
      else
        read_request_loop_strict rest ((pre ++ bytes.take (BUFFER_LEN - pre.length)) ++
            List.replicate
              (BUFFER_LEN + 1 - (pre ++ bytes.take (BUFFER_LEN - pre.length)).length) NUL)
          (pre ++ bytes.take (BUFFER_LEN - pre.length)).length
          (BUFFER_LEN - (pre ++ bytes.take (BUFFER_LEN - pre.length)).length) := by
  have hpos : 0 < bytes.length := List.length_pos.mpr hgot
  have hlen : (bytes.take (BUFFER_LEN - pre.length)).length =
      min (BUFFER_LEN - pre.length) bytes.length := List.length_take _ _
  have hn : ¬ (bytes.take (BUFFER_LEN - pre.length)).length = 0 := by omega
  have hadd : pre.length + (bytes.take (BUFFER_LEN - pre.length)).length =
      (pre ++ bytes.take (BUFFER_LEN - pre.length)).length := (List.length_append _ _).symm
  have hsub : BUFFER_LEN - pre.length - (bytes.take (BUFFER_LEN - pre.length)).length =
      BUFFER_LEN - (pre ++ bytes.take (BUFFER_LEN - pre.length)).length := by
    rw [List.length_append]; omega
  have hle : (pre ++ bytes.take (BUFFER_LEN - pre.length)).length ≤ BUFFER_LEN := by
    rw [List.length_append]; omega
  conv_lhs => unfold read_request_loop_strict
  simp only [hlt, if_true]
  rw [if_neg hn, memwrite_received, cstr_append_replicate, hadd, hsub]
  by_cases hfound : (strstr (cstr (pre ++ bytes.take (BUFFER_LEN - pre.length)))
      END_OF_REQUEST).isSome = true
  · rw [if_pos hfound, if_pos hfound, memwrite_nul _ _ _ rfl (by omega)]
  · rw [if_neg hfound, if_neg hfound]

theorem read_request_loop_strict_stop (pre : List Char) (script : List RecvResult)
    (hlt : pre.length < BUFFER_LEN)
    (hs : script = [] ∨ ∃ rest, script = RecvResult.error :: rest ∨
      script = RecvResult.data [] :: rest) :
    read_request_loop_strict script (pre ++ List.replicate (BUFFER_LEN + 1 - pre.length) NUL)
        pre.length (BUFFER_LEN - pre.length) =
      (ERROR, pre ++ List.replicate (BUFFER_LEN + 1 - pre.length) NUL) := by
  rcases hs with rfl | ⟨rest, rfl | rfl⟩
  · unfold read_request_loop_strict
    simp only [hlt, if_true]
  · unfold read_request_loop_strict
    simp only [hlt, if_true]
  · unfold read_request_loop_strict
    simp only [hlt, if_true, List.take_nil, List.length_nil]

/-- A script of `recv` results is empty, or starts with a failure, with a
zero-byte read, or with a read that delivers bytes. -/
theorem recv_script_cases (script : List RecvResult) :
    (script = [] ∨ ∃ rest, script = RecvResult.error :: rest ∨
      script = RecvResult.data [] :: rest) ∨
    ∃ bytes rest, bytes ≠ [] ∧ script = RecvResult.data bytes :: rest := by
  cases script with
  | nil => exact Or.inl (Or.inl rfl)
  | cons r rest =>
    cases r with
    | error => exact Or.inl (Or.inr ⟨rest, Or.inl rfl⟩)
    | data bytes =>
      cases bytes with
      | nil => exact Or.inl (Or.inr ⟨rest, Or.inr rfl⟩)
      | cons b bs => exact Or.inr ⟨b :: bs, rest, by simp, rfl⟩

/-- From a state in which the C string in the buffer holds no terminator, the
loop of `read_request` and the loop without the branch agree. -/
theorem read_request_loop_eq_strict :
    ∀ (script : List RecvResult) (pre : List Char), pre.length < BUFFER_LEN →
      ¬ END_OF_REQUEST <:+: cstr pre →
      read_request_loop script (pre ++ List.replicate (BUFFER_LEN + 1 - pre.length) NUL)
          pre.length (BUFFER_LEN - pre.length) =
        read_request_loop_strict script
          (pre ++ List.replicate (BUFFER_LEN + 1 - pre.length) NUL) pre.length
          (BUFFER_LEN - pre.length) := by
  intro script
  induction script with
  | nil =>
    intro pre hlt hterm
    rw [read_request_loop_stop pre [] hlt hterm (Or.inl rfl),
      read_request_loop_strict_stop pre [] hlt (Or.inl rfl)]
  | cons r rest ih =>
    intro pre hlt hterm
    rcases recv_script_cases (r :: rest) with hs | ⟨bytes, rest2, hb, hs⟩
    · rw [read_request_loop_stop pre _ hlt hterm hs, read_request_loop_strict_stop pre _ hlt hs]
    · simp only [List.cons.injEq] at hs
      obtain ⟨rfl, rfl⟩ := hs
      rw [read_request_loop_data pre bytes rest hlt hb,
        read_request_loop_strict_data pre bytes rest hlt hb]
      by_cases hfound : (strstr (cstr (pre ++ bytes.take (BUFFER_LEN - pre.length)))
          END_OF_REQUEST).isSome = true
      · rw [if_pos hfound, if_pos hfound]
      · rw [if_neg hfound, if_neg hfound]
        by_cases hfull : (pre ++ bytes.take (BUFFER_LEN - pre.length)).length = BUFFER_LEN
        · rw [if_pos hfull, if_pos hfull]
        · rw [if_neg hfull, if_neg hfull]
          have hle : (pre ++ bytes.take (BUFFER_LEN - pre.length)).length ≤ BUFFER_LEN := by
            rw [List.length_append, List.length_take]; omega
          exact ih _ (by omega) ((strstr_isSome_false_iff _ _).mp hfound)

/-- What has been received after a round is an initial part of the first
`BUFFER_LEN` bytes of what the client sends. -/
theorem received_prefix (pre c tail : List Char) (hlt : pre.length < BUFFER_LEN) :
    pre ++ c.take (BUFFER_LEN - pre.length) <+: (pre ++ (c ++ tail)).take BUFFER_LEN := by
  rw [List.take_append_eq_append_take, List.take_of_length_le (le_of_lt hlt),
    List.take_append_eq_append_take]
  exact (List.prefix_append_right_inj pre).mpr (List.prefix_append _ _)

/-- Reads that deliver bytes, the C string in the buffer never holding the
terminator, followed by a failed read, a zero-byte read or the end of the
script: `ERROR`. -/
theorem read_request_loop_stops :
    ∀ (chunks : List (List Char)) (tl : List RecvResult) (pre : List Char),
      (∀ c ∈ chunks, c ≠ []) → pre.length < BUFFER_LEN →
      ¬ END_OF_REQUEST <:+: cstr ((pre ++ chunks.flatten).take BUFFER_LEN) →
      (tl = [] ∨ ∃ rest, tl = RecvResult.error :: rest ∨ tl = RecvResult.data [] :: rest) →
      (read_request_loop (chunks.map RecvResult.data ++ tl)
          (pre ++ List.replicate (BUFFER_LEN + 1 - pre.length) NUL) pre.length
          (BUFFER_LEN - pre.length)).1 = ERROR := by
  intro chunks
  induction chunks with
  | nil =>
    intro tl pre _ hlt hterm htl
    rw [List.flatten_nil, List.append_nil, List.take_of_length_le (le_of_lt hlt)] at hterm
    rw [List.map_nil, List.nil_append, read_request_loop_stop pre tl hlt hterm htl]
  | cons c cs ih =>
    intro tl pre hne hlt hterm htl
    have hc : c ≠ [] := hne c (List.mem_cons_self _ _)
    have hnot : ¬ END_OF_REQUEST <:+: cstr (pre ++ c.take (BUFFER_LEN - pre.length)) := by
      intro hin
      obtain ⟨t, ht⟩ := received_prefix pre c cs.flatten hlt
      apply hterm
      rw [List.flatten_cons, ← ht]
      exact hin.trans (cstr_prefix_mono _ _).isInfix
    rw [List.map_cons, List.cons_append, read_request_loop_data pre c _ hlt hc,
      if_neg ((strstr_isSome_false_iff _ _).mpr hnot)]
    by_cases hfull : (pre ++ c.take (BUFFER_LEN - pre.length)).length = BUFFER_LEN
    · rw [if_pos hfull]
    · rw [if_neg hfull]
      have hlen : (pre ++ c.take (BUFFER_LEN - pre.length)).length =
          pre.length + min (BUFFER_LEN - pre.length) c.length := by
        rw [List.length_append, List.length_take]
      have htake : c.take (BUFFER_LEN - pre.length) = c :=
        List.take_of_length_le (by omega)
      rw [htake] at hfull hlen ⊢
      have hassoc : pre ++ (c :: cs).flatten = (pre ++ c) ++ cs.flatten := by simp
      rw [hassoc] at hterm
      exact ih tl (pre ++ c) (fun d hd => hne d (List.mem_cons_of_mem _ hd)) (by omega) hterm htl

/-- Reads that deliver bytes, the last of them the first after which the C
string in the buffer holds the terminator: `SUCCESS`, with the bytes received
(at most `BUFFER_LEN` of them) in the buffer, whatever the script holds
further. -/
theorem read_request_loop_first :
    ∀ (before : List (List Char)) (last : List Char) (rest : List RecvResult) (pre : List Char),
      (∀ c ∈ before, c ≠ []) → last ≠ [] → (pre ++ before.flatten).length < BUFFER_LEN →
      ¬ END_OF_REQUEST <:+: cstr (pre ++ before.flatten) →
      END_OF_REQUEST <:+: cstr ((pre ++ before.flatten ++ last).take BUFFER_LEN) →
      read_request_loop ((before ++ [last]).map RecvResult.data ++ rest)
          (pre ++ List.replicate (BUFFER_LEN + 1 - pre.length) NUL) pre.length
          (BUFFER_LEN - pre.length) =
        (SUCCESS, (pre ++ before.flatten ++ last).take BUFFER_LEN ++ List.replicate
          (BUFFER_LEN + 1 - ((pre ++ before.flatten ++ last).take BUFFER_LEN).length) NUL) := by
  intro before
  induction before with
  | nil =>
    intro last rest pre _ hlast hlen _ hterm
    simp only [List.flatten_nil, List.append_nil] at hlen hterm ⊢
    have htake : (pre ++ last).take BUFFER_LEN = pre ++ last.take (BUFFER_LEN - pre.length) := by
      rw [List.take_append_eq_append_take, List.take_of_length_le (le_of_lt hlen)]
    rw [htake] at hterm ⊢
    rw [List.nil_append, List.map_cons, List.map_nil, List.cons_append, List.nil_append,
      read_request_loop_data pre last rest hlen hlast,
      if_pos ((strstr_isSome_iff _ _).mpr hterm)]
  | cons c cs ih =>
    intro last rest pre hne hlast hlen hnot hterm
    have hc : c ≠ [] := hne c (List.mem_cons_self _ _)
    have hlen2 : pre.length + c.length + cs.flatten.length < BUFFER_LEN := by
      simpa [Nat.add_assoc] using hlen
    have hlt : pre.length < BUFFER_LEN := by omega
    have htake : c.take (BUFFER_LEN - pre.length) = c := List.take_of_length_le (by omega)
    have hassoc : pre ++ (c :: cs).flatten = (pre ++ c) ++ cs.flatten := by simp
    rw [hassoc] at hnot hterm ⊢
    have hnot1 : ¬ END_OF_REQUEST <:+: cstr (pre ++ c) :=
      fun hin => hnot (hin.trans (cstr_prefix_mono _ _).isInfix)
    rw [List.cons_append, List.map_cons, List.cons_append,
      read_request_loop_data pre c _ hlt hc, htake,
      if_neg ((strstr_isSome_false_iff _ _).mpr hnot1),
      if_neg (by rw [List.length_append]; omega)]
    exact ih last rest (pre ++ c) (fun d hd => hne d (List.mem_cons_of_mem _ hd)) hlast
      (by rw [List.length_append, List.length_append]; omega) hnot hterm

/-! ### The tokens `strtok` returns -/

/-- A token that `strtok` returns is not empty, holds no delimiter, and is
made of characters of the text, as is the text left behind it. -/
theorem strtok_some (s delim tok rest : List Char) (h : strtok s delim = some (tok, rest)) :
    tok ≠ [] ∧ (∀ c ∈ tok, c ∉ delim) ∧ (∀ c ∈ tok, c ∈ s) ∧ (∀ c ∈ rest, c ∈ s) := by
  unfold strtok at h
  simp only at h
  split at h
  · cases h
  · rename_i hne
    simp only [Option.some.injEq, Prod.mk.injEq] at h
    obtain ⟨h1, h2⟩ := h
    have hne2 : s.dropWhile (fun c => delim.contains c) ≠ [] := by
      intro he
      rw [he] at hne
      exact hne rfl
    have hsub : ∀ c ∈ s.dropWhile (fun c => delim.contains c), c ∈ s :=
      fun c hc => (List.dropWhile_sublist _).subset hc
    refine ⟨?_, ?_, ?_, ?_⟩
    · rw [← h1]
      obtain ⟨x, xs, hx⟩ := List.exists_cons_of_ne_nil hne2
      have hhead := List.head_dropWhile_not (fun c => delim.contains c) s hne2
      simp only [hx, List.head_cons] at hhead
      have hx2 : x ∉ delim := by simpa using hhead
      rw [hx, List.takeWhile_cons]
      simp [hx2]
    · intro c hc
      rw [← h1] at hc
      have := List.mem_takeWhile_imp hc
      simpa using this
    · intro c hc
      rw [← h1] at hc
      exact hsub c ((List.takeWhile_sublist _).subset hc)
    · intro c hc
      rw [← h2] at hc
      exact hsub c ((List.dropWhile_sublist _).subset (List.mem_of_mem_drop hc))

/-- The four calls of `strtok` behind an accepted request. -/
theorem parse_request_ok_tokens (b : List Char) (h : (parse_request b).ok = true) :
    ∃ rl r0 r1 T r2 r3, strtok b END_OF_REQ_LINE = some (rl, r0) ∧
      strtok rl [' '] = some (GET_METHOD, r1) ∧ strtok r1 [' '] = some (T, r2) ∧
      strtok r2 [' '] = some (HTTP_VERSION, r3) ∧
      parse_request b = ⟨true, some rl, some GET_METHOD, some T, some HTTP_VERSION⟩ := by
  unfold parse_request at h ⊢
  cases h1 : strtok b END_OF_REQ_LINE with
  | none => rw [h1] at h; simp at h
  | some p1 =>
    obtain ⟨rl, r0⟩ := p1
    rw [h1] at h
    simp only at h ⊢
    cases h2 : strtok rl [' '] with
    | none => rw [h2] at h; simp at h
    | some p2 =>
      obtain ⟨m, r1⟩ := p2
      rw [h2] at h
      simp only at h ⊢
      by_cases hm : m = GET_METHOD
      · subst hm
        simp only [ne_eq, not_true_eq_false, if_false] at h ⊢
        cases h3 : strtok r1 [' '] with
        | none => rw [h3] at h; simp at h
        | some p3 =>
          obtain ⟨T, r2⟩ := p3
          rw [h3] at h
          simp only at h ⊢
          cases h4 : strtok r2 [' '] with
          | none => rw [h4] at h; simp at h
          | some p4 =>
            obtain ⟨pv, r3⟩ := p4
            rw [h4] at h
            simp only at h ⊢
            by_cases hv : pv = HTTP_VERSION
            · subst hv
              exact ⟨rl, r0, r1, T, r2, r3, rfl, h2, h3, h4, by simp⟩
            · simp [hv] at h
      · simp [hm] at h

/-- The only file `send_response` opens is the one at the path it is given. -/
theorem send_response_opens (sends : List Int) (open_file : List Char → Int)
    (sendfiles : List Int) (response : List Char) (file_status : Int) (path : List Char)
    (size : Nat) :
    ∀ p ∈ open_calls (send_response sends open_file sendfiles response file_status path size).2,
      p = path := by
  have hev := send_response_events sends open_file sendfiles response file_status path size
  generalize (send_response sends open_file sendfiles response file_status path size).2 = l
    at hev
  induction l with
  | nil => intro p hp; cases hp
  | cons e l ih =>
    have ih2 := ih (fun x hx => hev x (List.mem_cons_of_mem _ hx))
    rcases hev e (List.mem_cons_self _ _) with ⟨d, n, rfl⟩ | rfl | ⟨o, c, n, rfl⟩ | rfl
    · exact ih2
    · intro p hp
      rcases List.mem_cons.mp hp with hp | hp
      · exact hp
      · exact ih2 p hp
    · exact ih2
    · exact ih2

/-- The nodes of a chain are at addresses that are not NULL. -/
theorem chain_ne_null (node : Nat → Option queue_node_t) :
    ∀ (cells : List (Nat × Nat)) (p : Nat), chain node p cells → ∀ c ∈ cells, c.1 ≠ NULL := by
  intro cells
  induction cells with
  | nil => intro p _ c hc; cases hc
  | cons c0 rest ih =>
    intro p h c hc
    obtain ⟨-, h2, nx, -, h4⟩ := h
    rcases List.mem_cons.mp hc with hc | hc
    · rw [hc]; exact h2
    · exact ih nx h4 c hc

/-- `queue_dequeue_free` on an empty queue changes nothing. -/
theorem queue_dequeue_free_empty (h : Heap) (queue : Nat) (free_data : Bool)
    (hq : queue_holds h queue []) : queue_dequeue_free h queue free_data = h := by
  obtain ⟨hnull, q, hqq, hchain, -⟩ := hq
  have hhead : q.head = NULL := hchain
  unfold queue_dequeue_free
  rw [if_neg hnull, hqq]
  simp only
  rw [if_pos hhead]

/-- Every call of the library keeps a well-formed queue well formed. -/
theorem run_queue_calls_holds (queue : Nat) :
    ∀ (calls : List QueueCall) (h : Heap) (cells : List (Nat × Nat)), queue_holds h queue cells →
      ∃ cells2, queue_holds (run_queue_calls calls h queue) queue cells2 := by
  intro calls
  induction calls with
  | nil => intro h cells hq; exact ⟨cells, hq⟩
  | cons call calls ih =>
    intro h cells hq
    cases call with
    | enqueue data => exact ih _ _ (queue_enqueue_holds h queue data cells hq).1
    | dequeue =>
      cases cells with
      | nil =>
        rw [run_queue_calls, queue_dequeue_empty h queue hq]
        exact ih h [] hq
      | cons c rest => exact ih _ rest (queue_dequeue_holds h queue c rest hq).2.1
    | dequeue_free free_data =>
      cases cells with
      | nil =>
        rw [run_queue_calls, queue_dequeue_free_empty h queue free_data hq]
        exact ih h [] hq
      | cons c rest => exact ih _ rest (queue_dequeue_free_holds h queue free_data c rest hq).1
    | peek => exact ih h cells hq

/-- What a well-formed queue looks like in memory. -/
theorem queue_holds_shape (h : Heap) (queue : Nat) (cells : List (Nat × Nat))
    (hq : queue_holds h queue cells) :
    ∃ q, h.queue queue = some q ∧ (q.head = NULL ↔ q.tail = NULL) ∧
      chain h.node q.head cells ∧
      (q.head ≠ NULL →
        ∃ last, cells.getLast? = some last ∧ q.tail = last.1 ∧
          h.node q.tail = some ⟨last.2, NULL⟩) := by
  obtain ⟨hnull, q, hqq, hchain, htail, -, -⟩ := hq
  refine ⟨q, hqq, ?_, hchain, ?_⟩
  · rw [chain_head_null _ _ _ hchain]
    cases hl : cells.getLast? with
    | none =>
      rw [List.getLast?_eq_none_iff] at hl
      rw [htail, hl]
      exact ⟨fun _ => rfl, fun _ => rfl⟩
    | some last =>
      have hmem := List.mem_of_getLast?_eq_some hl
      have hne := chain_ne_null _ _ _ hchain last hmem
      rw [htail, hl]
      constructor
      · rintro rfl
        cases hmem
      · intro h0
        exact absurd h0 hne
  · intro hhead
    have hne : cells ≠ [] := fun hc => hhead ((chain_head_null _ _ _ hchain).mpr hc)
    cases hl : cells.getLast? with
    | none => rw [List.getLast?_eq_none_iff] at hl; exact absurd hl hne
    | some last =>
      have hlast := chain_last h.node cells q.head last hl hchain
      refine ⟨last, rfl, by rw [htail, hl]; rfl, ?_⟩
      rw [htail, hl]
      exact hlast

/-- A store inside an array leaves its length as it is. -/
theorem memwrite_length (buf data : List Char) (off : Nat) (h : off + data.length ≤ buf.length) :
    (memwrite buf off data).length = buf.length := by
  unfold memwrite
  simp only [List.length_append, List.length_take, List.length_drop]
  omega

/-- A store of at least one byte that leaves the length of the array as it
is lies inside the array. -/
theorem memwrite_inside (buf data : List Char) (off : Nat) (hd : data ≠ [])
    (h : (memwrite buf off data).length = buf.length) : off + data.length ≤ buf.length := by
  have hpos : 0 < data.length := List.length_pos.mpr hd
  unfold memwrite at h
  simp only [List.length_append, List.length_take, List.length_drop] at h
  omega

/-- From a state with `total_recv + bytes_left = BUFFER_LEN`, the loop of
`read_request` leaves the buffer with the length it had. -/
theorem read_request_loop_length :
    ∀ (script : List RecvResult) (buffer : List Char) (total left : Nat),
      total + left = BUFFER_LEN → buffer.length = BUFFER_LEN + 1 →
      (read_request_loop script buffer total left).2.length = BUFFER_LEN + 1 := by
  intro script
  induction script with
  | nil =>
    intro buffer total left hsum hlen
    have hnul : (memwrite buffer total [NUL]).length = BUFFER_LEN + 1 := by
      rw [memwrite_length _ _ _ (by simp; omega)]; exact hlen
    unfold read_request_loop
    by_cases hlt : total < BUFFER_LEN
    · simp only [hlt, if_true]
      by_cases hf : (strstr (cstr buffer) END_OF_REQUEST).isSome = true
      · rw [if_pos hf]; exact hnul
      · rw [if_neg hf]; exact hlen
    · rw [if_neg hlt]; exact hnul
  | cons r rest ih =>
    intro buffer total left hsum hlen
    have hnul : (memwrite buffer total [NUL]).length = BUFFER_LEN + 1 := by
      rw [memwrite_length _ _ _ (by simp; omega)]; exact hlen
    unfold read_request_loop
    by_cases hlt : total < BUFFER_LEN
    · simp only [hlt, if_true]
      cases r with
      | error => exact hlen
      | data bytes =>
        have hgot : (bytes.take left).length ≤ left := by
          rw [List.length_take]; omega
        have hw : (memwrite buffer total (bytes.take left)).length = BUFFER_LEN + 1 := by
          rw [memwrite_length _ _ _ (by omega)]; exact hlen
        simp only
        by_cases hn : (bytes.take left).length = 0
        · rw [if_pos hn]
          by_cases hf : (strstr (cstr buffer) END_OF_REQUEST).isSome = true
          · rw [if_pos hf]; exact hnul
          · rw [if_neg hf]; exact hlen
        · rw [if_neg hn]
          by_cases hf : (strstr (cstr (memwrite buffer total (bytes.take left)))
              END_OF_REQUEST).isSome = true
          · rw [if_pos hf, memwrite_length _ _ _ (by simp; omega)]; exact hw
          · rw [if_neg hf]
            by_cases hfull : total + (bytes.take left).length = BUFFER_LEN
            · rw [if_pos hfull]; exact hw
            · rw [if_neg hfull]
              exact ih _ _ _ (by omega) hw
    · rw [if_neg hlt]; exact hnul

/-- C1: for every document root and every request that `parse_request` accepts
with target `T`, if `"/" ++ T ++ "/"` contains `"/../"` then `handle_client`
hands `send` exactly the header block
`"HTTP/1.0 404 Not Found\r\nContent-Length: 0\r\n\r\n"`; what reaches the
client is an initial part of that block and all of it when no `send` call
fails; and, whatever the file system holds, `stat` is never called, no file is
opened and no body is transferred. -/
theorem traversal_gets_bare_not_found (args : Arg) (env : Env) (T : List Char)
    (hread : (read_request env.recvs initial_buffer).1 = SUCCESS)
    (hok : (parse_request (cstr (read_request env.recvs initial_buffer).2)).ok = true)
    (hT : (parse_request (cstr (read_request env.recvs initial_buffer).2)).file_path = some T)
    (htrav : "/../".toList <:+: "/".toList ++ T ++ "/".toList) :
    first_send (handle_client (some args) env)
      = some "HTTP/1.0 404 Not Found\r\nContent-Length: 0\r\n\r\n".toList ∧
    wire (handle_client (some args) env)
      <+: "HTTP/1.0 404 Not Found\r\nContent-Length: 0\r\n\r\n".toList ∧
    (sends_succeed (handle_client (some args) env) = true →
      wire (handle_client (some args) env)
        = "HTTP/1.0 404 Not Found\r\nContent-Length: 0\r\n\r\n".toList) ∧
    stat_calls (handle_client (some args) env) = [] ∧
    open_calls (handle_client (some args) env) = [] ∧
    sendfile_calls (handle_client (some args) env) = [] := by
  have hp : path_component_exists T = true := by
    unfold path_component_exists
    exact (strstr_isSome_iff _ _).mpr htrav
  have hshape := handle_client_accepted args env T hread hok hT ⟨0, [], 0⟩ (by rw [if_pos hp])
  have hresp : create_response_headers (0 : Int) (if (0 : Int) ≠ 0 then STATUS_OK else STATUS_NF)
      (if (0 : Int) ≠ 0 then STATUS_OK_M else STATUS_NF_M) [] 0
      = "HTTP/1.0 404 Not Found\r\nContent-Length: 0\r\n\r\n".toList := by decide
  simp only [hp, if_true, hresp] at hshape
  have hne : "HTTP/1.0 404 Not Found\r\nContent-Length: 0\r\n\r\n".toList ≠ [] := by decide
  generalize "HTTP/1.0 404 Not Found\r\nContent-Length: 0\r\n\r\n".toList = R at hshape hne ⊢
  obtain ⟨s1, s2, _, s4, s5, s6, _⟩ := send_response_spec env.sends env.open_file env.sendfiles
    R 0 (file_path_full args.root_path T) 0 hne
  obtain ⟨q1, q2, q3, q4, q5, _⟩ := release_trace_quiet args.clientfd
    [Ptr.file_path_full, Ptr.response]
  rw [hshape]
  refine ⟨?_, ?_, ?_, ?_, ?_, ?_⟩
  · simp [first_send_append, first_send, s1]
  · simpa [wire, q1] using s2
  · intro hall
    simp only [sends_succeed_append, Bool.and_eq_true] at hall
    have := (s4 hall.1.2).1
    simpa [wire, q1] using this
  · simp [stat_calls, s5, q3]
  · simp [open_calls, (s6 rfl).1, q4]
  · simp [sendfile_calls, (s6 rfl).2, q5]

/-- The request `GET /../etc/passwd HTTP/1.0`, C1 at a concrete connection. -/
theorem traversal_gets_bare_not_found_witness :
    wire (handle_client (some example_arg) example_env_traversal)
      = "HTTP/1.0 404 Not Found\r\nContent-Length: 0\r\n\r\n".toList ∧
    stat_calls (handle_client (some example_arg) example_env_traversal) = [] ∧
    open_calls (handle_client (some example_arg) example_env_traversal) = [] ∧
    sendfile_calls (handle_client (some example_arg) example_env_traversal) = [] := by
  have h := traversal_gets_bare_not_found example_arg example_env_traversal
    "/../etc/passwd".toList (by decide) (by decide) (by decide)
    ⟨"/".toList, "etc/passwd/".toList, by decide⟩
  exact ⟨h.2.2.1 (by decide), h.2.2.2⟩

/-- C2, the code at two requests that `read_request` reads in full. In the
first the request line, the text before the first CR LF, is
`GET /index.html HTTP/1.0` followed by a lone CR and `X`: its protocol token
is not `HTTP/1.0`. In the second, which begins with CR LF, the request line
is empty and has no method token. `handle_client` answers both with the
header block `200 OK`, and serves the file: `strtok` reads `END_OF_REQ_LINE`
as the set of the characters CR and LF, so that `parse_request` tokenizes
another line than the request line (the defect of C10). In terms of the
tokens that `parse_request` itself finds the claim holds: whenever
`read_request` succeeds and the method found is not `GET` or the protocol
found is not `HTTP/1.0`, a missing token included, the whole trace of
`handle_client` is: allocate the free queue, close the connection, free the
free queue, and no byte reaches the client. -/
theorem unsupported_protocol_token_served :
    (read_request example_env_lone_cr.recvs initial_buffer).1 = SUCCESS ∧
    cstr (read_request example_env_lone_cr.recvs initial_buffer).2 =
      "GET /index.html HTTP/1.0\rX\r\n\r\n".toList ∧
    space_tokens (text_before "GET /index.html HTTP/1.0\rX\r\n\r\n".toList END_OF_REQ_LINE) =
      [GET_METHOD, "/index.html".toList, "HTTP/1.0\rX".toList] ∧
    "HTTP/1.0\rX".toList ≠ HTTP_VERSION ∧
    wire (handle_client (some example_arg) example_env_lone_cr) =
      "HTTP/1.0 200 OK\r\nContent-Type: text/html\r\nContent-Length: 120\r\n\r\n".toList ∧
    sendfile_calls (handle_client (some example_arg) example_env_lone_cr) = [(0, 120), (120, 120)] ∧
    (read_request example_env_leading_crlf.recvs initial_buffer).1 = SUCCESS ∧
    cstr (read_request example_env_leading_crlf.recvs initial_buffer).2 =
      "\r\nGET /index.html HTTP/1.0\r\n\r\n".toList ∧
    space_tokens (text_before "\r\nGET /index.html HTTP/1.0\r\n\r\n".toList END_OF_REQ_LINE) = [] ∧
    wire (handle_client (some example_arg) example_env_leading_crlf) =
      "HTTP/1.0 200 OK\r\nContent-Type: text/html\r\nContent-Length: 120\r\n\r\n".toList ∧
    (∀ (args : Arg) (env : Env), (read_request env.recvs initial_buffer).1 = SUCCESS →
      ((parse_request (cstr (read_request env.recvs initial_buffer).2)).method
          ≠ some GET_METHOD ∨
        (parse_request (cstr (read_request env.recvs initial_buffer).2)).protocol_version
          ≠ some HTTP_VERSION) →
      handle_client (some args) env =
        [Event.alloc Ptr.free_queue, Event.close args.clientfd, Event.free Ptr.free_queue] ∧
      wire (handle_client (some args) env) = []) := by
  refine ⟨by decide, by decide, by decide, by decide, by decide, by decide, by decide, by decide,
    by decide, by decide, ?_⟩
  intro args env _ hbad
  have hrej := (parse_request_rejects_iff _).mpr hbad
  rw [handle_client_rejected args env hrej]
  exact ⟨rfl, rfl⟩

/-- C3: take a target whose final path segment is `stem ++ "." ++ e` with `e`
non-empty and free of dots, so that the text from the last dot on is
`"." ++ e`. If that text is none of `.html`, `.css`, `.js`, `.jpg` (compared
exactly), then `file_stats` returns `FILE_DOESNT_EXIST` whatever `stat`
reports, a regular file included, and the header block `handle_client` offers
to `send` for such a target starts with the status line
`HTTP/1.0 404 Not Found`. -/
theorem unsupported_extension_not_found (D stem e : List Char)
    (hD : D = [] ∨ ∃ D0, D = D0 ++ ['/'])
    (hF : '/' ∉ stem ++ '.' :: e) (hdot : '.' ∉ e) (hne : e ≠ [])
    (hext : '.' :: e ∉ [".html".toList, ".css".toList, ".js".toList, ".jpg".toList]) :
    (∀ (stat : List Char → Option Stat) (full ct : List Char) (fs : Nat),
      (file_stats stat full (D ++ (stem ++ '.' :: e)) ct fs).status = FILE_DOESNT_EXIST) ∧
    (∀ (args : Arg) (env : Env),
      (read_request env.recvs initial_buffer).1 = SUCCESS →
      (parse_request (cstr (read_request env.recvs initial_buffer).2)).ok = true →
      (parse_request (cstr (read_request env.recvs initial_buffer).2)).file_path
        = some (D ++ (stem ++ '.' :: e)) →
      ∃ rest, first_send (handle_client (some args) env)
        = some ("HTTP/1.0 404 Not Found\r\n".toList ++ rest)) := by
  have hstats : ∀ (stat : List Char → Option Stat) (full ct : List Char) (fs : Nat),
      (file_stats stat full (D ++ (stem ++ '.' :: e)) ct fs).status = FILE_DOESNT_EXIST := by
    intro stat full ct fs
    cases hs : stat full with
    | none => rw [file_stats_no_regular_file stat full _ ct fs (Or.inl hs)]
    | some sb =>
      obtain ⟨reg, S⟩ := sb
      cases reg with
      | false => rw [file_stats_no_regular_file stat full _ ct fs (Or.inr ⟨_, hs, rfl⟩)]
      | true =>
        rw [file_stats_final_segment stat full D _ ct fs hD hF (by simp),
          file_stats_regular_segment stat full _ ct fs S hF (by simp) hs,
          strrchr_append_cons stem e '.' hdot]
        have hlen : ¬ strlen ('.' :: e) ≤ 1 := by
          have : 0 < e.length := List.length_pos.mpr hne
          simp only [strlen, List.length_cons]; omega
        simp only [List.mem_cons, List.mem_singleton, List.not_mem_nil, or_false, not_or] at hext
        simp only [hlen, hext.1, hext.2.1, hext.2.2.1, hext.2.2.2, if_false]
  refine ⟨hstats, ?_⟩
  intro args env hread hok hT
  have h := handle_client_not_found args env _ hread hok hT _ rfl (by
    by_cases hp : path_component_exists (D ++ (stem ++ '.' :: e)) = true
    · rw [if_pos hp]
    · rw [if_neg hp]; exact hstats _ _ _ _)
  exact ⟨_, by rw [h.1]; rfl⟩

/-- The request `GET /missing.png HTTP/1.0` with a regular file at the
resolved path, C3 at a concrete connection. -/
theorem unsupported_extension_not_found_witness :
    (file_stats (fun _ => some ⟨true, 120⟩) "/srv/missing.png".toList "/missing.png".toList
      [] 0).status = FILE_DOESNT_EXIST ∧
    ∃ rest, first_send (handle_client (some example_arg) example_env_png)
      = some ("HTTP/1.0 404 Not Found\r\n".toList ++ rest) :=
  have h := unsupported_extension_not_found "/".toList "missing".toList "png".toList
    (Or.inr ⟨[], rfl⟩) (by decide) (by decide) (by decide) (by decide)
  ⟨h.1 _ _ _ _, h.2 example_arg example_env_png (by decide) (by decide) (by decide)⟩

/-- C4: for every target, `file_stats` returns `FILE_DOESNT_EXIST` whenever
`stat` on the resolved path fails or reports something that is not a regular
file, whatever the extension; and for an accepted request whose resolved path
is in that case, the header block `handle_client` offers to `send` is the 404
status line followed by the `Content-Length` line and the blank line, without a
`Content-Type` line, and no file is opened and no `sendfile` call is made. -/
theorem missing_or_irregular_not_found :
    (∀ (stat : List Char → Option Stat) (full T ct : List Char) (fs : Nat),
      (stat full = none ∨ ∃ sb, stat full = some sb ∧ sb.is_reg = false) →
      (file_stats stat full T ct fs).status = FILE_DOESNT_EXIST) ∧
    (∀ (args : Arg) (env : Env) (T : List Char),
      (read_request env.recvs initial_buffer).1 = SUCCESS →
      (parse_request (cstr (read_request env.recvs initial_buffer).2)).ok = true →
      (parse_request (cstr (read_request env.recvs initial_buffer).2)).file_path = some T →
      (env.stat (file_path_full args.root_path T) = none ∨
        ∃ sb, env.stat (file_path_full args.root_path T) = some sb ∧ sb.is_reg = false) →
      (∃ n, first_send (handle_client (some args) env) = some
        ("HTTP/1.0 404 Not Found\r\n".toList ++ "Content-Length: ".toList ++ fmt_zu n ++
          "\r\n\r\n".toList)) ∧
      open_calls (handle_client (some args) env) = [] ∧
      sendfile_calls (handle_client (some args) env) = []) := by
  have hstats : ∀ (stat : List Char → Option Stat) (full T ct : List Char) (fs : Nat),
      (stat full = none ∨ ∃ sb, stat full = some sb ∧ sb.is_reg = false) →
      (file_stats stat full T ct fs).status = FILE_DOESNT_EXIST := by
    intro stat full T ct fs h
    rw [file_stats_no_regular_file stat full T ct fs h]
  refine ⟨hstats, ?_⟩
  intro args env T hread hok hT hstat
  have h := handle_client_not_found args env T hread hok hT _ rfl (by
    by_cases hp : path_component_exists T = true
    · rw [if_pos hp]
    · rw [if_neg hp]; exact hstats _ _ _ _ _ hstat)
  exact ⟨⟨_, by rw [h.1]; rfl⟩, h.2.2.2.1, h.2.2.2.2⟩

/-- The request `GET /docs HTTP/1.0` for a directory, C4 at a concrete connection. -/
theorem missing_or_irregular_not_found_witness :
    (file_stats (fun _ => none) "/srv/index.html".toList "/index.html".toList [] 0).status
      = FILE_DOESNT_EXIST ∧
    open_calls (handle_client (some example_arg) example_env_directory) = [] ∧
    sendfile_calls (handle_client (some example_arg) example_env_directory) = [] :=
  ⟨missing_or_irregular_not_found.1 _ _ _ _ _ (Or.inl rfl),
    (missing_or_irregular_not_found.2 example_arg example_env_directory "/docs".toList
      (by decide) (by decide) (by decide) (Or.inr ⟨⟨false, 4096⟩, rfl, rfl⟩)).2⟩

/-- C5: let the target be `D ++ F` with final path segment `F` non-empty (`D`
is empty or ends in a slash, `F` has no slash), and let `stat` report a regular
file of size `S`. Then `file_stats` returns `FILE_EXISTS`, sets the size to `S`
and sets the content type from the text that starts at the last dot of `F`:
`.html` gives `text/html`, `.css` gives `text/css`, `.js` gives
`text/javascript`, `.jpg` gives `image/jpeg`; when `F` has no dot or ends with a
dot the type is `application/octet-stream`. The match is exact: with any other
text after the last dot the result is not `FILE_EXISTS`. -/
theorem content_type_table (stat : List Char → Option Stat) (full D F ct : List Char)
    (fs S : Nat) (hD : D = [] ∨ ∃ D0, D = D0 ++ ['/']) (hF : '/' ∉ F) (hne : F ≠ [])
    (hstat : stat full = some ⟨true, S⟩) :
    (∀ stem, F = stem ++ ".html".toList →
      file_stats stat full (D ++ F) ct fs = ⟨FILE_EXISTS, "text/html".toList, S⟩) ∧
    (∀ stem, F = stem ++ ".css".toList →
      file_stats stat full (D ++ F) ct fs = ⟨FILE_EXISTS, "text/css".toList, S⟩) ∧
    (∀ stem, F = stem ++ ".js".toList →
      file_stats stat full (D ++ F) ct fs = ⟨FILE_EXISTS, "text/javascript".toList, S⟩) ∧
    (∀ stem, F = stem ++ ".jpg".toList →
      file_stats stat full (D ++ F) ct fs = ⟨FILE_EXISTS, "image/jpeg".toList, S⟩) ∧
    (('.' ∉ F ∨ ∃ stem, F = stem ++ ['.']) →
      file_stats stat full (D ++ F) ct fs
        = ⟨FILE_EXISTS, "application/octet-stream".toList, S⟩) ∧
    (∀ stem e, F = stem ++ '.' :: e → '.' ∉ e → e ≠ [] →
      ((file_stats stat full (D ++ F) ct fs).status = FILE_EXISTS ↔
        '.' :: e ∈ [".html".toList, ".css".toList, ".js".toList, ".jpg".toList])) := by
  have hred : file_stats stat full (D ++ F) ct fs = _ :=
    (file_stats_final_segment stat full D F ct fs hD hF hne).trans
      (file_stats_regular_segment stat full F ct fs S hF hne hstat)
  rw [hred]
  refine ⟨?_, ?_, ?_, ?_, ?_, ?_⟩
  · rintro stem rfl
    rw [show ".html".toList = '.' :: "html".toList from rfl,
      strrchr_append_cons stem _ '.' (by decide)]
    rfl
  · rintro stem rfl
    rw [show ".css".toList = '.' :: "css".toList from rfl,
      strrchr_append_cons stem _ '.' (by decide)]
    rfl
  · rintro stem rfl
    rw [show ".js".toList = '.' :: "js".toList from rfl,
      strrchr_append_cons stem _ '.' (by decide)]
    rfl
  · rintro stem rfl
    rw [show ".jpg".toList = '.' :: "jpg".toList from rfl,
      strrchr_append_cons stem _ '.' (by decide)]
    rfl
  · rintro (hnd | ⟨stem, rfl⟩)
    · rw [(strrchr_eq_none_iff F '.').mpr hnd]
    · rw [strrchr_append_cons stem [] '.' (by simp)]
      rfl
  · rintro stem e rfl hdot hne
    rw [strrchr_append_cons stem e '.' hdot]
    have hlen : ¬ strlen ('.' :: e) ≤ 1 := by
      have : 0 < e.length := List.length_pos.mpr hne
      simp only [strlen, List.length_cons]; omega
    simp only [hlen, if_false, List.mem_cons, List.mem_singleton, List.not_mem_nil, or_false]
    by_cases h1 : '.' :: e = ".html".toList
    · simp only [h1, if_true, true_or]
    · by_cases h2 : '.' :: e = ".css".toList
      · simp only [h2, if_true, true_or, or_true, iff_true]; rfl
      · by_cases h3 : '.' :: e = ".js".toList
        · simp only [h3, if_true, true_or, or_true, iff_true]; rfl
        · by_cases h4 : '.' :: e = ".jpg".toList
          · simp only [h4, if_true, true_or, or_true, iff_true]; rfl
          · simp only [h1, h2, h3, h4, if_false, or_self, iff_false]
            decide

/-- The target `/index.html` with a regular file of 120 bytes, C5 at a concrete input. -/
theorem content_type_table_witness :
    file_stats (fun _ => some ⟨true, 120⟩) "/srv/index.html".toList "/index.html".toList [] 0
      = ⟨FILE_EXISTS, "text/html".toList, 120⟩ :=
  (content_type_table (fun _ => some ⟨true, 120⟩) "/srv/index.html".toList "/".toList
    "index.html".toList [] 0 120 (Or.inr ⟨[], rfl⟩) (by decide) (by decide) rfl).1
    "index".toList rfl

/-- C7: for every status code `C`, status message `M`, content type `T` and
size `N`, `create_response_headers` returns exactly the status line
`HTTP/1.0 C M`, the `Content-Type` line and the `Content-Length` line with the
decimal numeral of `N` followed by the blank line when `file_status` is not
zero, and the same text without the `Content-Type` line when it is zero; and
every run of `handle_client` either sends nothing or sends the block built
with (`200`, `OK`) and file status 1, or with (`404`, `Not Found`) and file
status 0. -/
theorem response_header_format :
    (∀ (file_status : Int) (C M T : List Char) (N : Nat), file_status ≠ 0 →
      create_response_headers file_status C M T N =
        "HTTP/1.0 ".toList ++ C ++ " ".toList ++ M ++ "\r\n".toList ++
        "Content-Type: ".toList ++ T ++ "\r\n".toList ++
        "Content-Length: ".toList ++ (Nat.repr N).toList ++ "\r\n\r\n".toList) ∧
    (∀ (C M T : List Char) (N : Nat),
      create_response_headers 0 C M T N =
        "HTTP/1.0 ".toList ++ C ++ " ".toList ++ M ++ "\r\n".toList ++
        "Content-Length: ".toList ++ (Nat.repr N).toList ++ "\r\n\r\n".toList) ∧
    (∀ (args : Arg) (env : Env),
      handle_client (some args) env = [Event.alloc Ptr.free_queue, Event.close args.clientfd, Event.free Ptr.free_queue] ∨
      ∃ (ct path : List Char) (N : Nat) (file_status : Int) (C M : List Char)
          (before : List Event),
        ((file_status = 1 ∧ C = STATUS_OK ∧ M = STATUS_OK_M) ∨
         (file_status = 0 ∧ C = STATUS_NF ∧ M = STATUS_NF_M)) ∧
        wire before = [] ∧
        handle_client (some args) env =
          before ++
          (send_response env.sends env.open_file env.sendfiles
            (create_response_headers file_status C M ct N) file_status path N).2 ++
          [Event.close args.clientfd, Event.free Ptr.file_path_full, Event.free Ptr.response,
            Event.free Ptr.free_queue] ∧
        first_send (handle_client (some args) env)
          = some (create_response_headers file_status C M ct N)) := by
  refine ⟨?_, ?_, ?_⟩
  · intro file_status C M T N h
    rw [← fmt_zu_eq_repr]
    unfold create_response_headers
    simp only [if_pos h]
    simp [HTTP_VERSION, CR, LF]
  · intro C M T N
    rw [← fmt_zu_eq_repr]
    unfold create_response_headers
    simp [HTTP_VERSION, CR, LF]
  · intro args env
    rcases handle_client_cases args env with h | ⟨T, ct, N, fs, C, M, -, hcm, htrace⟩
    · exact Or.inl h
    · right
      refine ⟨ct, file_path_full args.root_path T, N, fs, C, M, _, hcm, ?_, htrace, ?_⟩
      · by_cases hp : path_component_exists T = true <;> simp [hp, wire]
      · have hne : create_response_headers fs C M ct N ≠ [] :=
          create_response_headers_ne_nil _ _ _ _ _
        have hs := (send_response_spec env.sends env.open_file env.sendfiles _ fs
          (file_path_full args.root_path T) N hne).1
        rw [htrace]
        by_cases hp : path_component_exists T = true <;>
          simp [hp, first_send_append, first_send, hs]

/-- The two blocks for a page of 120 bytes and for a missing file, and the
block sent to the client that asks for `/index.html`: C7 at concrete values. -/
theorem response_header_format_witness :
    create_response_headers 1 STATUS_OK STATUS_OK_M "text/html".toList 120 =
      "HTTP/1.0 200 OK\r\nContent-Type: text/html\r\nContent-Length: 120\r\n\r\n".toList ∧
    create_response_headers 0 STATUS_NF STATUS_NF_M [] 0 =
      "HTTP/1.0 404 Not Found\r\nContent-Length: 0\r\n\r\n".toList ∧
    first_send (handle_client (some example_arg) example_env_index) =
      some "HTTP/1.0 200 OK\r\nContent-Type: text/html\r\nContent-Length: 120\r\n\r\n".toList :=
  ⟨response_header_format.1 1 STATUS_OK STATUS_OK_M "text/html".toList 120 (by decide),
   response_header_format.2.1 STATUS_NF STATUS_NF_M [] 0, by
    rcases response_header_format.2.2 example_arg example_env_index with h | h
    · exact absurd h (by decide)
    · decide⟩

/-- C8, as amended: end to end. Let the client send the bytes
`GET T HTTP/1.0` followed by the blank line, in any number of non-empty
pieces, the request fitting the buffer of 2048 bytes, where the target `T` is
one token (no space, CR, LF or NUL in it), has no traversal segment, and has a
final segment `stem ++ ".html"`. If `stat` of the resolved path reports a
regular file of size `S`, then `handle_client` calls `stat` on the resolved
path only, offers to `send` the block `HTTP/1.0 200 OK`,
`Content-Type: text/html`, `Content-Length: S` and the blank line; what
reaches the client is a prefix of that block, and when no `send` fails it is
the whole block, after which the file at the resolved path is opened and,
once open, `sendfile` is first asked for `S` bytes from offset 0. -/
theorem html_page_served (args : Arg) (env : Env) (T D stem : List Char) (S : Nat)
    (chunks : List (List Char)) (rest : List RecvResult)
    (hrecv : env.recvs = chunks.map RecvResult.data ++ rest)
    (hchunks : ∀ c ∈ chunks, c ≠ [])
    (hreq : chunks.flatten = "GET ".toList ++ T ++ " HTTP/1.0\r\n\r\n".toList)
    (hlen : chunks.flatten.length ≤ BUFFER_LEN)
    (hchars : ∀ c ∈ T, c ≠ ' ' ∧ c ≠ CR ∧ c ≠ LF ∧ c ≠ NUL)
    (hT : T = D ++ (stem ++ ".html".toList))
    (hD : D = [] ∨ ∃ D0, D = D0 ++ ['/']) (hstem : '/' ∉ stem)
    (htrav : ¬ "/../".toList <:+: "/".toList ++ T ++ "/".toList)
    (hstat : env.stat (file_path_full args.root_path T) = some ⟨true, S⟩) :
    stat_calls (handle_client (some args) env) = [file_path_full args.root_path T] ∧
    first_send (handle_client (some args) env) =
      some ("HTTP/1.0 200 OK\r\nContent-Type: text/html\r\nContent-Length: ".toList ++
        (Nat.repr S).toList ++ "\r\n\r\n".toList) ∧
    wire (handle_client (some args) env) <+:
      "HTTP/1.0 200 OK\r\nContent-Type: text/html\r\nContent-Length: ".toList ++
        (Nat.repr S).toList ++ "\r\n\r\n".toList ∧
    (sends_succeed (handle_client (some args) env) = true →
      wire (handle_client (some args) env) =
        "HTTP/1.0 200 OK\r\nContent-Type: text/html\r\nContent-Length: ".toList ++
          (Nat.repr S).toList ++ "\r\n\r\n".toList ∧
      open_calls (handle_client (some args) env) = [file_path_full args.root_path T] ∧
      (0 ≤ env.open_file (file_path_full args.root_path T) →
        (sendfile_calls (handle_client (some args) env)).head? = some (0, S))) := by
  have hTne : T ≠ [] := by rw [hT]; simp
  -- the request is read
  have hX : CR ∉ "GET ".toList ++ T ++ " HTTP/1.0".toList := by
    intro hm
    simp only [List.mem_append] at hm
    rcases hm with (hm | hm) | hm
    · revert hm; decide
    · exact (hchars CR hm).2.1 rfl
    · revert hm; decide
  have hnul : NUL ∉ chunks.flatten := by
    rw [hreq]
    intro hm
    simp only [List.mem_append] at hm
    rcases hm with (hm | hm) | hm
    · revert hm; decide
    · exact (hchars NUL hm).2.2.2 rfl
    · revert hm; decide
  have hsplit : chunks.flatten = ("GET ".toList ++ T ++ " HTTP/1.0".toList) ++ END_OF_REQUEST := by
    rw [hreq]; simp [END_OF_REQUEST]
  have hch : chunks ≠ [] := by
    rintro rfl
    have := congrArg List.length hreq
    simp at this
  obtain ⟨hread, hbuf⟩ := read_request_chunks chunks rest hchunks hch hnul hlen
    (by rw [hsplit]; exact (List.suffix_append _ _).isInfix)
    (by rw [hsplit]; exact terminator_only_at_end _ hX)
  rw [← hrecv] at hread hbuf
  -- and parsed
  have hparse := parse_request_get T hTne (fun c hc => ⟨(hchars c hc).1, (hchars c hc).2.1,
    (hchars c hc).2.2.1⟩)
  rw [← hreq, ← hbuf] at hparse
  have hok : (parse_request (cstr (read_request env.recvs initial_buffer).2)).ok = true := by
    rw [hparse]
  have hfp : (parse_request (cstr (read_request env.recvs initial_buffer).2)).file_path
      = some T := by rw [hparse]
  -- the look-up
  have hp : path_component_exists T = false := by
    cases h : path_component_exists T with
    | false => rfl
    | true =>
      exfalso
      apply htrav
      unfold path_component_exists at h
      exact (strstr_isSome_iff _ _).mp h
  have hF : '/' ∉ stem ++ ".html".toList := by
    intro hm
    rcases List.mem_append.mp hm with hm | hm
    · exact hstem hm
    · revert hm; decide
  have hfs : file_stats env.stat (file_path_full args.root_path T) T [] 0 =
      ⟨FILE_EXISTS, "text/html".toList, S⟩ := by
    have hdot : strrchr (stem ++ ".html".toList) '.' = some ".html".toList :=
      strrchr_append_cons stem "html".toList '.' (by decide)
    rw [hT, file_stats_final_segment _ _ D _ _ _ hD hF (by simp), ← hT,
      file_stats_regular_segment _ _ _ _ _ S hF (by simp) hstat, hdot]
    rfl
  have hacc := handle_client_accepted args env T hread hok hfp ⟨FILE_EXISTS, "text/html".toList, S⟩
    (by rw [hp, hfs]; rfl)
  have hhdr : create_response_headers FILE_EXISTS
      (if FILE_EXISTS ≠ 0 then STATUS_OK else STATUS_NF)
      (if FILE_EXISTS ≠ 0 then STATUS_OK_M else STATUS_NF_M) "text/html".toList S =
      "HTTP/1.0 200 OK\r\nContent-Type: text/html\r\nContent-Length: ".toList ++
        (Nat.repr S).toList ++ "\r\n\r\n".toList := by
    rw [← fmt_zu_eq_repr]
    exact create_response_headers_found FILE_EXISTS (by decide) _ _
  simp only [hp] at hacc
  rw [hhdr] at hacc
  have hne : "HTTP/1.0 200 OK\r\nContent-Type: text/html\r\nContent-Length: ".toList ++
        (Nat.repr S).toList ++ "\r\n\r\n".toList ≠ [] := by
    rw [← hhdr]
    exact create_response_headers_ne_nil _ _ _ _ _
  generalize "HTTP/1.0 200 OK\r\nContent-Type: text/html\r\nContent-Length: ".toList ++
        (Nat.repr S).toList ++ "\r\n\r\n".toList = H at hacc hne ⊢
  obtain ⟨s1, s2, -, s4, s5, -, -⟩ := send_response_spec env.sends env.open_file env.sendfiles H
    FILE_EXISTS (file_path_full args.root_path T) S hne
  obtain ⟨q1, q2, q3, q4, q5, -⟩ := release_trace_quiet args.clientfd
    [Ptr.file_path_full, Ptr.response]
  rw [hacc]
  refine ⟨?_, ?_, ?_, ?_⟩
  · simp [stat_calls, s5, q3]
  · simp [first_send_append, first_send, s1]
  · simpa [wire, q1] using s2
  · intro hs
    have hs2 : sends_succeed (send_response env.sends env.open_file env.sendfiles H FILE_EXISTS
        (file_path_full args.root_path T) S).2 = true := by
      simp only [sends_succeed_append, Bool.and_eq_true] at hs
      exact hs.1.2
    obtain ⟨w1, w2⟩ := s4 hs2
    obtain ⟨w3, w4⟩ := w2 (by decide)
    refine ⟨by simpa [wire, q1] using w1, by simp [open_calls, w3, q4], ?_⟩
    intro hopen
    have := w4 hopen
    simp only [List.append_assoc, sendfile_calls_append, q5, List.append_nil]
    simpa [sendfile_calls] using this

/-- The request `GET /index.html HTTP/1.0` for a page of 120 bytes under the
root `/srv`: C8 at the connection of the scenario. -/
theorem html_page_served_witness :
    stat_calls (handle_client (some example_arg) example_env_index) = ["/srv/index.html".toList] ∧
    wire (handle_client (some example_arg) example_env_index) =
      "HTTP/1.0 200 OK\r\nContent-Type: text/html\r\nContent-Length: 120\r\n\r\n".toList ∧
    open_calls (handle_client (some example_arg) example_env_index) = ["/srv/index.html".toList] ∧
    (sendfile_calls (handle_client (some example_arg) example_env_index)).head?
      = some (0, 120) := by
  have h := html_page_served example_arg example_env_index "/index.html".toList "/".toList
    "index".toList 120 ["GET /index.html HTTP/1.0\r\n\r\n".toList] [] rfl (by decide) (by decide)
    (by decide) (by decide) (by decide) (Or.inr ⟨[], rfl⟩) (by decide) (by decide) rfl
  have h2 := h.2.2.2 (by decide)
  exact ⟨h.1, h2.1, h2.2.1, h2.2.2 (by decide)⟩

/-- C8, counterexamples to the claim as stated. The target `/a b.html` has
no traversal segment, its final segment `a b.html` ends in `.html`, the
request bytes are `GET /a b.html HTTP/1.0` and the blank line, and `stat` of
the resolved path `/srv/a b.html` reports a regular file; but `strtok` cuts
the request line at every space, the protocol token it finds is `b.html`, the
request is rejected and `handle_client` sends nothing. The target of 2090
letters and `.html` makes a request longer than the buffer: `read_request`
returns `ERROR` and `handle_client` sends nothing. -/
theorem html_target_not_served :
    example_env_spaced_target.recvs =
      [RecvResult.data ("GET ".toList ++ "/a b.html".toList ++ " HTTP/1.0\r\n\r\n".toList)] ∧
    path_component_exists "/a b.html".toList = false ∧
    (segments "/a b.html".toList).getLast? = some ("a b".toList ++ ".html".toList) ∧
    example_env_spaced_target.stat (file_path_full example_arg.root_path "/a b.html".toList)
      = some ⟨true, 120⟩ ∧
    (read_request example_env_spaced_target.recvs initial_buffer).1 = SUCCESS ∧
    (parse_request (cstr (read_request example_env_spaced_target.recvs initial_buffer).2)
      ).protocol_version = some "b.html".toList ∧
    handle_client (some example_arg) example_env_spaced_target =
      [Event.alloc Ptr.free_queue, Event.close 4, Event.free Ptr.free_queue] ∧
    wire (handle_client (some example_arg) example_env_spaced_target) = [] ∧
    example_env_long_target.recvs =
      [RecvResult.data ("GET ".toList ++ ('/' :: (List.replicate 2090 'a' ++ ".html".toList))
        ++ " HTTP/1.0\r\n\r\n".toList)] ∧
    example_env_long_target.stat (file_path_full example_arg.root_path
      ('/' :: (List.replicate 2090 'a' ++ ".html".toList))) = some ⟨true, 120⟩ ∧
    (read_request example_env_long_target.recvs initial_buffer).1 = ERROR ∧
    handle_client (some example_arg) example_env_long_target =
      [Event.alloc Ptr.free_queue, Event.close 4, Event.free Ptr.free_queue] ∧
    wire (handle_client (some example_arg) example_env_long_target) = [] := by
  have hread : (read_request example_env_long_target.recvs initial_buffer).1 = ERROR := by
    have hflat : ∀ d : List Char, [d].flatten = d := by
      intro d
      rw [List.flatten_cons, List.flatten_nil, List.append_nil]
    have hsplit : "GET ".toList ++ ('/' :: (List.replicate 2090 'a' ++ ".html".toList)) ++
        " HTTP/1.0\r\n\r\n".toList =
        ("GET /".toList ++ List.replicate 2090 'a') ++ ".html HTTP/1.0\r\n\r\n".toList := by
      simp only [List.append_assoc, List.cons_append, String.toList, List.nil_append,
        List.singleton_append]
    refine read_request_full [_] [] ?_ ?_ ?_
    · intro c hc
      rw [List.mem_singleton] at hc
      subst hc
      exact List.append_ne_nil_of_left_ne_nil (List.append_ne_nil_of_left_ne_nil (by decide) _) _
    · rw [hflat, hsplit, List.length_append, List.length_append, List.length_replicate]
      decide
    · rw [hflat, hsplit, List.take_append_of_le_length
        (by rw [List.length_append, List.length_replicate]; decide)]
      intro hin
      have hpre : cstr (("GET /".toList ++ List.replicate 2090 'a').take BUFFER_LEN) <+:
          ("GET /".toList ++ List.replicate 2090 'a').take BUFFER_LEN := by
        unfold cstr
        exact List.takeWhile_prefix _
      refine terminator_needs_cr _ ?_ (hin.trans hpre.isInfix)
      intro hm
      rcases List.mem_append.mp (List.mem_of_mem_take hm) with h | h
      · revert h; decide
      · exact absurd (List.eq_of_mem_replicate h) (by decide)
  have hfail : (read_request example_env_long_target.recvs initial_buffer).1 ≠ SUCCESS := by
    rw [hread]
    exact ERROR_ne_SUCCESS
  have hhc := handle_client_read_failed example_arg example_env_long_target hfail
  refine ⟨rfl, by decide, by decide, rfl, by decide, by decide, by decide, by decide, rfl, rfl,
    hread, hhc, ?_⟩
  rw [hhc]
  rfl

/-- C9, as amended: when `parse_request` finds the request line `line`, it
accepts if and only if the tokens of the line (its non-empty pieces between
spaces, so that a run of spaces separates like one space and spaces at either
end are ignored) are at least three, the first being `GET` and the third
`HTTP/1.0`. A line with fewer than three tokens is rejected; tokens after
the third are not looked at. -/
theorem request_line_accepted_iff (b line : List Char)
    (h : (parse_request b).request_line = some line) :
    ((parse_request b).ok = true ↔
      ∃ T more, space_tokens line = GET_METHOD :: T :: HTTP_VERSION :: more) ∧
    ((space_tokens line).length < 3 → (parse_request b).ok = false) ∧
    (∀ T more, space_tokens line = GET_METHOD :: T :: HTTP_VERSION :: more →
      (parse_request b).ok = true) := by
  have hiff := parse_request_ok_iff_tokens b line h
  refine ⟨hiff, ?_, fun T more ht => hiff.mpr ⟨T, more, ht⟩⟩
  intro hlen
  cases hok : (parse_request b).ok with
  | false => rfl
  | true =>
    obtain ⟨T, more, ht⟩ := hiff.mp hok
    rw [ht] at hlen
    simp only [List.length_cons] at hlen
    omega

/-- The amended C9 at the line `GET /index.html HTTP/1.0 extra`, whose four
tokens start with `GET`, a target and `HTTP/1.0`. -/
theorem request_line_accepted_iff_witness :
    (parse_request "GET /index.html HTTP/1.0 extra\r\n\r\n".toList).request_line =
      some "GET /index.html HTTP/1.0 extra".toList ∧
    (parse_request "GET /index.html HTTP/1.0 extra\r\n\r\n".toList).ok = true :=
  ⟨by decide,
   (request_line_accepted_iff "GET /index.html HTTP/1.0 extra\r\n\r\n".toList
      "GET /index.html HTTP/1.0 extra".toList (by decide)).2.2
      "/index.html".toList ["extra".toList] (by decide)⟩

/-- C9, counterexample to the claim as stated: the request line
`GET /index.html HTTP/1.0 extra` splits on spaces into four tokens, and
`parse_request` accepts it, with target `/index.html`; the same holds with a
doubled space, where an exact split has an empty piece. -/
theorem extra_token_accepted :
    (parse_request "GET /index.html HTTP/1.0 extra\r\n\r\n".toList).request_line =
      some "GET /index.html HTTP/1.0 extra".toList ∧
    split_on_spaces "GET /index.html HTTP/1.0 extra".toList =
      ["GET".toList, "/index.html".toList, "HTTP/1.0".toList, "extra".toList] ∧
    (parse_request "GET /index.html HTTP/1.0 extra\r\n\r\n".toList).ok = true ∧
    (parse_request "GET /index.html HTTP/1.0 extra\r\n\r\n".toList).file_path =
      some "/index.html".toList ∧
    split_on_spaces "GET  /index.html HTTP/1.0".toList =
      ["GET".toList, [], "/index.html".toList, "HTTP/1.0".toList] ∧
    (parse_request "GET  /index.html HTTP/1.0\r\n\r\n".toList).ok = true := by
  decide

/-- C10, the code at two buffers that contain CR LF. In the first, the text
before the first CR LF is `GET /index.html HTTP/1.0` followed by a lone CR
and `X`, but the request line that `parse_request` tokenizes ends at the lone
CR, and the request is accepted. In the second, which begins with CR LF, the
text before the first CR LF is empty, but `parse_request` skips the two
characters, takes `GET /index.html HTTP/1.0` for the request line and accepts
the request; `handle_client` answers the first buffer with `200 OK`: `strtok` reads `END_OF_REQ_LINE` as the set of the characters CR
and LF, not as the sequence CR LF. -/
theorem request_line_ends_at_lone_cr :
    text_before "GET /index.html HTTP/1.0\rX\r\n\r\n".toList END_OF_REQ_LINE =
      "GET /index.html HTTP/1.0\rX".toList ∧
    (parse_request "GET /index.html HTTP/1.0\rX\r\n\r\n".toList).request_line =
      some "GET /index.html HTTP/1.0".toList ∧
    (parse_request "GET /index.html HTTP/1.0\rX\r\n\r\n".toList).ok = true ∧
    text_before "\r\nGET /index.html HTTP/1.0\r\n\r\n".toList END_OF_REQ_LINE = [] ∧
    (parse_request "\r\nGET /index.html HTTP/1.0\r\n\r\n".toList).request_line =
      some "GET /index.html HTTP/1.0".toList ∧
    (parse_request "\r\nGET /index.html HTTP/1.0\r\n\r\n".toList).ok = true ∧
    (parse_request "GET /index.html\nHTTP/1.0\r\n\r\n".toList).request_line =
      some "GET /index.html".toList ∧
    wire (handle_client (some example_arg) example_env_lone_cr) =
      "HTTP/1.0 200 OK\r\nContent-Type: text/html\r\nContent-Length: 120\r\n\r\n".toList := by
  decide

/-- C11, as amended: let the client's data arrive in non-empty pieces. If the
first 2048 bytes of it hold no terminator CR LF CR LF, then `read_request`
returns `ERROR`, and `handle_client` closes the connection and frees its free
queue without any other call: nothing is parsed or logged, no `stat`, no
`send`, no byte on the wire. If the data is exactly 2048 bytes, holds no NUL,
ends with the terminator and holds it nowhere before, then `read_request`
returns `SUCCESS` with the whole data in the buffer. -/
theorem buffer_limit (chunks : List (List Char)) (rest : List RecvResult)
    (hne : ∀ c ∈ chunks, c ≠ []) :
    (BUFFER_LEN ≤ chunks.flatten.length →
      ¬ END_OF_REQUEST <:+: chunks.flatten.take BUFFER_LEN →
      (read_request (chunks.map RecvResult.data ++ rest) initial_buffer).1 = ERROR ∧
      ∀ (args : Arg) (env : Env), env.recvs = chunks.map RecvResult.data ++ rest →
        handle_client (some args) env = [Event.alloc Ptr.free_queue, Event.close args.clientfd, Event.free Ptr.free_queue] ∧
        wire (handle_client (some args) env) = [] ∧
        first_send (handle_client (some args) env) = none ∧
        stat_calls (handle_client (some args) env) = []) ∧
    (chunks.flatten.length = BUFFER_LEN → NUL ∉ chunks.flatten →
      END_OF_REQUEST <:+ chunks.flatten →
      (∀ p, p <+: chunks.flatten → p ≠ chunks.flatten → ¬ END_OF_REQUEST <:+: p) →
      (read_request (chunks.map RecvResult.data ++ rest) initial_buffer).1 = SUCCESS ∧
      cstr (read_request (chunks.map RecvResult.data ++ rest) initial_buffer).2
        = chunks.flatten) := by
  constructor
  · intro hlen hterm
    have hcstr : ¬ END_OF_REQUEST <:+: cstr (chunks.flatten.take BUFFER_LEN) := by
      intro hin
      apply hterm
      have hpre : cstr (chunks.flatten.take BUFFER_LEN) <+: chunks.flatten.take BUFFER_LEN := by
        unfold cstr
        exact List.takeWhile_prefix _
      exact hin.trans hpre.isInfix
    have herr := read_request_full chunks rest hne hlen hcstr
    refine ⟨herr, ?_⟩
    intro args env henv
    have hfail : (read_request env.recvs initial_buffer).1 ≠ SUCCESS := by
      rw [henv, herr]
      exact ERROR_ne_SUCCESS
    rw [handle_client_read_failed args env hfail]
    exact ⟨rfl, rfl, rfl, rfl⟩
  · intro hlen hnul hsuf honly
    have hch : chunks ≠ [] := by
      rintro rfl
      simp [BUFFER_LEN] at hlen
    exact read_request_chunks chunks rest hne hch hnul (le_of_eq hlen) hsuf.isInfix honly

/-- A client that sends 3000 bytes without a line end is dropped in silence,
and a request of exactly 2048 bytes is read: C11 at two concrete clients. -/
theorem buffer_limit_witness :
    handle_client (some example_arg) example_env_flood =
      [Event.alloc Ptr.free_queue, Event.close 4, Event.free Ptr.free_queue] ∧
    (read_request [RecvResult.data ("GET /".toList ++ (List.replicate 2030 'a' ++
      " HTTP/1.0\r\n\r\n".toList))] initial_buffer).1 = SUCCESS := by
  have hne : ∀ (t : List Char), ∀ c ∈ ["GET /".toList ++ t], c ≠ [] := by
    intro t c hc
    rw [List.mem_singleton] at hc
    subst hc
    exact List.append_ne_nil_of_left_ne_nil (by decide) _
  have hflat : ∀ (t : List Char), ["GET /".toList ++ t].flatten = "GET /".toList ++ t := by
    intro t
    rw [List.flatten_cons, List.flatten_nil, List.append_nil]
  have hrep : ∀ (c : Char) (n : Nat), c ≠ 'a' → c ∉ List.replicate n 'a' :=
    fun c n hc hm => hc (List.eq_of_mem_replicate hm)
  constructor
  · refine (((buffer_limit ["GET /".toList ++ List.replicate 2995 'a'] [] (hne _)).1
      ?_ ?_).2 example_arg example_env_flood rfl).1
    · rw [hflat, List.length_append, List.length_replicate]
      decide
    · apply terminator_needs_cr
      intro hm
      have hm2 := List.mem_of_mem_take hm
      rw [hflat, List.mem_append] at hm2
      rcases hm2 with h | h
      · revert h; decide
      · exact hrep CR _ (by decide) h
  · have hX : CR ∉ "GET /".toList ++ (List.replicate 2030 'a' ++ " HTTP/1.0".toList) := by
      intro hm
      rw [List.mem_append, List.mem_append] at hm
      rcases hm with h | h | h
      · revert h; decide
      · exact hrep CR _ (by decide) h
      · revert h; decide
    have hsplit : "GET /".toList ++ (List.replicate 2030 'a' ++ " HTTP/1.0\r\n\r\n".toList) =
        ("GET /".toList ++ (List.replicate 2030 'a' ++ " HTTP/1.0".toList)) ++ END_OF_REQUEST := by
      rw [List.append_assoc, List.append_assoc]
      rfl
    refine ((buffer_limit ["GET /".toList ++ (List.replicate 2030 'a' ++
      " HTTP/1.0\r\n\r\n".toList)] [] (hne _)).2 ?_ ?_ ?_ ?_).1
    · rw [hflat, List.length_append, List.length_append, List.length_replicate]
      decide
    · rw [hflat]
      intro hm
      rw [List.mem_append, List.mem_append] at hm
      rcases hm with h | h | h
      · revert h; decide
      · exact hrep NUL _ (by decide) h
      · revert h; decide
    · rw [hflat, hsplit]
      exact List.suffix_append _ _
    · rw [hflat, hsplit]
      exact terminator_only_at_end _ hX

/-- C11, counterexample to its second half as stated: the client sends 2048
bytes in one piece, a zero byte, 2043 letters and the terminator, so that the
terminator is completed exactly by the 2048th byte and is nowhere before. The
C string in the buffer is empty, `strstr` finds no terminator, the buffer is
full, and `read_request` returns `ERROR`. -/
theorem zero_byte_at_buffer_limit :
    (NUL :: (List.replicate 2043 'a' ++ END_OF_REQUEST)).length = BUFFER_LEN ∧
    END_OF_REQUEST <:+ NUL :: (List.replicate 2043 'a' ++ END_OF_REQUEST) ∧
    (∀ p, p <+: NUL :: (List.replicate 2043 'a' ++ END_OF_REQUEST) →
      p ≠ NUL :: (List.replicate 2043 'a' ++ END_OF_REQUEST) → ¬ END_OF_REQUEST <:+: p) ∧
    (read_request [RecvResult.data (NUL :: (List.replicate 2043 'a' ++ END_OF_REQUEST))]
      initial_buffer).1 = ERROR := by
  have hlen : (NUL :: (List.replicate 2043 'a' ++ END_OF_REQUEST)).length = BUFFER_LEN := by
    rw [List.length_cons, List.length_append, List.length_replicate]
    rfl
  have hX : CR ∉ NUL :: List.replicate 2043 'a' := by
    intro hm
    rcases List.mem_cons.mp hm with h | h
    · revert h; decide
    · exact absurd (List.eq_of_mem_replicate h) (by decide)
  refine ⟨hlen, ⟨NUL :: List.replicate 2043 'a', rfl⟩,
    terminator_only_at_end (NUL :: List.replicate 2043 'a') hX, ?_⟩
  have hflat : [NUL :: (List.replicate 2043 'a' ++ END_OF_REQUEST)].flatten =
      NUL :: (List.replicate 2043 'a' ++ END_OF_REQUEST) := by
    rw [List.flatten_cons, List.flatten_nil, List.append_nil]
  have hcstr : ∀ xs : List Char, cstr ((NUL :: xs).take BUFFER_LEN) = [] := by
    intro xs
    show cstr ((NUL :: xs).take (2047 + 1)) = []
    rw [List.take_succ_cons]
    simp [cstr]
  refine read_request_full [NUL :: (List.replicate 2043 'a' ++ END_OF_REQUEST)] [] ?_ ?_ ?_
  · intro c hc
    rw [List.mem_singleton] at hc
    subst hc
    exact List.cons_ne_nil _ _
  · rw [hflat, hlen]
  · rw [hflat, hcstr]
    rintro ⟨a, b, hab⟩
    have := congrArg List.length hab
    simp [END_OF_REQUEST] at this

/-- C12: with the items of the nodes of a queue, oldest first, as the content
of the queue: `queue_enqueue` appends its item at the end of the content;
`queue_dequeue` on a queue that is not empty returns the first item and
leaves the other items in the same order; and for every sequence of enqueues
and dequeues run on a new queue, the items that the dequeues return are, in
order, the first of the items that were enqueued. -/
theorem queue_is_fifo :
    (∀ (h : Heap) (queue data : Nat) (cells : List (Nat × Nat)), queue_holds h queue cells →
      ∃ cells2, queue_holds (queue_enqueue h queue data) queue cells2 ∧
        cells2.map Prod.snd = cells.map Prod.snd ++ [data]) ∧
    (∀ (h : Heap) (queue : Nat) (c : Nat × Nat) (rest : List (Nat × Nat)),
      queue_holds h queue (c :: rest) →
      (queue_dequeue h queue).1 = c.2 ∧ queue_holds (queue_dequeue h queue).2 queue rest) ∧
    (∀ (h : Heap) (ops : List QueueOp),
      run_queue_ops ops (queue_create h).2 (queue_create h).1 <+: enqueued ops) := by
  refine ⟨?_, ?_, ?_⟩
  · intro h queue data cells hq
    exact ⟨_, (queue_enqueue_holds h queue data cells hq).1, by simp⟩
  · intro h queue c rest hq
    exact ⟨(queue_dequeue_holds h queue c rest hq).1, (queue_dequeue_holds h queue c rest hq).2.1⟩
  · intro h ops
    have := run_queue_ops_prefix (queue_create h).1 ops (queue_create h).2 []
      (queue_create_holds h)
    simpa using this

/-- Three items enqueued and taken out again, with a dequeue too many: C12 at
a concrete sequence of operations. -/
theorem queue_is_fifo_witness :
    run_queue_ops [QueueOp.enqueue 7, QueueOp.enqueue 8, QueueOp.dequeue, QueueOp.enqueue 9,
        QueueOp.dequeue, QueueOp.dequeue, QueueOp.dequeue]
      (queue_create empty_heap).2 (queue_create empty_heap).1 <+: [7, 8, 9] ∧
    run_queue_ops [QueueOp.enqueue 7, QueueOp.enqueue 8, QueueOp.dequeue, QueueOp.enqueue 9,
        QueueOp.dequeue, QueueOp.dequeue, QueueOp.dequeue]
      (queue_create empty_heap).2 (queue_create empty_heap).1 = [7, 8, 9] :=
  ⟨queue_is_fifo.2.2 empty_heap _, by decide⟩

/-- C13: on every well-formed queue whose items are not NULL (every queue
reached from a new one by enqueueing such items and dequeueing is one),
`queue_is_empty` returns true exactly when the queue holds no item, and
`queue_dequeue` returns NULL exactly then, in which case it leaves the memory,
the queue included, as it was. In every interleaving of the acceptor and the
workers, no item that `init_server` enqueues is NULL, and the work queue
stays well formed with items that are not NULL. -/
theorem empty_sentinel (h : Heap) (queue : Nat) (cells : List (Nat × Nat))
    (hq : queue_holds h queue cells) (hitems : ∀ c ∈ cells, c.2 ≠ NULL) :
    (queue_is_empty h queue = true ↔ cells = []) ∧
    ((queue_dequeue h queue).1 = NULL ↔ cells = []) ∧
    (cells = [] → queue_dequeue h queue = (NULL, h) ∧
      queue_holds (queue_dequeue h queue).2 queue []) ∧
    (∀ steps : List Step, NULL ∉ accepted steps ∧
      ∃ wcells, queue_holds (run_server steps server_start).heap WORK_QUEUE wcells ∧
        ∀ c ∈ wcells, c.2 ≠ NULL) := by
  refine ⟨queue_is_empty_iff h queue cells hq, ?_, ?_, ?_⟩
  · cases cells with
    | nil => simp [queue_dequeue_empty h queue hq]
    | cons c rest =>
      rw [(queue_dequeue_holds h queue c rest hq).1]
      simpa using hitems c (List.mem_cons_self _ _)
  · rintro rfl
    rw [queue_dequeue_empty h queue hq]
    exact ⟨rfl, hq⟩
  · intro steps
    constructor
    · induction steps with
      | nil => simp [accepted]
      | cons step steps ih =>
        cases step with
        | accept newsockfd w_arg =>
          by_cases hfd : newsockfd < 0
          · simpa [accepted, hfd] using ih
          · by_cases hw : w_arg = NULL
            · simpa [accepted, hfd, hw] using ih
            · simp only [accepted, hfd, hw, if_false, List.mem_cons, not_or]
              exact ⟨fun heq => hw heq.symm, ih⟩
        | work worker => simpa [accepted] using ih
    · obtain ⟨out, rest, -, -, -, i4, i5⟩ := run_server_spec steps server_start []
        server_start_holds (by simp)
      exact ⟨rest, i4, i5⟩

/-- A queue with the one item 7: it is not empty and `queue_dequeue` returns
the item, not NULL. C13 at a concrete queue. -/
theorem empty_sentinel_witness :
    queue_is_empty (queue_enqueue (queue_create empty_heap).2 (queue_create empty_heap).1 7)
      (queue_create empty_heap).1 = false ∧
    (queue_dequeue (queue_enqueue (queue_create empty_heap).2 (queue_create empty_heap).1 7)
      (queue_create empty_heap).1).1 ≠ NULL ∧
    queue_is_empty (queue_create empty_heap).2 (queue_create empty_heap).1 = true := by
  have h1 := empty_sentinel
    (queue_enqueue (queue_create empty_heap).2 (queue_create empty_heap).1 7)
    (queue_create empty_heap).1 [((queue_create empty_heap).2.brk + 1, 7)]
    (queue_enqueue_holds _ _ 7 [] (queue_create_holds empty_heap)).1 (by decide)
  have h0 := empty_sentinel (queue_create empty_heap).2 (queue_create empty_heap).1 []
    (queue_create_holds empty_heap) (by decide)
  refine ⟨?_, ?_, h0.1.mpr rfl⟩
  · cases he : queue_is_empty (queue_enqueue (queue_create empty_heap).2
        (queue_create empty_heap).1 7) (queue_create empty_heap).1 with
    | false => rfl
    | true => exact absurd (h1.1.mp he) (by decide)
  · intro hn
    exact absurd (h1.2.1.mp hn) (by decide)

/-- C14: in every interleaving of rounds of the acceptor and rounds of the
workers, the section under the lock taken as one step, the work items passed
to `handle_client`, in the order in which they were taken from the work
queue, are the first of the items the acceptor enqueued, in the order in
which it enqueued them: the k-th call of `handle_client` gets the k-th item
enqueued. So no item is passed twice or to two workers (when the items are
distinct pointers, the pointers passed are distinct), and NULL is never
passed. -/
theorem work_item_handled_once (steps : List Step) :
    (run_server steps server_start).handled.map Prod.snd <+: accepted steps ∧
    ((accepted steps).Nodup → ((run_server steps server_start).handled.map Prod.snd).Nodup) ∧
    (∀ x ∈ (run_server steps server_start).handled, x.2 ≠ NULL) := by
  obtain ⟨out, rest, i1, i2, i3, -, -⟩ := run_server_spec steps server_start []
    server_start_holds (by simp)
  have hout : (run_server steps server_start).handled = out := by
    rw [i1]; rfl
  have hpre : (run_server steps server_start).handled.map Prod.snd <+: accepted steps := by
    rw [hout]
    exact ⟨rest.map Prod.snd, by simpa using i2⟩
  refine ⟨hpre, fun hnd => hnd.sublist hpre.sublist, ?_⟩
  rw [hout]
  exact i3

/-- Three connections and a failed `accept`, taken by three workers: C14 at a
concrete interleaving. -/
theorem work_item_handled_once_witness :
    (run_server [Step.accept 5 100, Step.work 1, Step.work 2, Step.accept 6 200,
        Step.accept (-1) 300, Step.accept 7 400, Step.work 2, Step.work 3, Step.work 1]
      server_start).handled = [(1, 100), (2, 200), (3, 400)] ∧
    (run_server [Step.accept 5 100, Step.work 1, Step.work 2, Step.accept 6 200,
        Step.accept (-1) 300, Step.accept 7 400, Step.work 2, Step.work 3, Step.work 1]
      server_start).handled.map Prod.snd <+: [100, 200, 400] :=
  ⟨by decide, (work_item_handled_once _).1⟩

/-- C15: on every run of `handle_client` with an argument that is not NULL,
whatever the client, the file system and the socket do (provided `open` never
returns the descriptor of the connection, which is open), the trace ends with
what `close_and_clean` leaves when `queue_clean` runs on the free queue: the
connection is closed and the blocks `recorded` in the queue by
`queue_enqueue` are freed, oldest first, then the queue itself
(`release_trace`); and before that exactly the free queue and the recorded
blocks were allocated, nothing was freed and the connection was not closed.
So the connection is closed exactly once, and the blocks freed are the blocks
allocated, each freed once: the free queue alone when the request is not read
or not accepted, else the path string, the response text and the free
queue. -/
theorem connection_released (args : Arg) (env : Env)
    (hfd : ∀ path, env.open_file path ≠ args.clientfd) :
    (∃ before recorded,
      handle_client (some args) env = before ++ release_trace args.clientfd recorded ∧
      alloc_calls before = Ptr.free_queue :: recorded ∧ free_calls before = [] ∧
      args.clientfd ∉ close_calls before) ∧
    (close_calls (handle_client (some args) env)).count args.clientfd = 1 ∧
    ((alloc_calls (handle_client (some args) env) = [Ptr.free_queue] ∧
        free_calls (handle_client (some args) env) = [Ptr.free_queue]) ∨
      (alloc_calls (handle_client (some args) env) =
          [Ptr.free_queue, Ptr.file_path_full, Ptr.response] ∧
        free_calls (handle_client (some args) env) =
          [Ptr.file_path_full, Ptr.response, Ptr.free_queue])) ∧
    (free_calls (handle_client (some args) env)).Nodup ∧
    (free_calls (handle_client (some args) env)).Perm
      (alloc_calls (handle_client (some args) env)) := by
  rcases handle_client_cases args env with h | ⟨T, ct, N, fs, C, M, -, -, h⟩
  · rw [h]
    refine ⟨⟨[Event.alloc Ptr.free_queue], [], rfl, rfl, rfl, by simp [close_calls]⟩, ?_,
      Or.inl ⟨rfl, rfl⟩, ?_, ?_⟩
    · simp [release_trace, close_calls]
    · simp [release_trace, free_calls]
    · simp [release_trace, free_calls, alloc_calls]
  · obtain ⟨s1, s2, s3⟩ := send_response_quiet env.sends env.open_file env.sendfiles
      (create_response_headers fs C M ct N) fs (file_path_full args.root_path T) N args.clientfd
      (hfd _)
    have hstat_a : alloc_calls (if path_component_exists T = true then []
        else [Event.stat (file_path_full args.root_path T)]) = [] := by
      split <;> rfl
    have hstat_f : free_calls (if path_component_exists T = true then []
        else [Event.stat (file_path_full args.root_path T)]) = [] := by
      split <;> rfl
    have hstat_c : close_calls (if path_component_exists T = true then []
        else [Event.stat (file_path_full args.root_path T)]) = [] := by
      split <;> rfl
    have ha : alloc_calls (handle_client (some args) env) =
        [Ptr.free_queue, Ptr.file_path_full, Ptr.response] := by
      rw [h]
      simp [alloc_calls, hstat_a, s1, release_trace]
    have hf : free_calls (handle_client (some args) env) =
        [Ptr.file_path_full, Ptr.response, Ptr.free_queue] := by
      rw [h]
      simp [free_calls, hstat_f, s2, release_trace]
    have hc : close_calls (handle_client (some args) env) =
        close_calls (send_response env.sends env.open_file env.sendfiles
          (create_response_headers fs C M ct N) fs (file_path_full args.root_path T) N).2 ++
        [args.clientfd] := by
      rw [h]
      simp [close_calls, hstat_c, release_trace]
    refine ⟨⟨_, [Ptr.file_path_full, Ptr.response], h, ?_, ?_, ?_⟩, ?_, Or.inr ⟨ha, hf⟩, ?_, ?_⟩
    · simp [alloc_calls, hstat_a, s1]
    · simp [free_calls, hstat_f, s2]
    · simpa [close_calls, hstat_c] using s3
    · rw [hc, List.count_append, List.count_eq_zero_of_not_mem s3]
      simp
    · rw [hf]; decide
    · rw [hf, ha]; decide

/-- The client that asks for `/index.html`, served in full: the file and the
connection are closed, and the three blocks are freed, also when the memory
holds another queue already. C15 at two concrete connections. -/
theorem connection_released_witness :
    close_calls (handle_client (some example_arg) example_env_index) = [5, 4] ∧
    alloc_calls (handle_client (some example_arg) example_env_index) =
      [Ptr.free_queue, Ptr.file_path_full, Ptr.response] ∧
    free_calls (handle_client (some example_arg) example_env_index) =
      [Ptr.file_path_full, Ptr.response, Ptr.free_queue] ∧
    (close_calls (handle_client (some example_arg) example_env_index)).count 4 = 1 ∧
    free_calls (handle_client (some example_arg) example_env_busy_memory) =
      [Ptr.file_path_full, Ptr.response, Ptr.free_queue] ∧
    (close_calls (handle_client (some example_arg) example_env_busy_memory)).count 4 = 1 :=
  ⟨by decide, by decide, by decide,
    (connection_released example_arg example_env_index
      (fun _ => (by decide : (5 : Int) ≠ 4))).2.1, by decide,
    (connection_released example_arg example_env_busy_memory
      (fun _ => (by decide : (5 : Int) ≠ 4))).2.1⟩

/-- C16, the code at two requests that are answered with 404. The target
`/docs` is a directory whose `stat` size is 4096, and the target
`/missing.png` is a regular file of 120 bytes with an extension that is not
served. In both runs no file is opened and no body byte is sent, but the
header block declares the `st_size` that `file_stats` stored before it looked
at the kind of the file: `Content-Length: 4096` and `Content-Length: 120`,
not `Content-Length: 0`. -/
theorem not_found_declares_file_size :
    wire (handle_client (some example_arg) example_env_directory) =
      "HTTP/1.0 404 Not Found\r\nContent-Length: 4096\r\n\r\n".toList ∧
    open_calls (handle_client (some example_arg) example_env_directory) = [] ∧
    body_bytes (handle_client (some example_arg) example_env_directory) = 0 ∧
    wire (handle_client (some example_arg) example_env_png) =
      "HTTP/1.0 404 Not Found\r\nContent-Length: 120\r\n\r\n".toList ∧
    open_calls (handle_client (some example_arg) example_env_png) = [] ∧
    body_bytes (handle_client (some example_arg) example_env_png) = 0 ∧
    file_stats (fun _ => some ⟨false, 4096⟩) "/srv/docs".toList "/docs".toList [] 0 =
      ⟨FILE_DOESNT_EXIST, [], 4096⟩ := by
  decide

/-- C18: for every target `T`, `path_component_exists` returns true if and
only if one of the segments of `T` (the pieces between its slashes) is
exactly `..`. So `../x`, `a/../b`, `a/..` and `..` are detected, and `..a`,
`a..` and `...`, whose segments only contain dots, are not. -/
theorem path_component_exists_iff (T : List Char) :
    (path_component_exists T = true ↔ "..".toList ∈ segments T) ∧
    path_component_exists "../x".toList = true ∧
    path_component_exists "a/../b".toList = true ∧
    path_component_exists "a/..".toList = true ∧
    path_component_exists "..".toList = true ∧
    path_component_exists "..a".toList = false ∧
    path_component_exists "a..".toList = false ∧
    path_component_exists "...".toList = false := by
  refine ⟨?_, by decide, by decide, by decide, by decide, by decide, by decide, by decide⟩
  unfold path_component_exists
  simp only
  rw [strstr_isSome_iff]
  have := path_component_segments T [] (by simp)
  simpa using this

/-- The target `/a/../etc/passwd`, whose third segment is `..`: C18 at a
concrete target. -/
theorem path_component_exists_iff_witness :
    segments "/a/../etc/passwd".toList =
      [[], "a".toList, "..".toList, "etc".toList, "passwd".toList] ∧
    path_component_exists "/a/../etc/passwd".toList = true :=
  ⟨by decide, (path_component_exists_iff "/a/../etc/passwd".toList).1.mpr (by decide)⟩

/-- C19: `file_stats` depends on the target through its final segment only.
For every result of `stat` at the resolved path, every non-empty segment `F`
without a slash and every prefix `D`, whatever the names in it, `file_stats`
on the target `D ++ "/" ++ F` returns what it returns on the target `F`: the
same status, the same content type and the same size. -/
theorem file_stats_final_segment_only (stat1 stat2 : List Char → Option Stat)
    (full1 full2 D F ct : List Char) (fs : Nat) (hstat : stat1 full1 = stat2 full2)
    (hF : '/' ∉ F) (hne : F ≠ []) :
    file_stats stat1 full1 (D ++ "/".toList ++ F) ct fs = file_stats stat2 full2 F ct fs := by
  rw [file_stats_final_segment stat1 full1 (D ++ "/".toList) F ct fs (Or.inr ⟨D, rfl⟩) hF hne]
  unfold file_stats
  rw [hstat]

/-- Directory names with dots: `/site.html/data` is looked up like `data`
and `/v1.2/index.html` like `index.html`. C19 at concrete targets. -/
theorem file_stats_final_segment_only_witness :
    file_stats (fun _ => some ⟨true, 120⟩) "/srv/site.html/data".toList
        "/site.html/data".toList [] 0 =
      ⟨FILE_EXISTS, "application/octet-stream".toList, 120⟩ ∧
    file_stats (fun _ => some ⟨true, 120⟩) "/srv/site.html/data".toList
        ("/site.html".toList ++ "/".toList ++ "data".toList) [] 0 =
      file_stats (fun _ => some ⟨true, 120⟩) "/srv/data".toList "data".toList [] 0 ∧
    file_stats (fun _ => some ⟨true, 120⟩) "/srv/v1.2/index.html".toList
        ("/v1.2".toList ++ "/".toList ++ "index.html".toList) [] 0 =
      file_stats (fun _ => some ⟨true, 120⟩) "/srv/index.html".toList "index.html".toList [] 0 :=
  ⟨by decide,
   file_stats_final_segment_only _ _ _ _ "/site.html".toList "data".toList [] 0 rfl
     (by decide) (by decide),
   file_stats_final_segment_only _ _ _ _ "/v1.2".toList "index.html".toList [] 0 rfl
     (by decide) (by decide)⟩

/-- C20: for every target that is empty or ends in a slash, `file_stats`
returns `FILE_DOESNT_EXIST`, whatever `stat` reports at the resolved path, a
regular file included. -/
theorem bare_directory_target_not_found (stat : List Char → Option Stat)
    (full T ct : List Char) (fs : Nat) (hT : T = [] ∨ ∃ D, T = D ++ ['/']) :
    (file_stats stat full T ct fs).status = FILE_DOESNT_EXIST := by
  unfold file_stats
  cases hs : stat full with
  | none => rfl
  | some sb =>
    simp only
    by_cases hreg : sb.is_reg = true
    · rw [if_pos hreg]
      rcases hT with rfl | ⟨D, rfl⟩
      · rfl
      · have hlen : ¬ strlen (D ++ ['/']) = 0 := by simp [strlen]
        have h1 : (strstr (D ++ ['/']) ['/']).isSome = true := by
          rw [strstr_slash_isSome_iff]; simp
        have h2 : strrchr (D ++ ['/']) '/' = some ['/'] :=
          strrchr_append_cons D [] '/' (by simp)
        rw [if_neg hlen, if_pos h1, h2]
        rfl
    · rw [if_neg hreg]

/-- The targets `/docs/` and the empty target, with a regular file behind
every path: C20 at concrete targets. -/
theorem bare_directory_target_not_found_witness :
    (file_stats (fun _ => some ⟨true, 120⟩) "/srv/docs/".toList "/docs/".toList [] 0).status
      = FILE_DOESNT_EXIST ∧
    (file_stats (fun _ => some ⟨true, 120⟩) "/srv".toList [] [] 0).status = FILE_DOESNT_EXIST :=
  ⟨bare_directory_target_not_found _ _ "/docs/".toList [] 0 (Or.inr ⟨"/docs".toList, rfl⟩),
   bare_directory_target_not_found _ _ [] [] 0 (Or.inl rfl)⟩

/-- C21: on the zero-initialised buffer, for every sequence of `recv` results:
`read_request` agrees with the loop from which the branch that leaves the loop
at a zero-byte read has been taken out, so that branch is never taken; and
when reads that deliver bytes, after none of which the C string in the buffer
holds the terminator, are followed by a read that fails or returns 0 (the
end of the script is the peer having closed the connection), `read_request`
returns `ERROR`. -/
theorem zero_byte_read_is_error :
    (∀ script : List RecvResult,
      read_request script initial_buffer =
        read_request_loop_strict script initial_buffer 0 BUFFER_LEN) ∧
    (∀ (chunks : List (List Char)) (bad : RecvResult) (rest : List RecvResult),
      (∀ c ∈ chunks, c ≠ []) → (bad = RecvResult.error ∨ bad = RecvResult.data []) →
      ¬ END_OF_REQUEST <:+: cstr (chunks.flatten.take BUFFER_LEN) →
      (read_request (chunks.map RecvResult.data ++ bad :: rest) initial_buffer).1 = ERROR) ∧
    (∀ (chunks : List (List Char)), (∀ c ∈ chunks, c ≠ []) →
      ¬ END_OF_REQUEST <:+: cstr (chunks.flatten.take BUFFER_LEN) →
      (read_request (chunks.map RecvResult.data) initial_buffer).1 = ERROR) := by
  refine ⟨?_, ?_, ?_⟩
  · intro script
    have := read_request_loop_eq_strict script [] (by decide) (by decide)
    simpa [read_request, initial_buffer] using this
  · intro chunks bad rest hne hbad hterm
    have := read_request_loop_stops chunks (bad :: rest) [] hne (by decide)
      (by simpa using hterm) (Or.inr ⟨rest, by
        rcases hbad with rfl | rfl
        · exact Or.inl rfl
        · exact Or.inr rfl⟩)
    simpa [read_request, initial_buffer] using this
  · intro chunks hne hterm
    have := read_request_loop_stops chunks [] [] hne (by decide)
      (by simpa using hterm) (Or.inl rfl)
    simpa [read_request, initial_buffer] using this

/-- A client that sends the request line and closes, and one whose second
read fails: C21 at two concrete scripts. -/
theorem zero_byte_read_is_error_witness :
    (read_request [RecvResult.data "GET /index.html HTTP/1.0\r\n".toList, RecvResult.data [],
      RecvResult.data "\r\n".toList] initial_buffer).1 = ERROR ∧
    (read_request [RecvResult.data "GET /index.html HTTP/1.0\r\n".toList, RecvResult.error]
      initial_buffer).1 = ERROR :=
  ⟨zero_byte_read_is_error.2.1 ["GET /index.html HTTP/1.0\r\n".toList] (RecvResult.data [])
      [RecvResult.data "\r\n".toList] (by decide) (Or.inr rfl) (by decide),
   zero_byte_read_is_error.2.1 ["GET /index.html HTTP/1.0\r\n".toList] RecvResult.error []
      (by decide) (Or.inl rfl) (by decide)⟩

/-- C22, as amended: let the reads deliver bytes of any value, zero bytes
included. When, after the last of these reads and after none before it, the
C string in the buffer (the bytes received so far, at most 2048 of them, up
to the first zero byte) holds CR LF CR LF, then `read_request` returns
`SUCCESS` without reading further: the result is the same whatever follows in
the script, and the buffer holds the bytes received. -/
theorem terminator_ends_reading (before : List (List Char)) (last : List Char)
    (rest : List RecvResult) (hne : ∀ c ∈ before, c ≠ []) (hlast : last ≠ [])
    (hnot : ¬ END_OF_REQUEST <:+: cstr before.flatten)
    (hterm : END_OF_REQUEST <:+: cstr ((before.flatten ++ last).take BUFFER_LEN)) :
    (read_request ((before ++ [last]).map RecvResult.data ++ rest) initial_buffer).1 = SUCCESS ∧
    read_request ((before ++ [last]).map RecvResult.data ++ rest) initial_buffer =
      read_request ((before ++ [last]).map RecvResult.data) initial_buffer ∧
    cstr (read_request ((before ++ [last]).map RecvResult.data ++ rest) initial_buffer).2 =
      cstr ((before.flatten ++ last).take BUFFER_LEN) := by
  have hlen : before.flatten.length < BUFFER_LEN := by
    by_contra hge
    apply hnot
    rw [List.take_append_of_le_length (not_lt.mp hge)] at hterm
    have hpre := cstr_prefix_mono (before.flatten.take BUFFER_LEN)
      (before.flatten.drop BUFFER_LEN)
    rw [List.take_append_drop] at hpre
    exact hterm.trans hpre.isInfix
  have h := fun r => read_request_loop_first before last r [] hne hlast (by simpa using hlen)
    (by simpa using hnot) (by simpa using hterm)
  simp only [List.nil_append, List.length_nil, Nat.sub_zero] at h
  have h1 := h rest
  have h2 := h []
  rw [List.append_nil] at h2
  unfold read_request initial_buffer
  rw [h1, h2]
  exact ⟨rfl, rfl, cstr_append_replicate _ _⟩

/-- A request that arrives in three pieces, the blank line completed by the
third, with a further piece that is not read: the amended C22 at a concrete
script. -/
theorem terminator_ends_reading_witness :
    (read_request [RecvResult.data "GET /index".toList, RecvResult.data ".html HTTP/1.0\r\n\r".toList,
      RecvResult.data "\nHost: x".toList, RecvResult.error] initial_buffer).1 = SUCCESS ∧
    cstr (read_request [RecvResult.data "GET /index".toList,
      RecvResult.data ".html HTTP/1.0\r\n\r".toList,
      RecvResult.data "\nHost: x".toList, RecvResult.error] initial_buffer).2 =
      "GET /index.html HTTP/1.0\r\n\r\nHost: x".toList := by
  have h := terminator_ends_reading ["GET /index".toList, ".html HTTP/1.0\r\n\r".toList]
    "\nHost: x".toList [RecvResult.error] (by decide) (by decide) (by decide) (by decide)
  exact ⟨h.1, h.2.2.trans (by decide)⟩

/-- C22, counterexample to the claim as stated: the client sends a zero byte
followed by `GET /index.html HTTP/1.0` and the blank line, in one piece. The
bytes accumulated contain CR LF CR LF, but the C string in the buffer is
empty, `read_request` goes on reading and returns `ERROR` when the client,
waiting for its answer, has nothing more to send; `handle_client` answers
nothing. -/
theorem zero_byte_hides_terminator :
    END_OF_REQUEST <:+: NUL :: "GET /index.html HTTP/1.0\r\n\r\n".toList ∧
    (read_request [RecvResult.data (NUL :: "GET /index.html HTTP/1.0\r\n\r\n".toList)]
      initial_buffer).1 = ERROR ∧
    (read_request [RecvResult.data (NUL :: "GET /index.html HTTP/1.0\r\n\r\n".toList),
      RecvResult.data "\r\n\r\n".toList] initial_buffer).1 = ERROR ∧
    wire (handle_client (some example_arg) example_env_zero_byte) = [] := by
  decide

/-- C23, the code on the paths of `send_response` that return `ERROR` after
`open` succeeded. Whenever the header block was sent, the file was opened and
the `sendfile` loop ended at an offset other than the size, `send_response`
returns `ERROR` and its trace holds the `open` but no `close`. At the client
that closes its end after 100 of 120 bytes, the descriptor 5 is opened and
the only descriptor closed in the whole run of `handle_client` is that of the
connection. -/
theorem file_descriptor_left_open :
    (∀ (sends : List Int) (open_file : List Char → Int) (sendfiles : List Int)
        (response path : List Char) (file_status : Int) (size : Nat),
      (send_headers response sends 0 (strlen response)).1 = SUCCESS → file_status ≠ 0 →
      0 ≤ open_file path → (sendfile_loop size sendfiles 0).1 ≠ size →
      (send_response sends open_file sendfiles response file_status path size).1 = ERROR ∧
      open_calls (send_response sends open_file sendfiles response file_status path size).2
        = [path] ∧
      close_calls (send_response sends open_file sendfiles response file_status path size).2
        = []) ∧
    open_calls (handle_client (some example_arg) example_env_broken_transfer) =
      ["/srv/index.html".toList] ∧
    sendfile_calls (handle_client (some example_arg) example_env_broken_transfer) =
      [(0, 120), (100, 120)] ∧
    close_calls (handle_client (some example_arg) example_env_broken_transfer) = [4] := by
  refine ⟨?_, by decide, by decide, by decide⟩
  intro sends open_file sendfiles response path file_status size hh hfs hfd hsz
  obtain ⟨-, -, -, -, -, h6, -, h8, -⟩ :=
    send_headers_spec response sends 0 (strlen response) (by simp [strlen])
  obtain ⟨-, -, -, -, -, -, -, s8, s9⟩ := sendfile_loop_spec size sendfiles 0 (le_refl _)
    (by decide)
  rw [send_response_opened _ _ _ _ _ _ _ hh hfs (not_lt.mpr hfd), if_neg hsz]
  refine ⟨rfl, ?_, ?_⟩
  · simp [open_calls, h6, s8]
  · simp [close_calls, h8, s9]

/-- C27: whenever `parse_request` returns true, the method it yields is
exactly `GET`, the protocol token is exactly `HTTP/1.0`, and the target is not
empty and holds no space, CR or LF. So for a target that comes from the
parser the test `strlen(file_path) == 0` of `file_stats` is false and the
guard `strlen(file_path) > 0` of `handle_client` is true. -/
theorem accepted_request_tokens (b : List Char) (h : (parse_request b).ok = true) :
    (parse_request b).method = some GET_METHOD ∧
    (parse_request b).protocol_version = some HTTP_VERSION ∧
    ∃ T, (parse_request b).file_path = some T ∧ T ≠ [] ∧ ' ' ∉ T ∧ CR ∉ T ∧ LF ∉ T ∧
      ¬ strlen T = 0 ∧ strlen T > 0 := by
  obtain ⟨rl, r0, r1, T, r2, r3, h1, h2, h3, -, heq⟩ := parse_request_ok_tokens b h
  obtain ⟨-, l2, -, -⟩ := strtok_some _ _ _ _ h1
  obtain ⟨-, -, -, m4⟩ := strtok_some _ _ _ _ h2
  obtain ⟨t1, t2, t3, -⟩ := strtok_some _ _ _ _ h3
  have hrl : ∀ c ∈ T, c ∈ rl := fun c hc => m4 c (t3 c hc)
  have hpos : 0 < T.length := List.length_pos.mpr t1
  rw [heq]
  refine ⟨rfl, rfl, T, rfl, t1, ?_, ?_, ?_, ?_, ?_⟩
  · intro hm
    exact t2 ' ' hm (by simp)
  · intro hm
    exact l2 CR (hrl CR hm) (by decide)
  · intro hm
    exact l2 LF (hrl LF hm) (by decide)
  · simp only [strlen]; omega
  · simp only [strlen]; exact hpos

/-- The request `GET /index.html HTTP/1.0`: C27 at a concrete buffer. -/
theorem accepted_request_tokens_witness :
    (parse_request "GET /index.html HTTP/1.0\r\n\r\n".toList).method = some "GET".toList ∧
    (parse_request "GET /index.html HTTP/1.0\r\n\r\n".toList).file_path =
      some "/index.html".toList :=
  ⟨(accepted_request_tokens "GET /index.html HTTP/1.0\r\n\r\n".toList (by decide)).1,
   by decide⟩

/-- C24: for every document root `R` and every target `T` that
`parse_request` accepts, the path `handle_client` builds is `R ++ T` when `T`
starts with a slash and `R ++ "/" ++ T` otherwise; its length is at most
`strlen(R) + strlen(T) + EXTRA_INCASE_NOSLASH`, one less than the size of the
block allocated for it; and every `stat` and every `open` of the run is made
on that path. -/
theorem candidate_path (args : Arg) (env : Env) (T : List Char)
    (hread : (read_request env.recvs initial_buffer).1 = SUCCESS)
    (hok : (parse_request (cstr (read_request env.recvs initial_buffer).2)).ok = true)
    (hT : (parse_request (cstr (read_request env.recvs initial_buffer).2)).file_path = some T) :
    file_path_full args.root_path T =
      (if T.head? = some '/' then args.root_path ++ T
        else args.root_path ++ "/".toList ++ T) ∧
    strlen (file_path_full args.root_path T) ≤
      strlen args.root_path + strlen T + EXTRA_INCASE_NOSLASH ∧
    (∀ p ∈ stat_calls (handle_client (some args) env), p = file_path_full args.root_path T) ∧
    (∀ p ∈ open_calls (handle_client (some args) env), p = file_path_full args.root_path T) := by
  obtain ⟨rl, r0, r1, T2, r2, r3, -, -, h3, -, heq⟩ := parse_request_ok_tokens _ hok
  have hTT : T2 = T := by
    rw [heq] at hT
    simpa using hT
  subst hTT
  have hne : T2 ≠ [] := (strtok_some _ _ _ _ h3).1
  have hpos : 0 < T2.length := List.length_pos.mpr hne
  have hacc := handle_client_accepted args env T2 hread hok hT _ rfl
  obtain ⟨q1, q2, q3, q4, q5, -⟩ := release_trace_quiet args.clientfd
    [Ptr.file_path_full, Ptr.response]
  refine ⟨?_, ?_, ?_, ?_⟩
  · unfold file_path_full
    by_cases hh : T2.head? = some '/'
    · simp [hh]
    · simp [hh, hpos, strlen]
  · unfold file_path_full
    by_cases hh : T2.head? = some '/'
    · simp [hh, strlen, EXTRA_INCASE_NOSLASH]
    · simp [hh, hpos, strlen, EXTRA_INCASE_NOSLASH]
      omega
  · obtain ⟨-, a2, -⟩ := handle_client_accepted_seen args env T2 hread hok hT _ rfl
    rw [a2]
    intro p hp
    split at hp
    · cases hp
    · simpa using hp
  · intro p hp
    have hpre : open_calls (if path_component_exists T2 = true then []
        else [Event.stat (file_path_full args.root_path T2)]) = [] := by
      split <;> rfl
    generalize (if path_component_exists T2 = true then (⟨0, [], 0⟩ : FileStats)
        else file_stats env.stat (file_path_full args.root_path T2) T2 [] 0) = st at hacc
    generalize create_response_headers st.status (if st.status ≠ 0 then STATUS_OK else STATUS_NF)
      (if st.status ≠ 0 then STATUS_OK_M else STATUS_NF_M) st.content_type st.file_size = H
      at hacc
    have ho : open_calls (handle_client (some args) env) =
        open_calls (send_response env.sends env.open_file env.sendfiles H st.status
          (file_path_full args.root_path T2) st.file_size).2 := by
      rw [hacc]
      simp [open_calls, hpre, q4]
    rw [ho] at hp
    exact send_response_opens _ _ _ _ _ _ _ p hp

/-- The root `/srv` with the target `/index.html`, and with a target that
does not start with a slash: C24 at a concrete connection. -/
theorem candidate_path_witness :
    file_path_full "/srv".toList "/index.html".toList = "/srv/index.html".toList ∧
    file_path_full "/srv".toList "index.html".toList = "/srv/index.html".toList ∧
    ∀ p ∈ open_calls (handle_client (some example_arg) example_env_index),
      p = "/srv/index.html".toList :=
  ⟨by decide, by decide,
   (candidate_path example_arg example_env_index "/index.html".toList (by decide) (by decide)
      (by decide)).2.2.2⟩

/-- C25: take a queue made by `queue_create_from_array` (by `queue_create`
when the array is empty) and any sequence of calls of `queue_enqueue`,
`queue_dequeue`, `queue_dequeue_free` and `queue_peek` on it. Afterwards
`head` is NULL if and only if `tail` is NULL; the nodes reached from `head`
by `next` form a finite chain; when the queue is not empty the chain ends at
the node `tail`, whose `next` is NULL; and `queue_peek`, which writes
nothing, returns what the next `queue_dequeue` returns. -/
theorem queue_well_formed (h : Heap) (node_array : List Nat) (calls : List QueueCall) :
    queue_create_from_array h [] = queue_create h ∧
    ∃ q cells,
      (run_queue_calls calls (queue_create_from_array h node_array).2
        (queue_create_from_array h node_array).1).queue (queue_create_from_array h node_array).1
        = some q ∧
      (q.head = NULL ↔ q.tail = NULL) ∧
      chain (run_queue_calls calls (queue_create_from_array h node_array).2
        (queue_create_from_array h node_array).1).node q.head cells ∧
      (q.head ≠ NULL →
        ∃ last, cells.getLast? = some last ∧ q.tail = last.1 ∧
          (run_queue_calls calls (queue_create_from_array h node_array).2
            (queue_create_from_array h node_array).1).node q.tail = some ⟨last.2, NULL⟩) ∧
      queue_peek (run_queue_calls calls (queue_create_from_array h node_array).2
          (queue_create_from_array h node_array).1) (queue_create_from_array h node_array).1 =
        (queue_dequeue (run_queue_calls calls (queue_create_from_array h node_array).2
          (queue_create_from_array h node_array).1) (queue_create_from_array h node_array).1).1
    := by
  refine ⟨rfl, ?_⟩
  obtain ⟨cells1, c1, -⟩ := queue_enqueue_array_holds (queue_create h).1 node_array
    (queue_create h).2 [] (queue_create_holds h)
  obtain ⟨cells2, c2⟩ := run_queue_calls_holds (queue_create h).1 calls _ cells1 c1
  obtain ⟨q, s1, s2, s3, s4⟩ := queue_holds_shape _ _ cells2 c2
  exact ⟨q, cells2, s1, s2, s3, s4, (queue_peek_holds _ _ cells2 c2).2⟩

/-- A queue made from the array 7, 8, 9, with one item taken out, one freed
and one added: C25 at a concrete sequence of calls. -/
theorem queue_well_formed_witness :
    queue_peek (run_queue_calls [QueueCall.dequeue, QueueCall.peek, QueueCall.dequeue_free true,
        QueueCall.enqueue 10]
      (queue_create_from_array empty_heap [7, 8, 9]).2
      (queue_create_from_array empty_heap [7, 8, 9]).1)
      (queue_create_from_array empty_heap [7, 8, 9]).1 = 9 ∧
    (run_queue_calls [QueueCall.dequeue, QueueCall.peek, QueueCall.dequeue_free true,
        QueueCall.enqueue 10]
      (queue_create_from_array empty_heap [7, 8, 9]).2
      (queue_create_from_array empty_heap [7, 8, 9]).1).queue
      (queue_create_from_array empty_heap [7, 8, 9]).1 = some ⟨4, 5⟩ ∧
    queue_peek (run_queue_calls [QueueCall.dequeue, QueueCall.peek, QueueCall.dequeue_free true,
        QueueCall.enqueue 10]
      (queue_create_from_array empty_heap [7, 8, 9]).2
      (queue_create_from_array empty_heap [7, 8, 9]).1)
      (queue_create_from_array empty_heap [7, 8, 9]).1 =
    (queue_dequeue (run_queue_calls [QueueCall.dequeue, QueueCall.peek,
        QueueCall.dequeue_free true, QueueCall.enqueue 10]
      (queue_create_from_array empty_heap [7, 8, 9]).2
      (queue_create_from_array empty_heap [7, 8, 9]).1)
      (queue_create_from_array empty_heap [7, 8, 9]).1).1 := by
  obtain ⟨q, cells, -, -, -, -, hp⟩ := (queue_well_formed empty_heap [7, 8, 9]
    [QueueCall.dequeue, QueueCall.peek, QueueCall.dequeue_free true, QueueCall.enqueue 10]).2
  exact ⟨by decide, by decide, hp⟩

/-- C26: whenever `read_request` returns `SUCCESS` on the zero-initialised
buffer, the C string in the buffer contains CR LF CR LF and so contains
CR LF: the test `strstr(buffer, END_OF_REQ_LINE) == NULL` that `handle_client`
makes next is false, and its branch `request line not found` is never taken. -/
theorem request_line_always_found (script : List RecvResult)
    (h : (read_request script initial_buffer).1 = SUCCESS) :
    END_OF_REQUEST <:+: cstr (read_request script initial_buffer).2 ∧
    END_OF_REQ_LINE <:+: cstr (read_request script initial_buffer).2 ∧
    (strstr (cstr (read_request script initial_buffer).2) END_OF_REQ_LINE).isNone = false := by
  have h4 := (strstr_isSome_iff _ _).mp (read_request_terminator _ h)
  have h2 : END_OF_REQ_LINE <:+: END_OF_REQUEST := ⟨[], [CR, LF], by decide⟩
  have h3 := (strstr_isSome_iff _ _).mpr (h2.trans h4)
  refine ⟨h4, h2.trans h4, ?_⟩
  cases hs : strstr (cstr (read_request script initial_buffer).2) END_OF_REQ_LINE with
  | none => rw [hs] at h3; cases h3
  | some _ => rfl

/-- The request `GET /index.html HTTP/1.0` read in one piece: C26 at a
concrete script. -/
theorem request_line_always_found_witness :
    (read_request [RecvResult.data "GET /index.html HTTP/1.0\r\n\r\n".toList] initial_buffer).1
      = SUCCESS ∧
    END_OF_REQ_LINE <:+: cstr (read_request
      [RecvResult.data "GET /index.html HTTP/1.0\r\n\r\n".toList] initial_buffer).2 :=
  ⟨by decide, (request_line_always_found
    [RecvResult.data "GET /index.html HTTP/1.0\r\n\r\n".toList] (by decide)).2.1⟩

/-- C28: `recv` returning at most the count it is asked for, the loop of
`read_request` keeps `total_recv + bytes_left = BUFFER_LEN` and
`total_recv <= BUFFER_LEN`: a round that stores bytes and goes on passes to
the next round a state with the same sum, having written below index 2048.
So from any such state, and from the start of `read_request`, every store,
the terminating one at index `total_recv` included, lies inside the buffer of
`BUFFER_LEN + 1` bytes: the buffer keeps its length, which a store outside
it would change. -/
theorem read_request_stays_in_buffer :
    (∀ (bytes : List Char) (rest : List RecvResult) (buffer : List Char) (total left : Nat),
      total + left = BUFFER_LEN → total < BUFFER_LEN → buffer.length = BUFFER_LEN + 1 →
      (bytes.take left).length ≤ left ∧
      total + (bytes.take left).length ≤ BUFFER_LEN ∧
      (total + (bytes.take left).length) + (left - (bytes.take left).length) = BUFFER_LEN ∧
      (memwrite buffer total (bytes.take left)).length = BUFFER_LEN + 1 ∧
      (bytes.take left ≠ [] →
        (strstr (cstr (memwrite buffer total (bytes.take left))) END_OF_REQUEST).isSome = false →
        total + (bytes.take left).length ≠ BUFFER_LEN →
        read_request_loop (RecvResult.data bytes :: rest) buffer total left =
          read_request_loop rest (memwrite buffer total (bytes.take left))
            (total + (bytes.take left).length) (left - (bytes.take left).length))) ∧
    (∀ (script : List RecvResult) (buffer : List Char) (total left : Nat),
      total + left = BUFFER_LEN → buffer.length = BUFFER_LEN + 1 →
      (read_request_loop script buffer total left).2.length = BUFFER_LEN + 1) ∧
    (∀ script : List RecvResult,
      (read_request script initial_buffer).2.length = BUFFER_LEN + 1) ∧
    (∀ (buf data : List Char) (off : Nat), data ≠ [] →
      ((memwrite buf off data).length = buf.length ↔ off + data.length ≤ buf.length)) := by
  refine ⟨?_, read_request_loop_length, ?_, ?_⟩
  · intro bytes rest buffer total left hsum hlt hlen
    have hgot : (bytes.take left).length ≤ left := by
      rw [List.length_take]; omega
    refine ⟨hgot, by omega, by omega, ?_, ?_⟩
    · rw [memwrite_length _ _ _ (by omega)]; exact hlen
    · intro hne hnot hfull
      have hn : ¬ (bytes.take left).length = 0 := by
        intro h0
        exact hne (List.length_eq_zero.mp h0)
      conv_lhs => unfold read_request_loop
      simp only [hlt, if_true]
      rw [if_neg hn, if_neg (by rw [hnot]; simp), if_neg hfull]
  · intro script
    exact read_request_loop_length script initial_buffer 0 BUFFER_LEN (by simp)
      (by simp [initial_buffer])
  · intro buf data off hd
    exact ⟨memwrite_inside buf data off hd, memwrite_length buf data off⟩

/-- A client that sends 3000 bytes in one piece: the buffer keeps its 2049
bytes. C28 at a concrete script. -/
theorem read_request_stays_in_buffer_witness :
    (read_request [RecvResult.data ("GET /".toList ++ List.replicate 2995 'a')]
      initial_buffer).2.length = 2049 :=
  read_request_stays_in_buffer.2.2.1 _

/-- C29: the strings copied into the local arrays of `handle_client` fit
them. A content type that `file_stats` writes has at most
`MAX_CONTENT_TYPE_LEN` characters (the array, zero-initialised, holds the
empty string before the call), and `application/octet-stream` has exactly as
many; the status messages have at most `MAX_CONTENT_M_LEN` characters, and
`Not Found` exactly as many; the status codes have `STATUS_CODE_LEN`
characters. -/
theorem local_buffers_fit :
    (∀ (stat : List Char → Option Stat) (full T ct : List Char) (fs : Nat),
      strlen ct ≤ MAX_CONTENT_TYPE_LEN →
      strlen (file_stats stat full T ct fs).content_type ≤ MAX_CONTENT_TYPE_LEN) ∧
    strlen "application/octet-stream".toList = MAX_CONTENT_TYPE_LEN ∧
    (∀ file_status : Int,
      strlen (if file_status ≠ 0 then STATUS_OK_M else STATUS_NF_M) ≤ MAX_CONTENT_M_LEN ∧
      strlen (if file_status ≠ 0 then STATUS_OK else STATUS_NF) = STATUS_CODE_LEN) ∧
    strlen STATUS_NF_M = MAX_CONTENT_M_LEN ∧
    (∀ (args : Arg) (env : Env) (T : List Char),
      (parse_request (cstr (read_request env.recvs initial_buffer).2)).file_path = some T →
      strlen (if path_component_exists T then (⟨0, [], 0⟩ : FileStats)
        else file_stats env.stat (file_path_full args.root_path T) T [] 0).content_type
        ≤ MAX_CONTENT_TYPE_LEN) := by
  have hfs : ∀ (stat : List Char → Option Stat) (full T ct : List Char) (fs : Nat),
      strlen ct ≤ MAX_CONTENT_TYPE_LEN →
      strlen (file_stats stat full T ct fs).content_type ≤ MAX_CONTENT_TYPE_LEN := by
    intro stat full T ct fs h
    unfold file_stats
    dsimp only
    repeat' split
    all_goals first | exact h | (dsimp only; decide)
  refine ⟨hfs, by decide, ?_, by decide, ?_⟩
  · intro file_status
    by_cases h : file_status ≠ 0
    · rw [if_pos h, if_pos h]; decide
    · rw [if_neg h, if_neg h]; decide
  · intro args env T _
    split
    · decide
    · exact hfs _ _ _ _ _ (by decide)

/-- The content types of the table and the two status lines: C29 at the
values the program uses. -/
theorem local_buffers_fit_witness :
    strlen (file_stats (fun _ => some ⟨true, 120⟩) "/srv/a.js".toList "/a.js".toList [] 0).content_type
      ≤ 24 ∧
    (file_stats (fun _ => some ⟨true, 120⟩) "/srv/a.js".toList "/a.js".toList [] 0).content_type
      = "text/javascript".toList ∧
    strlen STATUS_NF_M = 9 :=
  ⟨local_buffers_fit.1 _ _ _ _ _ (by decide), by decide, local_buffers_fit.2.2.2.1⟩

end CServer
